import Mathlib

/-!
# drecouse/refl : static reflection for C++ through a clang plugin

A shallow embedding of

* `src/plugin.cpp` : the descriptor extractor.  `ReflRecordMatchCallback::run`
  prints, for every annotated record, the alias
  `public:using _meta=refl::RecordType<...>;` and, for every annotated enum, the
  explicit specialization `template<>struct refl::meta<E>:EnumType<...>{...};`.
  The embedding builds the descriptor that this text denotes (the lists of
  `Base`, `Func`, `Var`, `Constr`, `Enumerator`), every string field computed
  exactly as the `formatv` calls compute it.
* `include/refl/refl.hpp` : the metadata runtime (`meta`, `reflected`, `with`,
  `for_each`, the access bounded traversals, the `refl::e` enum operations).
  Visitors are state transformers; a traversal threads the state through them.

C++ strings are `String`; `std::string_view` operations are defined on the
underlying character lists.  `size_t` arithmetic is taken modulo `2^64`.
-/

set_option autoImplicit false

namespace Refl

/-! ## Strings -/

/-- The value `std::string_view::npos`, the largest `size_t`. -/
def npos : Nat := 2 ^ 64 - 1

/-- The member `std::string_view::starts_with`. -/
def starts_with (s p : String) : Bool := p.data.isPrefixOf s.data

/-- The member `std::string_view::ends_with`. -/
def ends_with (s p : String) : Bool := p.data.isSuffixOf s.data

/-- Index of the first occurrence of `pat` in `s`, as `std::string::find` returns it
(`none` stands for `npos`). -/
def findChars (pat : List Char) : List Char → Option Nat
  | [] => if pat.isEmpty then some 0 else none
  | c :: cs =>
    if pat.isPrefixOf (c :: cs) then some 0
    else (findChars pat cs).map (· + 1)

/-- The test `s.find(pat) != std::string::npos`. -/
def contains (s pat : String) : Bool := (findChars pat.data s.data).isSome

/-- The member `find_first_of(c)`: index of the first `c`, or `npos`. -/
def find_first_of (s : String) (c : Char) : Nat :=
  match s.data.indexOf? c with
  | some i => i
  | none => npos

/-- The member `find_last_of(c)`: index of the last `c`, or `npos`. -/
def find_last_of (s : String) (c : Char) : Nat :=
  match s.data.reverse.indexOf? c with
  | some i => s.data.length - 1 - i
  | none => npos

/-- The member `substr(pos, n)` for `pos <= size()`: the characters from `pos` on, at most `n`
of them.  (Every call of the extractor has `pos <= size()`: `pos` is `0` or one more than
the index of a character of the string.) -/
def substr (s : String) (pos n : Nat) : String := ⟨(s.data.drop pos).take n⟩

/-- The statements `found = t.find("_Bool"); if (found != npos) t.replace(found, 5, rep);`:
the first occurrence of `_Bool` is replaced by `rep`. -/
def replace_Bool (rep : String) (t : String) : String :=
  match findChars "_Bool".data t.data with
  | some found => ⟨t.data.take found ++ rep.data ++ t.data.drop (found + 5)⟩
  | none => t

/-! ## The declarations the front end hands to the plugin -/

/-- A C++ type, denoted by its name. -/
abbrev TypeName := String

/-- The enum `refl::AccessSpecifier`; also the three access levels a class member or a base
specifier can have in clang (`AS_private`, `AS_protected`, `AS_public`).  The fourth clang
value `AS_none` is not an access level of a member of a class: the extractor's
`default: assert(false)` branch is not reachable from `methods()`, `fields()` or a static data
member, and is left out. -/
inductive AccessSpecifier where
  | Private
  | Protected
  | Public
  deriving DecidableEq, Repr

/-- The conversion `static_cast<int>(access)`. -/
def AccessSpecifier.toInt : AccessSpecifier → Int
  | .Private => 0
  | .Protected => 1
  | .Public => 2

/-- An attribute of a declaration, as the plugin observes it. -/
structure Attr where
  /-- the result of `getSpelling()` -/
  spelling : String
  /-- the result of `Lexer::getSourceText(CharSourceRange::getTokenRange(a->getRange()), ..)` -/
  sourceText : String
  /-- the text that `printPretty` prints -/
  pretty : String
  deriving DecidableEq, Repr

/-- A parameter of a method or constructor. -/
structure ParmVarDecl where
  /-- the result of `getType().getAsString()` -/
  type : String
  /-- the result of `getNameAsString()` -/
  name : String
  deriving DecidableEq, Repr

/-- The clang enum `RefQualifierKind`. -/
inductive RefQualifierKind where
  | RQ_None
  | RQ_LValue
  | RQ_RValue
  deriving DecidableEq, Repr

/-- An element of `recordDecl->methods()`. -/
structure CXXMethodDecl where
  name : String
  qualifiedName : String
  /-- the test `isa<CXXConstructorDecl>(it)` -/
  isConstructor : Bool
  /-- the test `isa<CXXDestructorDecl>(it)` -/
  isDestructor : Bool
  isImplicit : Bool
  isDeleted : Bool
  isInstance : Bool
  isVirtual : Bool
  access : AccessSpecifier
  /-- the result of `getReturnType().getAsString()` -/
  returnType : String
  /-- the result of `getMethodQualifiers().getAsString()` -/
  methodQualifiers : String
  refQualifier : RefQualifierKind
  parameters : List ParmVarDecl
  attrs : List Attr
  deriving DecidableEq, Repr

/-- An element of `recordDecl->fields()`: a non-static data member. -/
structure FieldDecl where
  name : String
  qualifiedName : String
  access : AccessSpecifier
  isMutable : Bool
  attrs : List Attr
  deriving DecidableEq, Repr

/-- A `VarDecl` that `isStaticFieldOf(recordDecl)` matches: a static data member. -/
structure VarDecl where
  name : String
  qualifiedName : String
  access : AccessSpecifier
  attrs : List Attr
  deriving DecidableEq, Repr

/-- An element of `recordDecl->bases()`. -/
structure CXXBaseSpecifier where
  /-- the base type, `it.getType()` -/
  type : TypeName
  /-- the result of `getAccessSpecifier()` -/
  access : AccessSpecifier
  deriving DecidableEq, Repr

/-- A record declaration. -/
structure CXXRecordDecl where
  /-- the result of `getName()` -/
  name : String
  /-- the result of `getQualifiedNameAsString()` -/
  qualifiedName : String
  /-- the result of `getLocation().getPtrEncoding()` -/
  location : Nat
  attrs : List Attr
  bases : List CXXBaseSpecifier
  methods : List CXXMethodDecl
  fields : List FieldDecl
  /-- the variable declarations of the translation unit that `isStaticFieldOf` matches, in the
  order in which `matchAST` reports them -/
  staticFields : List VarDecl
  deriving DecidableEq, Repr

/-- An element of `enumDecl->enumerators()`. -/
structure EnumConstantDecl where
  name : String
  /-- the value of the enumerator `E::name` -/
  value : Int
  deriving DecidableEq, Repr

/-- The kind of the outermost declaration context around an enum, the `p` that the loop
`while (!p->getParent()->isTranslationUnit()) p = p->getParent();` ends with. -/
inductive OutermostContext where
  /-- the test `isa<NamespaceDecl>(p)` holds -/
  | namespaceDecl
  /-- the test `isa<TagDecl>(p)` holds: the enum itself, or a class around it -/
  | tagDecl
  /-- neither (a function, a linkage specification) -/
  | other
  deriving DecidableEq, Repr

/-- An enum declaration. -/
structure EnumDecl where
  /-- the result of `getDeclName()` -/
  name : String
  qualifiedName : String
  attrs : List Attr
  enumerators : List EnumConstantDecl
  outermost : OutermostContext
  deriving DecidableEq, Repr

/-! ## Directives (`attribute.cpp`) -/

/-- The two type directives, `[[refl::all]]` and `[[refl::none]]`. -/
inductive TypeDirective where
  | All
  | None
  deriving DecidableEq, Repr

/-- The three member directives: `[[refl::include]]`, `[[refl::exclude]]` and
`__attribute__((refl_tag(payload)))`. -/
inductive MemberDirective where
  | Include
  | Exclude
  | Tag (payload : String)
  deriving DecidableEq, Repr

/-- The attribute that `ReflectClassAttrInfo::handleDeclAttribute` attaches for a type
directive: an `AnnotateAttr` (spelling `annotate`) with the annotation `refl_all` or
`refl_none` and the source range of the directive. -/
def TypeDirective.attr : TypeDirective → Attr
  | .All => ⟨"annotate", "refl::all", " [[clang::annotate(\"refl_all\")]]"⟩
  | .None => ⟨"annotate", "refl::none", " [[clang::annotate(\"refl_none\")]]"⟩

/-- The attribute that `ReflectMemberAttrInfo::handleDeclAttribute` attaches for a member
directive: an `AnnotateAttr` with the annotation `refl_include`, `refl_exclude` or `refl_tag`
(the latter with the payload expression as argument) and the source range of the
directive. -/
def MemberDirective.attr : MemberDirective → Attr
  | .Include => ⟨"annotate", "refl::include", " [[clang::annotate(\"refl_include\")]]"⟩
  | .Exclude => ⟨"annotate", "refl::exclude", " [[clang::annotate(\"refl_exclude\")]]"⟩
  | .Tag payload =>
    ⟨"annotate", "refl_tag(" ++ payload ++ ")",
      " [[clang::annotate(\"refl_tag\", " ++ payload ++ ")]]"⟩

/-! ## The extractor (`plugin.cpp`) -/

/-- The enum `ReflSpec`. -/
inductive ReflSpec where
  | all
  | none
  | include
  | exclude
  | tag
  | unknown
  deriving DecidableEq, Repr

/-- The function `getReflSpec`: the first `annotate` attribute whose source text is a
reflection directive decides; `unknown` when there is none. -/
def getReflSpec : List Attr → ReflSpec
  | [] => .unknown
  | a :: attrs =>
    if a.spelling = "annotate" then
      let s := a.sourceText
      if starts_with s "refl_" then .tag
      else if starts_with s "refl::" then
        if ends_with s "all" then .all
        else if ends_with s "none" then .none
        else if ends_with s "include" then .include
        else if ends_with s "exclude" then .exclude
        else getReflSpec attrs
      else getReflSpec attrs
    else getReflSpec attrs

/-- The matcher `hasReflectAttr(AttrName)`: some `annotate` attribute prints a text that
contains `AttrName`. -/
def hasReflectAttr (AttrName : String) (attrs : List Attr) : Bool :=
  attrs.any fun a => a.spelling = "annotate" && contains a.pretty AttrName

/-- The matchers of `ReflConsumer::HandleTranslationUnit`:
`anyOf(hasReflectAttr("none"), hasReflectAttr("all"))`. -/
def matchesReflected (attrs : List Attr) : Bool :=
  hasReflectAttr "none" attrs || hasReflectAttr "all" attrs

/-! ## The descriptor model (`refl.hpp`) -/

/-- The template `refl::Base<B, I>`. -/
structure Base where
  type : TypeName
  access : AccessSpecifier
  deriving DecidableEq, Repr

/-- The template `refl::PList<P, Names...>`: the parameter types and the parameter names. -/
structure PList where
  types : List String
  names : List String
  deriving DecidableEq, Repr

/-- The template `refl::Func<P, N, UN, ON, VIRT, A, R, Params, TAGS...>`. -/
structure Func where
  /-- the pointer expression `P` -/
  ptr : String
  name : String
  qualified_name : String
  full_name : String
  is_virtual : Bool
  access : AccessSpecifier
  return_type : String
  parameters : PList
  /-- the tag expressions `TAGS...` -/
  tags : List String
  /-- the result of `is_instance()`: `P` is a pointer to member function -/
  is_instance : Bool
  deriving DecidableEq, Repr

/-- The template `refl::Var<P, N, UN, MUT, A, TAGS...>`. -/
structure Var where
  ptr : String
  name : String
  qualified_name : String
  is_mutable : Bool
  access : AccessSpecifier
  tags : List String
  /-- the result of `is_instance()`: `P` is a pointer to member object -/
  is_instance : Bool
  deriving DecidableEq, Repr

/-- The template `refl::Constr<N, T, Params, TAGS...>`. -/
structure Constr where
  name : String
  type : TypeName
  parameters : PList
  tags : List String
  deriving DecidableEq, Repr

/-- The template `refl::RecordType<T, N, UN, B, F, V, C>`; `reflected` is `true` for every
instance of it. -/
structure RecordType where
  type : TypeName
  name : String
  qualified_name : String
  base_classes : List Base
  functions : List Func
  /-- the member `variables` (the name is a reserved word here) -/
  variables_ : List Var
  constructors : List Constr
  deriving DecidableEq, Repr

/-- The template `refl::Enumerator<E>`. -/
structure Enumerator where
  name : String
  value : Int
  deriving DecidableEq, Repr

/-- The specialization `template<> struct refl::meta<E> : EnumType<E, N, UN>` that the plugin
prints for an enum: the array `enumerators` and the `case` lists of the two `switch`
statements of `to_string` and `to_string_safe` (each `case E::n: return "n";`, in the order
printed). -/
structure EnumMeta where
  type : TypeName
  name : String
  qualified_name : String
  /-- the size `N` in the type `std::array<refl::Enumerator<E>, N>` of `enumerators` -/
  enumerators_size : Nat
  /-- the initializers of the array `enumerators` -/
  enumerators : List Enumerator
  to_string_cases : List (Int × String)
  to_string_safe_cases : List (Int × String)
  deriving DecidableEq, Repr

/-! ### Extraction of a record -/

/-- The loop over `recordDecl->bases()`: one `refl::Base<type, refl::AccessSpecifier::access>`
for every base, in the order of the bases. -/
def extractBases : List CXXBaseSpecifier → List Base
  | [] => []
  | it :: rest => { type := it.type, access := it.access } :: extractBases rest

/-- The loop over `it->parameters()` of a method: the text `params` (the type names, joined
by `,` through the flag `f`) and the parameter descriptor
`refl::PList<REFL_TUPLE<params>paramNames>`.  In every type name the first `_Bool` becomes
`bool`. -/
def paramsLoop : Bool → String → PList → List ParmVarDecl → String × PList
  | _, params, plist, [] => (params, plist)
  | f, params, plist, p :: rest =>
    let params := if f then params ++ "," else params
    let pname := replace_Bool "bool" p.type
    paramsLoop true (params ++ pname)
      { types := plist.types ++ [pname], names := plist.names ++ [p.name] } rest

/-- The source text between the first `(` and the last `)`:
`s.substr(f + 1, l - f - 1)` with `f = s.find_first_of('(')`, `l = s.find_last_of(')')`,
in `size_t` arithmetic. -/
def tagPayload (s : String) : String :=
  let f := find_first_of s '('
  let l := find_last_of s ')'
  substr s ((f + 1) % 2 ^ 64) ((l + 2 ^ 64 - f + 2 ^ 64 - 1) % 2 ^ 64)

/-- The loop over the attributes of a method or field that appends `,payload` for every
`annotate` attribute whose source text starts with `refl_tag`. -/
def tagsLoop : List Attr → List String
  | [] => []
  | a :: attrs =>
    if a.spelling = "annotate" then
      if !starts_with a.sourceText "refl_tag" then tagsLoop attrs
      else tagPayload a.sourceText :: tagsLoop attrs
    else tagsLoop attrs

/-- The loop over the attributes of a constructor: it appends `,payload` for every `annotate`
attribute (there is no `refl_tag` test in this loop). -/
def constrTagsLoop : List Attr → List String
  | [] => []
  | a :: attrs =>
    if a.spelling = "annotate" then tagPayload a.sourceText :: constrTagsLoop attrs
    else constrTagsLoop attrs

/-- The text `rqual`: the method qualifiers followed by the reference qualifier. -/
def rqual (qual : String) : RefQualifierKind → String
  | .RQ_LValue => qual ++ " &"
  | .RQ_RValue => qual ++ " &&"
  | .RQ_None => qual

/-- The `refl::Func<...>` printed for an included method `it` of the record named `sname`. -/
def emitFunc (sname : String) (it : CXXMethodDecl) : Func :=
  let str := it.name
  let strq := it.qualifiedName
  let ret := replace_Bool "bool " it.returnType
  let qual := it.methodQualifiers
  let (params, plist) := paramsLoop false "" { types := [], names := [] } it.parameters
  let rq := rqual qual it.refQualifier
  { ptr :=
      (if it.isInstance then "static_cast<" ++ ret ++ "(" ++ sname ++ "::*)"
       else "static_cast<" ++ ret ++ "(*)")
        ++ "(" ++ params ++ ")" ++ rq ++ ">(&" ++ sname ++ "::" ++ str ++ ")"
    name := str
    qualified_name := strq
    full_name := str ++ "(" ++ params ++ ")" ++ rq
    is_virtual := it.isVirtual
    access := it.access
    return_type := ret
    parameters := plist
    tags := tagsLoop it.attrs
    is_instance := it.isInstance }

/-- The first loop over `recordDecl->methods()`: the method list of the descriptor. -/
def functionsLoop (spec : ReflSpec) (sname : String) : List CXXMethodDecl → List Func
  | [] => []
  | it :: rest =>
    if it.isConstructor || it.isDestructor || it.isImplicit || it.isDeleted then
      functionsLoop spec sname rest
    else
      let mspec := getReflSpec it.attrs
      if mspec = .exclude then functionsLoop spec sname rest
      else if spec = .none && mspec ≠ .include && mspec ≠ .tag then
        functionsLoop spec sname rest
      else emitFunc sname it :: functionsLoop spec sname rest

/-- The `refl::Var<...>` printed for an included non-static data member. -/
def emitVar (sname : String) (it : FieldDecl) : Var :=
  { ptr := "&" ++ sname ++ "::" ++ it.name
    name := it.name
    qualified_name := it.qualifiedName
    is_mutable := it.isMutable
    access := it.access
    tags := tagsLoop it.attrs
    is_instance := true }

/-- The loop over `recordDecl->fields()`. -/
def fieldsLoop (spec : ReflSpec) (sname : String) : List FieldDecl → List Var
  | [] => []
  | it :: rest =>
    let mspec := getReflSpec it.attrs
    if mspec = .exclude then fieldsLoop spec sname rest
    else if spec = .none && mspec ≠ .include && mspec ≠ .tag then fieldsLoop spec sname rest
    else emitVar sname it :: fieldsLoop spec sname rest

/-- The `refl::Var<...>` printed for an included static data member: `MUT` is `false`. -/
def emitStaticVar (sname : String) (it : VarDecl) : Var :=
  { ptr := "&" ++ sname ++ "::" ++ it.name
    name := it.name
    qualified_name := it.qualifiedName
    is_mutable := false
    access := it.access
    tags := tagsLoop it.attrs
    is_instance := false }

/-- The flag `ok` of the static match callback. -/
def staticOk (spec mspec : ReflSpec) : Bool :=
  let ok := false
  let ok := if spec ≠ .unknown && (mspec = .include || mspec = .tag) then true else ok
  let ok := if spec = .all && mspec ≠ .exclude then true else ok
  ok

/-- The static match callback, run over the matched static data members. -/
def staticsLoop (spec : ReflSpec) (sname : String) : List VarDecl → List Var
  | [] => []
  | it :: rest =>
    let mspec := getReflSpec it.attrs
    if staticOk spec mspec then emitStaticVar sname it :: staticsLoop spec sname rest
    else staticsLoop spec sname rest

/-- The `refl::Constr<...>` printed for an included constructor. -/
def emitConstr (sname : String) (it : CXXMethodDecl) : Constr :=
  let (params, plist) := paramsLoop false "" { types := [], names := [] } it.parameters
  { name := sname ++ "(" ++ params ++ ")"
    type := sname
    parameters := plist
    tags := constrTagsLoop it.attrs }

/-- The second loop over `recordDecl->methods()`: the constructor list of the descriptor. -/
def constructorsLoop (spec : ReflSpec) (sname : String) : List CXXMethodDecl → List Constr
  | [] => []
  | it :: rest =>
    if !it.isConstructor || it.isDeleted then constructorsLoop spec sname rest
    else
      let mspec := getReflSpec it.attrs
      if mspec = .exclude then constructorsLoop spec sname rest
      else if spec = .none && mspec ≠ .include && mspec ≠ .tag then
        constructorsLoop spec sname rest
      else emitConstr sname it :: constructorsLoop spec sname rest

/-- The record branch of `ReflRecordMatchCallback::run` (after the `unique` test): the
descriptor `refl::RecordType<sname, "sname", "qname", bases, functions, variables,
constructors>` that the printed alias `_meta` denotes.  The variable list holds the
non-static data members first, then the static ones. -/
def extractRecord (recordDecl : CXXRecordDecl) : RecordType :=
  let spec := getReflSpec recordDecl.attrs
  let sname := recordDecl.name
  let qname := recordDecl.qualifiedName
  { type := sname
    name := sname
    qualified_name := qname
    base_classes := extractBases recordDecl.bases
    functions := functionsLoop spec sname recordDecl.methods
    variables_ := fieldsLoop spec sname recordDecl.fields
      ++ staticsLoop spec sname recordDecl.staticFields
    constructors := constructorsLoop spec sname recordDecl.methods }

/-! ### Extraction of an enum -/

/-- The loop `int count = 0; for (auto _ : enumDecl->enumerators()) count++;`. -/
def countLoop : Nat → List EnumConstantDecl → Nat
  | count, [] => count
  | count, _ :: rest => countLoop (count + 1) rest

/-- The loop that prints `refl::Enumerator<E>{"n", E::n}` for every enumerator. -/
def enumeratorsLoop : List EnumConstantDecl → List Enumerator
  | [] => []
  | e :: rest => { name := e.name, value := e.value } :: enumeratorsLoop rest

/-- The loop that prints `case E::n: return "n";` for every enumerator. -/
def casesLoop : List EnumConstantDecl → List (Int × String)
  | [] => []
  | e :: rest => (e.value, e.name) :: casesLoop rest

/-- The enum branch of `ReflRecordMatchCallback::run`: the specialization
`refl::meta<qname> : EnumType<qname, "sname", "qname">` with its members. -/
def extractEnum (enumDecl : EnumDecl) : EnumMeta :=
  let sname := enumDecl.name
  let qname := enumDecl.qualifiedName
  { type := qname
    name := sname
    qualified_name := qname
    enumerators_size := countLoop 0 enumDecl.enumerators
    enumerators := enumeratorsLoop enumDecl.enumerators
    to_string_cases := casesLoop enumDecl.enumerators
    to_string_safe_cases := casesLoop enumDecl.enumerators }

/-- The test `loc.isValid()` of the enum branch: the text is inserted only when the outermost
context around the enum is a namespace or a tag declaration. -/
def enumLocValid (enumDecl : EnumDecl) : Bool :=
  match enumDecl.outermost with
  | .namespaceDecl => true
  | .tagDecl => true
  | .other => false

/-! ## The metadata runtime (`refl.hpp`) -/

/-- A C++ type that a runtime template is instantiated with: a class type, an enum type, or
any other type. -/
inductive CxxType where
  | record (n : TypeName)
  | enumeration (n : TypeName)
  | other (n : TypeName)
  deriving DecidableEq, Repr

/-- What the compiler knows about the types of the rewritten translation unit. -/
structure Program where
  /-- the type that the qualified name `T::_meta` denotes for a class type `T`, when the
  requirement `typename T::_meta{}` of the concept `has_reflection` is satisfied -/
  member_meta : TypeName → Option RecordType
  /-- the explicit specialization `refl::meta<E>` of an enum type `E`, when one is
  declared -/
  meta_specialization : TypeName → Option EnumMeta

/-- The three shapes of `refl::meta<T>`. -/
inductive Meta where
  /-- the primary template: `reflected = false` and nothing else -/
  | primary
  /-- the partial specialization `meta<T> : T::_meta` -/
  | record (M : RecordType)
  /-- the explicit specialization printed for an enum -/
  | enumeration (M : EnumMeta)
  deriving DecidableEq, Repr

/-- The concept `has_reflection<T>`: `typename T::_meta{}` is well formed. -/
def has_reflection (P : Program) : CxxType → Bool
  | .record n => (P.member_meta n).isSome
  | .enumeration _ => false
  | .other _ => false

/-- The class template `refl::meta<T>` with its specializations. -/
def meta (P : Program) : CxxType → Meta
  | .record n =>
    match P.member_meta n with
    | some M => .record M
    | none => .primary
  | .enumeration n =>
    match P.meta_specialization n with
    | some M => .enumeration M
    | none => .primary
  | .other _ => .primary

/-- The member `meta<T>::reflected`. -/
def Meta.reflected : Meta → Bool
  | .primary => false
  | .record _ => true
  | .enumeration _ => true

/-- The concept `reflected<T...>`: `(... && meta<T>::reflected)`. -/
def reflected (P : Program) (T : List CxxType) : Bool :=
  T.all fun t => (meta P t).reflected

/-- The function `with<T...>(c)`.  The callback `c` is a generic lambda: it is given the
types `refl::meta<T>...` and transforms the state its captures refer to.  In the other branch
the expression statement `std::runtime_error{..};` creates a temporary and destroys it;
nothing is thrown. -/
def with_ {m : Type → Type} [Monad m] {σ : Type} (P : Program) (T : List CxxType)
    (c : List Meta → σ → m σ) (s : σ) : m σ :=
  if reflected P T then c (T.map (meta P)) s
  else pure s

/-- The function `for_each<T>(func)`: `func` is called with every element of the tuple `T`,
in index order. -/
def for_each {m : Type → Type} [Monad m] {α σ : Type} :
    List α → (α → σ → m σ) → σ → m σ
  | [], _, s => pure s
  | x :: xs, func, s => do
    let s ← func x s
    for_each xs func s

/-- The function `for_each_base_class<T>(func)`. -/
def for_each_base_class {m : Type → Type} [Monad m] {σ : Type} (T : RecordType)
    (func : Base → σ → m σ) (s : σ) : m σ :=
  for_each T.base_classes func s

/-- The function `for_each_variable<T>(func)`, without an access bound. -/
def for_each_variable {m : Type → Type} [Monad m] {σ : Type} (T : RecordType)
    (func : Var → σ → m σ) (s : σ) : m σ :=
  for_each T.variables_ func s

/-- The function `for_each_constructor<T>(func)`. -/
def for_each_constructor {m : Type → Type} [Monad m] {σ : Type} (T : RecordType)
    (func : Constr → σ → m σ) (s : σ) : m σ :=
  for_each T.constructors func s

/-- The function `for_each_function<T>(func)`, without an access bound. -/
def for_each_function {m : Type → Type} [Monad m] {σ : Type} (T : RecordType)
    (func : Func → σ → m σ) (s : σ) : m σ :=
  for_each T.functions func s

/-- The function `for_each_function<T, A>(func)`, which also visits the bases with access at
least `A`.  The recursion follows the base classes named by the descriptors; `fuel` bounds
its depth and `none` is returned when the bound is reached.  The callback given to `with`
instantiates `for_each_function<M, A>` with the one type it receives, which is the `_meta` of
a class. -/
def for_each_function_A {σ : Type} (P : Program) (A : AccessSpecifier) (func : Func → σ → σ) :
    Nat → RecordType → σ → Option σ
  | 0, _, _ => none
  | fuel + 1, T, s => do
    let s ← for_each T.functions (fun f s => some (func f s)) s
    for_each_base_class T (fun B s =>
      if B.access.toInt ≥ A.toInt then
        with_ P [.record B.type] (fun M s =>
          match M with
          | [.record M] => for_each_function_A P A func fuel M s
          | _ => none) s
      else some s) s

/-! ### The access bounded traversal of the variables -/

/-- The outcome of instantiating and running a function template. -/
inductive Run (σ : Type) where
  /-- the instantiation is ill-formed: the program does not compile -/
  | ill_formed (what : String)
  /-- the recursion bound of the embedding is reached -/
  | out_of_fuel
  /-- the call returns, leaving the state `s` -/
  | done (s : σ)
  deriving DecidableEq, Repr

/-- Sequencing of outcomes. -/
def Run.bind {σ τ : Type} : Run σ → (σ → Run τ) → Run τ
  | .ill_formed what, _ => .ill_formed what
  | .out_of_fuel, _ => .out_of_fuel
  | .done s, k => k s

instance : Monad Run where
  pure := Run.done
  bind := Run.bind

/-- The member types of `refl::RecordType<...>` that are tuples of `refl::Var`, by name:
`variables` is the only one.  Any other name is not a member, and `typename T::name` is
ill-formed. -/
def RecordType.varTuple (T : RecordType) (memberName : String) : Option (List Var) :=
  if memberName = "variables" then some T.variables_ else none

/-- The function `for_each_variable<T, A>(func)`, which is to visit also the variables of the
bases with access at least `A`.  Its first statement is `for_each<typename T::variable>(func)`.
The recursion follows the base classes named by the descriptors; `fuel` bounds its depth. -/
def for_each_variable_A {σ : Type} (P : Program) (A : AccessSpecifier) (func : Var → σ → σ) :
    Nat → RecordType → σ → Run σ
  | fuel, T, s =>
    match T.varTuple "variable" with
    | none => .ill_formed "no type named 'variable' in 'refl::RecordType'"
    | some own =>
      match fuel with
      | 0 => .out_of_fuel
      | fuel + 1 =>
        Run.bind (for_each own (fun v s => Run.done (func v s)) s) fun s =>
          for_each_base_class T (fun B s =>
            if B.access.toInt ≥ A.toInt then
              with_ P [.record B.type] (fun M s =>
                match M with
                | [.record M] => for_each_variable_A P A func fuel M s
                | _ => .ill_formed "the constraint 'meta_type' is not satisfied") s
            else Run.done s) s

/-! ### Constructor classification

Types are denoted by their names in the spelling of clang; two names denote the same type
when they are equal. -/

/-- The value `std::tuple_size<P>()`. -/
def tuple_size (P : List TypeName) : Nat := P.length

/-- The type `std::tuple_element_t<I, P>`; there is none when `I` is not an index of the
tuple (the instantiation is ill-formed). -/
def tuple_element (I : Nat) (P : List TypeName) : Option TypeName := P[I]?

/-- The value `std::is_same_v<A, B>`. -/
def is_same (A B : TypeName) : Bool := decide (A = B)

/-- The type `const T&`. -/
def constLvalueRef (T : TypeName) : TypeName := "const " ++ T ++ " &"

/-- The type `T&&`. -/
def rvalueRef (T : TypeName) : TypeName := T ++ " &&"

/-- The member `Constr::is_default()`. -/
def Constr.is_default (C : Constr) : Bool := tuple_size C.parameters.types == 0

/-- The member `Constr::is_copy()`: the `if constexpr` guards the use of `tuple_element_t`.
The result is `none` when the body is ill-formed. -/
def Constr.is_copy (C : Constr) : Option Bool :=
  if tuple_size C.parameters.types = 1 then
    match tuple_element 0 C.parameters.types with
    | some t => some (is_same (constLvalueRef C.type) t)
    | none => none
  else some false

/-- The member `Constr::is_move_copy()`: the expression
`tuple_size<P>() == 1 && is_same_v<T&&, tuple_element_t<0, P>>` names the type
`tuple_element_t<0, P>` whatever the size is.  The result is `none` when the body is
ill-formed. -/
def Constr.is_move_copy (C : Constr) : Option Bool :=
  match tuple_element 0 C.parameters.types with
  | some t => some (tuple_size C.parameters.types == 1 && is_same (rvalueRef C.type) t)
  | none => none

/-! ### Tags -/

/-- An element of the tuple `T::tags`: a value together with its type. -/
structure TagValue (α : Type) where
  type : TypeName
  value : α
  deriving DecidableEq, Repr

/-- The function `with_tag<T, TAG>(func)` on the tuple `T::tags`: the fold over the indices
calls `func(std::get<I>(tags))` for every index `I` whose element type is `TAG`. -/
def with_tag {α σ : Type} : List (TagValue α) → TypeName → (α → σ → σ) → σ → σ
  | [], _, _, s => s
  | d :: rest, TAG, func, s =>
    with_tag rest TAG func (if is_same TAG d.type then func d.value s else s)

/-- The function `detail::has_tag<T, TAG>()`: the fold `(... || is_same_v<TAG, element I>)`
from the left, `false` for the empty tuple. -/
def detail.has_tag {α : Type} (tags : List (TagValue α)) (TAG : TypeName) : Bool :=
  tags.foldl (fun acc d => acc || is_same TAG d.type) false

/-- The concept `has_tag<T, TAG>`. -/
def has_tag {α : Type} (tags : List (TagValue α)) (TAG : TypeName) : Bool :=
  detail.has_tag tags TAG

/-! ### Enum operations -/

/-- The way an operation fails. -/
inductive Failure where
  /-- a `std::runtime_error` with the given message is thrown -/
  | runtime_error (what : String)
  /-- the expression `assert(false)` is evaluated -/
  | assertion_failed
  /-- the printed member that the operation calls is ill-formed: the compiler rejects the
  program with the given error -/
  | ill_formed (what : String)
  deriving DecidableEq, Repr

/-- The statement of the `case` whose label equals `v`, if there is one, in a `case` list with
pairwise distinct labels. -/
def selectCase : List (Int × String) → Int → Option String
  | [], _ => none
  | (label, text) :: rest, v => if label = v then some text else selectCase rest v

/-- The test of the compiler on the labels of a `switch`: no two `case` labels have the same
value. -/
def distinct_labels : List Int → Bool
  | [] => true
  | label :: rest => !rest.contains label && distinct_labels rest

/-- A `switch (v)` over the printed `case` list.  When two `case` labels have the same value
the statement is ill-formed (`duplicate case value`) and the program does not compile;
otherwise the statement of the case whose label equals `v` is executed, if there is one. -/
def switchCase (cases : List (Int × String)) (v : Int) : Except Failure (Option String) :=
  if distinct_labels (cases.map Prod.fst) then .ok (selectCase cases v)
  else .error (.ill_formed "duplicate case value")

/-- The printed member `valid`: `for (const auto& e : enumerators) if (e.value == v) return
true; return false;`. -/
def EnumMeta.validLoop : List Enumerator → Int → Bool
  | [], _ => false
  | e :: rest, v => if e.value = v then true else EnumMeta.validLoop rest v

/-- The printed member `valid(v)`. -/
def EnumMeta.valid (M : EnumMeta) (v : Int) : Bool := EnumMeta.validLoop M.enumerators v

/-- The printed member `to_string(v)`: the `switch` with `default: assert(false)`. -/
def EnumMeta.to_string (M : EnumMeta) (v : Int) : Except Failure String :=
  match switchCase M.to_string_cases v with
  | .ok (some text) => .ok text
  | .ok none => .error .assertion_failed
  | .error failure => .error failure

/-- The printed member `to_string_safe(v)`: the `switch` with `default: return {};`. -/
def EnumMeta.to_string_safe (M : EnumMeta) (v : Int) : Except Failure String :=
  match switchCase M.to_string_safe_cases v with
  | .ok (some text) => .ok text
  | .ok none => .ok ""
  | .error failure => .error failure

/-- The loop of the printed member `from_string`: `for (const auto& e : enumerators)
if (e.name == n) return e.value; return std::nullopt;`. -/
def EnumMeta.fromLoop : List Enumerator → String → Option Int
  | [], _ => none
  | e :: rest, n => if e.name = n then some e.value else EnumMeta.fromLoop rest n

/-- The printed member `from_string(n)`. -/
def EnumMeta.from_string (M : EnumMeta) (n : String) : Option Int :=
  EnumMeta.fromLoop M.enumerators n

namespace e

/-- The exception every operation of `refl::e` throws for an enum that is not reflected. -/
def not_available : Failure := .runtime_error "reflection is not available for this enum"

/-- The members of `meta<T>` that the branch `if constexpr (reflected<T>)` of an operation of
`refl::e` uses; for an enum type a reflected `meta<T>` is the printed specialization. -/
def withMeta {α : Type} (P : Program) (T : TypeName) (k : EnumMeta → Except Failure α) :
    Except Failure α :=
  if reflected P [.enumeration T] then
    match meta P (.enumeration T) with
    | .enumeration M => k M
    | _ => .error not_available
  else .error not_available

/-- The function `refl::e::from_string<T>(name)`. -/
def from_string (P : Program) (T : TypeName) (name : String) : Except Failure (Option Int) :=
  withMeta P T fun M => .ok (M.from_string name)

/-- The function `refl::e::to_string<T>(value)`. -/
def to_string (P : Program) (T : TypeName) (value : Int) : Except Failure String :=
  withMeta P T fun M => M.to_string value

/-- The function `refl::e::to_string_safe<T>(value)`. -/
def to_string_safe (P : Program) (T : TypeName) (value : Int) : Except Failure String :=
  withMeta P T fun M => M.to_string_safe value

/-- The function `refl::e::valid<T>(value)`. -/
def valid (P : Program) (T : TypeName) (value : Int) : Except Failure Bool :=
  withMeta P T fun M => .ok (M.valid value)

/-- The loop `for (const auto& it : meta<T>::enumerators) { func(it.value, it.name); }`. -/
def enumeratorsFor {σ : Type} : List Enumerator → (Int → String → σ → σ) → σ → σ
  | [], _, s => s
  | it :: rest, func, s => enumeratorsFor rest func (func it.value it.name s)

/-- The function `refl::e::for_each<T>(func)`: the state that the calls of the visitor leave
behind, and the way the call ends. -/
def for_each {σ : Type} (P : Program) (T : TypeName) (func : Int → String → σ → σ) (s : σ) :
    σ × Except Failure Unit :=
  if reflected P [.enumeration T] then
    match meta P (.enumeration T) with
    | .enumeration M => (enumeratorsFor M.enumerators func s, .ok ())
    | _ => (s, .error not_available)
  else (s, .error not_available)

end e

/-! ## From the declarations to the program the runtime sees -/

/-- The types a translation unit declares. -/
structure TranslationUnit where
  records : TypeName → Option CXXRecordDecl
  enums : TypeName → Option EnumDecl

/-- The alias `_meta` that the plugin adds to a record: the record is matched by
`cxxRecordDecl(anyOf(hasReflectAttr("none"), hasReflectAttr("all")))` and the callback prints
`public:using _meta=...;` before the closing brace. -/
def injected_meta (recordDecl : CXXRecordDecl) : Option RecordType :=
  if matchesReflected recordDecl.attrs then some (extractRecord recordDecl) else none

/-- The specialization `refl::meta<E>` that the plugin adds for an enum: the enum is matched
and the insertion location is valid. -/
def injected_specialization (enumDecl : EnumDecl) : Option EnumMeta :=
  if matchesReflected enumDecl.attrs && enumLocValid enumDecl then some (extractEnum enumDecl)
  else none

/-- The result of the lookup of the member name `_meta` in the scope of a class. -/
inductive Lookup where
  | notFound
  /-- the alias declared in class `owner`; `accessible` tells whether the name can be used
  from namespace `refl` -/
  | found (owner : TypeName) (M : RecordType) (accessible : Bool)
  /-- declarations of different classes are found -/
  | ambiguous
  deriving DecidableEq, Repr

/-- A member found in a base class, seen through the base specifier: through a `protected`
or `private` base the inherited name is not accessible outside the class. -/
def Lookup.through (access : AccessSpecifier) : Lookup → Lookup
  | .found owner M accessible => .found owner M (accessible && access = .Public)
  | r => r

/-- The lookup sets of two base classes are merged: the same declaration found twice is one
declaration (an alias is not a member of a subobject), different declarations make the lookup
ambiguous. -/
def Lookup.merge : Lookup → Lookup → Lookup
  | .notFound, r => r
  | r, .notFound => r
  | .found o₁ M₁ a₁, .found o₂ _ a₂ => if o₁ = o₂ then .found o₁ M₁ (a₁ || a₂) else .ambiguous
  | _, _ => .ambiguous

/-- C++ member name lookup of `_meta` in the class `T` (classes without virtual bases): a
declaration in the class itself hides those of the bases; otherwise the lookup sets of the
direct bases are merged.  The recursion follows the base specifiers; `fuel` bounds its
depth. -/
def lookup_meta (tu : TranslationUnit) : Nat → TypeName → Option Lookup
  | 0, _ => none
  | fuel + 1, T =>
    match tu.records T with
    | none => some .notFound
    | some recordDecl =>
      match injected_meta recordDecl with
      | some M => some (.found T M true)
      | none =>
        recordDecl.bases.foldl (fun acc b => do
          let r ← acc
          let rb ← lookup_meta tu fuel b.type
          pure (r.merge (rb.through b.access))) (some .notFound)

/-- The program that the compiler sees after the plugin has rewritten the translation
unit: `T::_meta` is usable when the lookup finds one accessible declaration.  The bound
`fuel` is to exceed the height of the class hierarchy of the unit. -/
def compile (fuel : Nat) (tu : TranslationUnit) : Program where
  member_meta T :=
    match lookup_meta tu fuel T with
    | some (.found _ M true) => some M
    | _ => none
  meta_specialization E :=
    match tu.enums E with
    | some enumDecl => injected_specialization enumDecl
    | none => none

/-! ## The rules of the specification, in its words -/

/-- The attributes of a member that carries at most one directive. -/
def memberAttrs (d : Option MemberDirective) : List Attr :=
  match d with
  | none => []
  | some directive => [directive.attr]

/-- The directive is `Include` or `Tag`. -/
def isIncludeOrTag : Option MemberDirective → Bool
  | some .Include => true
  | some (.Tag _) => true
  | _ => false

/-- The inclusion rule of the specification: the directive is not `Exclude` and (the mode is
`All` or the directive is `Include` or `Tag`). -/
def inclusionRule (mode : TypeDirective) (d : Option MemberDirective) : Bool :=
  (d != some .Exclude) && (mode == .All || isIncludeOrTag d)

/-- The value `getReflSpec` computes for a type that carries one type directive. -/
def TypeDirective.spec : TypeDirective → ReflSpec
  | .All => .all
  | .None => .none

/-- The value `getReflSpec` computes for a member that carries at most one directive. -/
def directiveSpec : Option MemberDirective → ReflSpec
  | none => .unknown
  | some .Include => .include
  | some .Exclude => .exclude
  | some (.Tag _) => .tag

/-- What one base `B` contributes to the visit sequence, in the words of the specification:
nothing when its access is below `A`, nothing when the base type is not reflected, and
otherwise the sequence `visit M` of the base's descriptor `M` under the same `A`.  (A class
type is reflected exactly when `member_meta` gives its descriptor.) -/
def base_sequence (P : Program) (A : AccessSpecifier)
    (visit : RecordType → Option (List Func)) (B : Base) : Option (List Func) :=
  if A.toInt ≤ B.access.toInt then
    match P.member_meta B.type with
    | some M => visit M
    | none => some []
  else some []

/-- The part of the visit sequence that the bases `bs` contribute: the contributions of the
bases, in declaration order. -/
def inherited_sequence (P : Program) (A : AccessSpecifier)
    (visit : RecordType → Option (List Func)) : List Base → Option (List Func)
  | [] => some []
  | B :: bs =>
    match base_sequence P A visit B, inherited_sequence P A visit bs with
    | some part, some rest => some (part ++ rest)
    | _, _ => none

/-- The sequence of methods that the access bounded traversal of `T` visits, in the words of
the specification: the methods of `T` in the order of its method list, then what the bases
contribute.  The recursion is cut at depth `fuel` (`none` beyond). -/
def visit_sequence (P : Program) (A : AccessSpecifier) : Nat → RecordType → Option (List Func)
  | 0, _ => none
  | fuel + 1, T =>
    (inherited_sequence P A (visit_sequence P A fuel) T.base_classes).map (T.functions ++ ·)

/-- The base graph below the descriptor `T` has height less than `n`: following base
relations to reflected types, one comes to a type without reflected bases after fewer than
`n` steps. -/
def heightBelow (P : Program) : Nat → RecordType → Bool
  | 0, _ => false
  | n + 1, T =>
    T.base_classes.all fun B =>
      match P.member_meta B.type with
      | some M => heightBelow P n M
      | none => true

/-- A data member of a record, static or not. -/
inductive DataMember where
  | field (f : FieldDecl)
  | staticField (v : VarDecl)
  deriving DecidableEq, Repr

/-- The non-static data members among the data members of a record, in declaration order:
what `recordDecl->fields()` iterates over. -/
def fieldsOf : List DataMember → List FieldDecl
  | [] => []
  | .field f :: rest => f :: fieldsOf rest
  | .staticField _ :: rest => fieldsOf rest

/-- The static data members among the data members of a record, in declaration order. -/
def staticFieldsOf : List DataMember → List VarDecl
  | [] => []
  | .field _ :: rest => staticFieldsOf rest
  | .staticField v :: rest => v :: staticFieldsOf rest

/-- The included data members of a record, static and non-static alike, in the order in which
they are declared: the order that the specification gives to the variable list. -/
def declaredVariables (spec : ReflSpec) (sname : String) : List DataMember → List Var
  | [] => []
  | .field f :: rest => fieldsLoop spec sname [f] ++ declaredVariables spec sname rest
  | .staticField v :: rest => staticsLoop spec sname [v] ++ declaredVariables spec sname rest

/-- The member carries no directive: none of its `annotate` attributes has a source text
that starts with `refl_` or with `refl::`. -/
def carriesNoDirective (attrs : List Attr) : Bool :=
  attrs.all fun a => !decide (a.spelling = "annotate") ||
    (!starts_with a.sourceText "refl_" && !starts_with a.sourceText "refl::")

/-- The test that the method loop applies to a method of a record with mode `All`: the method
is user-declared, not deleted, neither a constructor nor a destructor, and its directive is
not `Exclude`. -/
def listedMethod (it : CXXMethodDecl) : Bool :=
  !it.isConstructor && !it.isDestructor && !it.isImplicit && !it.isDeleted
    && decide (getReflSpec it.attrs ≠ .exclude)

/-! ## Declarations of the test suite (`tests/test_class.cpp`, `tests/test_enum.cpp`) -/

namespace Test

/-- A public method `void cls::name()` without qualifiers and directives. -/
def method (cls name : String) (isVirtual : Bool) : CXXMethodDecl :=
  { name := name
    qualifiedName := cls ++ "::" ++ name
    isConstructor := false
    isDestructor := false
    isImplicit := false
    isDeleted := false
    isInstance := true
    isVirtual := isVirtual
    access := .Public
    returnType := "void"
    methodQualifiers := ""
    refQualifier := .RQ_None
    parameters := []
    attrs := [] }

/-- A public data member `cls::name` that is not `mutable`. -/
def field (cls name : String) (attrs : List Attr) : FieldDecl :=
  { name := name
    qualifiedName := cls ++ "::" ++ name
    access := .Public
    isMutable := false
    attrs := attrs }

/-- A record without bases and members. -/
def emptyRecord (name : String) (location : Nat) (attrs : List Attr) : CXXRecordDecl :=
  { name := name
    qualifiedName := name
    location := location
    attrs := attrs
    bases := []
    methods := []
    fields := []
    staticFields := [] }

/-- The record `struct NotReflected { int val; };`. -/
def NotReflected : CXXRecordDecl :=
  { emptyRecord "NotReflected" 4 [] with fields := [field "NotReflected" "val" []] }

/-- The record `struct [[refl::none]] None { [[refl::include]] int a, b; int c; };`. -/
def None_ : CXXRecordDecl :=
  { emptyRecord "None" 335 [TypeDirective.None.attr] with
    fields :=
      [field "None" "a" [MemberDirective.Include.attr],
       field "None" "b" [MemberDirective.Include.attr],
       field "None" "c" []] }

/-- The record `struct [[refl::all]] PrivateBase { void bar() {} };`. -/
def PrivateBase : CXXRecordDecl :=
  { emptyRecord "PrivateBase" 428 [TypeDirective.All.attr] with
    methods := [method "PrivateBase" "bar" false] }

/-- The record `struct [[refl::all]] ProtectedBase {};`. -/
def ProtectedBase : CXXRecordDecl :=
  emptyRecord "ProtectedBase" 431 [TypeDirective.All.attr]

/-- The record `PublicBase`: three virtual methods and a defaulted virtual destructor. -/
def PublicBase : CXXRecordDecl :=
  { emptyRecord "PublicBase" 432 [TypeDirective.All.attr] with
    methods :=
      [method "PublicBase" "foo" true,
       method "PublicBase" "baz" true,
       method "PublicBase" "notOverriden" true,
       { method "PublicBase" "~PublicBase" true with isDestructor := true }] }

/-- The record `struct [[refl::all]] PublicVirtualBase {};`. -/
def PublicVirtualBase : CXXRecordDecl :=
  emptyRecord "PublicVirtualBase" 438 [TypeDirective.All.attr]

/-- The record `Derived` with its four bases and three methods. -/
def Derived : CXXRecordDecl :=
  { emptyRecord "Derived" 444 [TypeDirective.All.attr] with
    bases :=
      [⟨"PrivateBase", .Private⟩, ⟨"ProtectedBase", .Protected⟩, ⟨"PublicBase", .Public⟩,
       ⟨"PublicVirtualBase", .Public⟩]
    methods :=
      [method "Derived" "bar" false, method "Derived" "foo" true, method "Derived" "baz" true] }

/-- The enum `enum class [[refl::all]] ScopedEnum { eVal1 = 3, eVal2 = 5, eVal3 = 13 };`. -/
def ScopedEnum : EnumDecl :=
  { name := "ScopedEnum"
    qualifiedName := "ScopedEnum"
    attrs := [TypeDirective.All.attr]
    enumerators := [⟨"eVal1", 3⟩, ⟨"eVal2", 5⟩, ⟨"eVal3", 13⟩]
    outermost := .tagDecl }

/-- The enum `enum class NotReflected { eVal1 };` of `test_enum.cpp`. -/
def NotReflectedEnum : EnumDecl :=
  { name := "NotReflected"
    qualifiedName := "NotReflected"
    attrs := []
    enumerators := [⟨"eVal1", 0⟩]
    outermost := .tagDecl }

/-- A public constructor of `cls` with the given parameters and attributes. -/
def ctor (cls : String) (parameters : List ParmVarDecl) (attrs : List Attr) : CXXMethodDecl :=
  { method cls cls false with
    isConstructor := true
    parameters := parameters
    attrs := attrs }

/-- The record `Members`: three data members and `int getMember() const`. -/
def Members : CXXRecordDecl :=
  { emptyRecord "Members" 44 [TypeDirective.All.attr] with
    fields :=
      [{ field "Members" "privateMember" [] with access := .Private },
       field "Members" "publicMember" [],
       { field "Members" "mutableMember" [] with isMutable := true }]
    methods :=
      [{ method "Members" "getMember" false with
          returnType := "int", methodQualifiers := "const" }] }

/-- An overload `load` of the record `Overloads`. -/
def load (returnType : String) (parameters : List ParmVarDecl) (methodQualifiers : String)
    (refQualifier : RefQualifierKind) : CXXMethodDecl :=
  { method "Overloads" "load" false with
    returnType := returnType
    parameters := parameters
    methodQualifiers := methodQualifiers
    refQualifier := refQualifier }

/-- The overload `int load(int a, int b) const&`. -/
def loadConstRef : CXXMethodDecl :=
  load "int" [⟨"int", "a"⟩, ⟨"int", "b"⟩] "const" .RQ_LValue

/-- The record `Overloads` with its nine overloads of `load`, in declaration order. -/
def Overloads : CXXRecordDecl :=
  { emptyRecord "Overloads" 101 [TypeDirective.All.attr] with
    methods :=
      [load "int" [] "" .RQ_None,
       load "int" [⟨"int", "a"⟩, ⟨"int", "b"⟩] "" .RQ_LValue,
       load "int" [⟨"float", ""⟩] "" .RQ_None,
       load "float" [⟨"double", ""⟩] "" .RQ_None,
       loadConstRef,
       load "int" [⟨"int", "a"⟩, ⟨"int", "b"⟩] "" .RQ_RValue,
       load "int" [⟨"int", "a"⟩, ⟨"int", "b"⟩] "const volatile" .RQ_LValue,
       load "int" [⟨"int", "a"⟩, ⟨"int", "b"⟩] "volatile" .RQ_None,
       load "_Bool" [⟨"_Bool", "b"⟩] "" .RQ_None] }

/-- The record `Constructors`: six constructors; the constructor template is not an element of
`methods()`. -/
def Constructors : CXXRecordDecl :=
  { emptyRecord "Constructors" 260 [TypeDirective.All.attr] with
    methods :=
      [ctor "Constructors" [] [],
       ctor "Constructors" [⟨"const Constructors &", ""⟩] [],
       ctor "Constructors" [⟨"Constructors &&", ""⟩] [],
       ctor "Constructors" [⟨"int", ""⟩] [],
       ctor "Constructors" [⟨"_Bool", ""⟩] [],
       ctor "Constructors" [⟨"int", ""⟩, ⟨"double", ""⟩] []] }

/-- An operator of the record `Operators`. -/
def operator_ (name returnType : String) (parameters : List ParmVarDecl) : CXXMethodDecl :=
  { method "Operators" name false with returnType := returnType, parameters := parameters }

/-- The record `Operators` with its eight user-declared operators. -/
def Operators : CXXRecordDecl :=
  { emptyRecord "Operators" 387 [TypeDirective.All.attr] with
    methods :=
      [operator_ "operator=" "Operators &" [⟨"const Operators &", ""⟩],
       operator_ "operator-=" "Operators &" [⟨"const Operators &", ""⟩],
       operator_ "operator+" "Operators" [⟨"const Operators &", ""⟩],
       operator_ "operator++" "void" [],
       operator_ "operator bool" "_Bool" [],
       operator_ "operator const char *" "const char *" [],
       operator_ "operator*" "Operators *" [],
       operator_ "operator<=>" "int" [⟨"const Operators &", ""⟩]] }

/-- The record `Tags`: `a` tagged `Tag{3}`, `b` included, `foo` tagged `Tag{5}`, and the
constructor tagged `Tag{7}` and `refl::cxstring{"seven"}`. -/
def Tags : CXXRecordDecl :=
  { emptyRecord "Tags" 347 [TypeDirective.None.attr] with
    fields :=
      [field "Tags" "a" [(MemberDirective.Tag "Tag\x7b3\x7d").attr],
       field "Tags" "b" [MemberDirective.Include.attr]]
    methods :=
      [{ method "Tags" "foo" false with attrs := [(MemberDirective.Tag "Tag\x7b5\x7d").attr] },
       ctor "Tags" []
         [(MemberDirective.Tag "Tag\x7b7\x7d").attr,
          (MemberDirective.Tag "refl::cxstring\x7b\"seven\"\x7d").attr]] }

/-- The tuple `tags` of the descriptor of `Tags::a`, the value of `{Tag{3}}`: one element of
type `Tag`, whose member `i` is `3`. -/
def Tags_a_tags : List (TagValue Int) := [⟨"Tag", 3⟩]

/-- The tuple `tags` of the descriptor of `Tags::b`: empty. -/
def Tags_b_tags : List (TagValue Int) := []

/-- The kinds that the chain `if constexpr (C::is_default()) .. else if constexpr
(C::is_copy()) .. else if constexpr (C::is_move_copy()) ..` of the test `Testing
constructors` tells apart. -/
inductive Kind where
  | Default
  | Copy
  | Move
  | Other
  deriving DecidableEq, Repr

/-- The chain of the test `Testing constructors`: a later predicate is instantiated only when
the earlier ones are `false`.  The result is `none` when an instantiated body is
ill-formed. -/
def classify (C : Constr) : Option Kind :=
  if C.is_default then some .Default
  else
    match C.is_copy with
    | none => none
    | some true => some .Copy
    | some false =>
      match C.is_move_copy with
      | none => none
      | some true => some .Move
      | some false => some .Other

/-- The record `struct [[refl::none]] TestingBasics { int val = 42; class [[refl::all]] Inner
{}; };` of namespace `n1`. -/
def TestingBasics : CXXRecordDecl :=
  { emptyRecord "TestingBasics" 19 [TypeDirective.None.attr] with
    qualifiedName := "n1::TestingBasics"
    fields := [{ field "TestingBasics" "val" [] with qualifiedName := "n1::TestingBasics::val" }] }

/-- The record `struct [[refl::all]] Statics { inline static int test = 5; static int foo(); };`. -/
def Statics : CXXRecordDecl :=
  { emptyRecord "Statics" 297 [TypeDirective.All.attr] with
    staticFields :=
      [{ name := "test", qualifiedName := "Statics::test", access := .Public, attrs := [] }]
    methods := [{ method "Statics" "foo" false with returnType := "int", isInstance := false }] }

/-- The types of the two test files that the theorems below use. -/
def unit : TranslationUnit where
  records T :=
    if T = "NotReflected" then some NotReflected
    else if T = "None" then some None_
    else if T = "PrivateBase" then some PrivateBase
    else if T = "ProtectedBase" then some ProtectedBase
    else if T = "PublicBase" then some PublicBase
    else if T = "PublicVirtualBase" then some PublicVirtualBase
    else if T = "Derived" then some Derived
    else none
  enums E :=
    if E = "ScopedEnum" then some ScopedEnum
    else if E = "NotReflected" then some NotReflectedEnum
    else none

/-- The test program as the runtime sees it. -/
def program : Program := compile 2 unit

end Test

/-! ## Further declarations used as examples -/

namespace Example

/-- The record
`struct [[refl::none]] IncludeExclude { [[refl::include, refl::exclude]] int a;
[[refl::exclude, refl::include]] int b; };`: both members carry an `Include` and an `Exclude`
directive, in the two orders. -/
def IncludeExclude : CXXRecordDecl :=
  { Test.emptyRecord "IncludeExclude" 1 [TypeDirective.None.attr] with
    fields :=
      [Test.field "IncludeExclude" "a" [MemberDirective.Include.attr, MemberDirective.Exclude.attr],
       Test.field "IncludeExclude" "b"
         [MemberDirective.Exclude.attr, MemberDirective.Include.attr]] }

/-- The record
`struct [[refl::all]] ThreeBases : private PrivateBase, protected ProtectedBase,
public PublicBase { void own() {} };` over the base classes of the tests. -/
def ThreeBases : CXXRecordDecl :=
  { Test.emptyRecord "ThreeBases" 2 [TypeDirective.All.attr] with
    bases := [⟨"PrivateBase", .Private⟩, ⟨"ProtectedBase", .Protected⟩, ⟨"PublicBase", .Public⟩]
    methods := [Test.method "ThreeBases" "own" false] }

/-- The record `struct Undirected : PublicBase {};`: no directive, one public base that is
reflected. -/
def Undirected : CXXRecordDecl :=
  { Test.emptyRecord "Undirected" 3 [] with bases := [⟨"PublicBase", .Public⟩] }

/-- The record `struct [[refl::all]] BoolNames { void load(A_Bool); void load(Abool); };`
after `struct A_Bool {}; struct Abool {};`: two overloads that differ in their parameter
type. -/
def BoolNames : CXXRecordDecl :=
  { Test.emptyRecord "BoolNames" 4 [TypeDirective.All.attr] with
    methods :=
      [{ Test.method "BoolNames" "load" false with parameters := [⟨"A_Bool", ""⟩] },
       { Test.method "BoolNames" "load" false with parameters := [⟨"Abool", ""⟩] }] }

/-- A tuple `tags` with two values of the type `Tag`, `{Tag{3}, Tag{5}}`. -/
def twoTags : List (TagValue Int) := [⟨"Tag", 3⟩, ⟨"Tag", 5⟩]

/-- The record `struct [[refl::all]] ImplicitCtor { int x; };` in a translation unit that
also declares `ImplicitCtor object;`: for the definition of `object` the compiler has declared
the implicit default, copy and move constructors and the implicit destructor, which are
elements of `methods()` with `isImplicit()`. -/
def ImplicitCtor : CXXRecordDecl :=
  { Test.emptyRecord "ImplicitCtor" 5 [TypeDirective.All.attr] with
    fields := [Test.field "ImplicitCtor" "x" []]
    methods :=
      [{ Test.ctor "ImplicitCtor" [] [] with isImplicit := true },
       { Test.ctor "ImplicitCtor" [⟨"const ImplicitCtor &", ""⟩] [] with isImplicit := true },
       { Test.ctor "ImplicitCtor" [⟨"ImplicitCtor &&", ""⟩] [] with isImplicit := true },
       { Test.method "ImplicitCtor" "~ImplicitCtor" false with
         isDestructor := true, isImplicit := true }] }

/-- An attribute `__attribute__((annotate("callback")))`: an `annotate` attribute that is no
directive of the plugin, while its text contains `all`. -/
def callbackAttr : Attr :=
  ⟨"annotate", "annotate(\"callback\")", " __attribute__((annotate(\"callback\")))"⟩

/-- The record `struct __attribute__((annotate("callback"))) Callback { int a;
static int b; };`: matched by `hasReflectAttr("all")`, without a type directive. -/
def Callback : CXXRecordDecl :=
  { Test.emptyRecord "Callback" 6 [callbackAttr] with
    fields := [Test.field "Callback" "a" []]
    staticFields :=
      [{ name := "b", qualifiedName := "Callback::b", access := .Public, attrs := [] }] }

/-- The data members of `struct [[refl::all]] StaticFirst { static int s; int a; };` in
declaration order. -/
def StaticFirst_members : List DataMember :=
  [.staticField { name := "s", qualifiedName := "StaticFirst::s", access := .Public, attrs := [] },
   .field (Test.field "StaticFirst" "a" [])]

/-- The record `struct [[refl::all]] StaticFirst { static int s; int a; };`. -/
def StaticFirst : CXXRecordDecl :=
  { Test.emptyRecord "StaticFirst" 7 [TypeDirective.All.attr] with
    fields := fieldsOf StaticFirst_members
    staticFields := staticFieldsOf StaticFirst_members }

/-- The record `struct [[refl::none]] IncludedCtor { [[refl::include]] IncludedCtor() {}
[[refl::include]] void foo() {} [[refl::include]] int a; };`: three members with an
`Include` directive and no `Tag` directive. -/
def IncludedCtor : CXXRecordDecl :=
  { Test.emptyRecord "IncludedCtor" 8 [TypeDirective.None.attr] with
    fields := [Test.field "IncludedCtor" "a" [MemberDirective.Include.attr]]
    methods :=
      [Test.ctor "IncludedCtor" [] [MemberDirective.Include.attr],
       { Test.method "IncludedCtor" "foo" false with attrs := [MemberDirective.Include.attr] }] }

/-- The types of the tests together with the records of this section. -/
def unit : TranslationUnit where
  records T :=
    if T = "IncludeExclude" then some IncludeExclude
    else if T = "ThreeBases" then some ThreeBases
    else if T = "Undirected" then some Undirected
    else Test.unit.records T
  enums := Test.unit.enums

/-- The program of `unit` as the runtime sees it. -/
def program : Program := compile 2 unit

end Example

/-! ## The access bounded traversal of the functions as a total function -/

/-- A program whose base relation between descriptors is acyclic: `rank` strictly decreases
from a descriptor to the descriptor of each of its reflected bases. -/
structure AcyclicProgram extends Program where
  rank : RecordType → Nat
  decreasing : ∀ T B M, B ∈ T.base_classes → member_meta B.type = some M → rank M < rank T

/-- The function `for_each_function<T, A>(func)` over an acyclic program, by well-founded
recursion on the base relation: `func` is called with the functions of `T`, then, for each
base in order with access at least `A` and a reflected type, the traversal is run on the
descriptor of the base. -/
def for_each_function_wf {σ : Type} (G : AcyclicProgram) (A : AccessSpecifier)
    (func : Func → σ → σ) (T : RecordType) (s : σ) : σ :=
  T.base_classes.attach.foldl (fun s B =>
    if A.toInt ≤ B.1.access.toInt then
      match (G.member_meta B.1.type).attach with
      | some M => for_each_function_wf G A func M.1 s
      | none => s
    else s) (T.functions.foldl (fun s f => func f s) s)
termination_by G.rank T
decreasing_by exact G.decreasing T B.1 M.1 B.2 M.2

/-- The program of the tests is acyclic: a descriptor without reflected bases has rank 0,
one whose reflected bases have no reflected bases has rank 1, any other has rank 2. -/
def Test.acyclic : AcyclicProgram where
  toProgram := Test.program
  rank T :=
    if heightBelow Test.program 1 T then 0 else if heightBelow Test.program 2 T then 1 else 2
  decreasing := by
    intro T B M hB hM
    have below : ∀ n, heightBelow Test.program n M = false →
        heightBelow Test.program (n + 1) T = false := by
      intro n hn
      cases hT : heightBelow Test.program (n + 1) T with
      | false => rfl
      | true =>
        simp only [heightBelow, List.all_eq_true] at hT
        have := hT B hB
        simp only [hM] at this
        rw [this] at hn
        cases hn
    have hM2 : heightBelow Test.program 2 M = true := by
      generalize B.type = n at hM
      by_cases h1 : n = "NotReflected"
      · subst h1
        have : Test.program.member_meta "NotReflected" = none := by decide
        rw [this] at hM; cases hM
      by_cases h2 : n = "None"
      · subst h2
        have : Test.program.member_meta "None" = some (extractRecord Test.None_) := by decide
        rw [this] at hM; cases hM; decide
      by_cases h3 : n = "PrivateBase"
      · subst h3
        have : Test.program.member_meta "PrivateBase"
            = some (extractRecord Test.PrivateBase) := by decide
        rw [this] at hM; cases hM; decide
      by_cases h4 : n = "ProtectedBase"
      · subst h4
        have : Test.program.member_meta "ProtectedBase"
            = some (extractRecord Test.ProtectedBase) := by decide
        rw [this] at hM; cases hM; decide
      by_cases h5 : n = "PublicBase"
      · subst h5
        have : Test.program.member_meta "PublicBase"
            = some (extractRecord Test.PublicBase) := by decide
        rw [this] at hM; cases hM; decide
      by_cases h6 : n = "PublicVirtualBase"
      · subst h6
        have : Test.program.member_meta "PublicVirtualBase"
            = some (extractRecord Test.PublicVirtualBase) := by decide
        rw [this] at hM; cases hM; decide
      by_cases h7 : n = "Derived"
      · subst h7
        have : Test.program.member_meta "Derived" = some (extractRecord Test.Derived) := by
          decide
        rw [this] at hM; cases hM; decide
      simp [Test.program, compile, lookup_meta, Test.unit, h1, h2, h3, h4, h5, h6, h7] at hM
    have hT1 : heightBelow Test.program 1 T = false := below 0 rfl
    cases hM1 : heightBelow Test.program 1 M with
    | true =>
      have : (0 : Nat) < if heightBelow Test.program 2 T = true then 1 else 2 := by
        split <;> omega
      simpa [hM1, hT1] using this
    | false =>
      have hT2 : heightBelow Test.program 2 T = false := below 1 hM1
      simp [hM1, hM2, hT1, hT2]

/-! ## The attribute handlers (`attribute.cpp`) -/

/-- A parsed attribute as `handleDeclAttribute` receives it. -/
structure ParsedAttr where
  /-- the argument expressions, as written; `getNumArgs()` is their number -/
  args : List String
  /-- the source text of `getRange()` -/
  range : String
  deriving DecidableEq, Repr

/-- The member `getNumArgs()`. -/
def ParsedAttr.getNumArgs (Attr : ParsedAttr) : Nat := Attr.args.length

/-- The enum `ParsedAttrInfo::AttrHandling`. -/
inductive AttrHandling where
  | NotHandled
  | AttributeApplied
  | AttributeNotApplied
  deriving DecidableEq, Repr

/-- What a handler works on: the errors reported through `S.Diag` so far, and the attributes
of the declaration `D`. -/
structure HandlerState where
  diags : List String
  attrs : List Attr
  deriving DecidableEq, Repr

/-- The attribute `AnnotateAttr::Create(S.Context, Annotation, Args, Size, Range,
AnnotateAttr::CXX11_clang_annotate)`: its spelling is `annotate`, its source range is `Range`,
and it prints as `[[clang::annotate("Annotation", args...)]]`. -/
def AnnotateAttr.Create ( Annotation : String) (Args : List String) (Range : String) : Attr :=
  { spelling := "annotate"
    sourceText := Range
    pretty := " [[clang::annotate(\"" ++ Annotation ++ "\""
      ++ String.join (Args.map fun a => ", " ++ a) ++ ")]]" }

/-- The member `ReflectClassAttrInfo<SP, Annotation>::handleDeclAttribute`. -/
def ReflectClassAttrInfo.handleDeclAttribute ( Annotation : String) (S : HandlerState)
    (Attr : ParsedAttr) : AttrHandling × HandlerState :=
  if Attr.getNumArgs > 0 then
    (.AttributeNotApplied,
      { S with diags := S.diags ++ ["'refl::none/all' attributes do not accept arguments"] })
  else
    (.AttributeApplied,
      { S with attrs := S.attrs ++ [AnnotateAttr.Create Annotation [] Attr.range] })

/-- The member `ReflectMemberAttrInfo<SP, Annotation, NArg>::handleDeclAttribute`. -/
def ReflectMemberAttrInfo.handleDeclAttribute ( Annotation : String) (NArg : Nat)
    (S : HandlerState) (Attr : ParsedAttr) : AttrHandling × HandlerState :=
  if Attr.getNumArgs ≠ NArg then
    (.AttributeNotApplied,
      { S with diags := S.diags ++
          ["'refl::include/exclude/tag' attribute does not accept that many arguments"] })
  else if Attr.getNumArgs > 0 then
    (.AttributeApplied,
      { S with attrs := S.attrs ++ [AnnotateAttr.Create Annotation Attr.args Attr.range] })
  else
    (.AttributeApplied,
      { S with attrs := S.attrs ++ [AnnotateAttr.Create Annotation [] Attr.range] })

/-- The two class templates derived from `ParsedAttrInfo`, with their template arguments. -/
inductive ParsedAttrInfo where
  | ReflectClassAttrInfo (SP Annotation : String)
  | ReflectMemberAttrInfo (SP Annotation : String) (NArg : Nat)
  deriving DecidableEq, Repr

/-- The virtual member `handleDeclAttribute`. -/
def ParsedAttrInfo.handleDeclAttribute :
    ParsedAttrInfo → HandlerState → ParsedAttr → AttrHandling × HandlerState
  | .ReflectClassAttrInfo _ Annotation => ReflectClassAttrInfo.handleDeclAttribute Annotation
  | .ReflectMemberAttrInfo _ Annotation NArg =>
    ReflectMemberAttrInfo.handleDeclAttribute Annotation NArg

/-- The registration `Z1`. -/
def Z1 : ParsedAttrInfo := .ReflectClassAttrInfo "refl::none" "refl_none"

/-- The registration `Z3`. -/
def Z3 : ParsedAttrInfo := .ReflectClassAttrInfo "refl::all" "refl_all"

/-- The registration `Z4`. -/
def Z4 : ParsedAttrInfo := .ReflectMemberAttrInfo "refl::include" "refl_include" 0

/-- The registration `Z5`. -/
def Z5 : ParsedAttrInfo := .ReflectMemberAttrInfo "refl::exclude" "refl_exclude" 0

/-- The registration `Z6`. -/
def Z6 : ParsedAttrInfo := .ReflectMemberAttrInfo "refl_tag" "refl_tag" 1

/-- The five kinds of directive of the specification. -/
inductive DirectiveKind where
  | All
  | None
  | Include
  | Exclude
  | Tag
  deriving DecidableEq, Repr

/-- The argument count that a kind of directive requires, in the words of the specification:
one for a tag, none for the others. -/
def DirectiveKind.requiredArgs : DirectiveKind → Nat
  | .Tag => 1
  | _ => 0

/-- The handler registered for a kind of directive. -/
def DirectiveKind.registration : DirectiveKind → ParsedAttrInfo
  | .All => Z3
  | .None => Z1
  | .Include => Z4
  | .Exclude => Z5
  | .Tag => Z6

/-- The annotation that the handler of a kind of directive attaches. -/
def DirectiveKind.annotation : DirectiveKind → String
  | .All => "refl_all"
  | .None => "refl_none"
  | .Include => "refl_include"
  | .Exclude => "refl_exclude"
  | .Tag => "refl_tag"

/-- The error that the handler of a kind of directive reports. -/
def DirectiveKind.error : DirectiveKind → String
  | .All => "'refl::none/all' attributes do not accept arguments"
  | .None => "'refl::none/all' attributes do not accept arguments"
  | _ => "'refl::include/exclude/tag' attribute does not accept that many arguments"

/-! ## The parameters of a function or constructor (`refl.hpp`) -/

/-- The fold expression of the `handler` of `for_each_parameter`, from the index `I` on, for
`remaining` indices: `f.operator()<tuple_element_t<I, T1>, I>(names[I])` for each index in
order.  An index outside the tuple or outside the array `names` has no value (`none`). -/
def for_each_parameter.handler {σ : Type} (types : List TypeName) (names : List String)
    (f : TypeName → Nat → String → σ → σ) : Nat → Nat → σ → Option σ
  | 0, _, s => some s
  | remaining + 1, I, s =>
    match tuple_element I types, names[I]? with
    | some T1, some name =>
      for_each_parameter.handler types names f remaining (I + 1) (f T1 I name s)
    | _, _ => none

/-- The function `for_each_parameter<T>(func)` for a function or constructor descriptor with
the parameters `parameters`: the handler runs over
`make_index_sequence<tuple_size<parameters::types>>`. -/
def for_each_parameter {σ : Type} (parameters : PList)
    (func : TypeName → Nat → String → σ → σ) (s : σ) : Option σ :=
  for_each_parameter.handler parameters.types parameters.names func
    (tuple_size parameters.types) 0 s

/-! ## The record matches of one pass (`plugin.cpp`) -/

/-- The state that `ReflRecordMatchCallback::run` works on: the member `unique` (the set of
the locations seen, as the list of its elements), the texts given to
`FileRewriter_->InsertTextAfter` (each with the location of its record), and the value of
`*FileID_`, where the file of a declaration is named by the location of the declaration. -/
structure ReflRecordMatchCallback where
  unique : List Nat
  inserted : List (Nat × RecordType)
  FileID : Option Nat
  deriving DecidableEq, Repr

/-- The state of the callback when `HandleTranslationUnit` constructs it. -/
def ReflRecordMatchCallback.init : ReflRecordMatchCallback :=
  { unique := [], inserted := [], FileID := none }

/-- The function `ReflRecordMatchCallback::run` for a match of the record matcher. -/
def ReflRecordMatchCallback.run (self : ReflRecordMatchCallback) (recordDecl : CXXRecordDecl) :
    ReflRecordMatchCallback :=
  if self.unique.contains recordDecl.location then self
  else
    { unique := recordDecl.location :: self.unique
      inserted := self.inserted ++ [(recordDecl.location, extractRecord recordDecl)]
      FileID := some recordDecl.location }

/-- The calls of `run` that `MatchFinder.matchAST` makes for a sequence of record matches. -/
def ReflRecordMatchCallback.matchAST (self : ReflRecordMatchCallback)
    (results : List CXXRecordDecl) : ReflRecordMatchCallback :=
  results.foldl ReflRecordMatchCallback.run self

/-! ## Further declarations of the tests and further examples -/

/-- The enum `enum [[refl::all]] NamspaceEnum : uint8_t { eVal1, eVal2, eVal3 };` of the
namespace `n1::n2`. -/
def Test.NamspaceEnum : EnumDecl :=
  { name := "NamspaceEnum"
    qualifiedName := "n1::n2::NamspaceEnum"
    attrs := [TypeDirective.All.attr]
    enumerators := [⟨"eVal1", 0⟩, ⟨"eVal2", 1⟩, ⟨"eVal3", 2⟩]
    outermost := .namespaceDecl }

/-- The record `struct [[refl::all]] ParamName { void foo(int bar, bool baz) {}
ParamName(double foo) {} };`. -/
def Test.ParamName : CXXRecordDecl :=
  { Test.emptyRecord "ParamName" 502 [TypeDirective.All.attr] with
    methods :=
      [{ Test.method "ParamName" "foo" false with
          parameters := [⟨"int", "bar"⟩, ⟨"_Bool", "baz"⟩] },
       Test.ctor "ParamName" [⟨"double", "foo"⟩] []] }

/-- The records `struct [[refl::all]] Top { void t() {} };`,
`struct [[refl::all]] Left : Top {};`, `struct [[refl::all]] Right : Top {};` and
`struct [[refl::all]] Bottom : Left, Right { void b() {} };`: the base `Top` of `Bottom` is
reached along two paths. -/
def Example.diamond : TranslationUnit where
  records T :=
    if T = "Top" then
      some { Test.emptyRecord "Top" 11 [TypeDirective.All.attr] with
        methods := [Test.method "Top" "t" false] }
    else if T = "Left" then
      some { Test.emptyRecord "Left" 12 [TypeDirective.All.attr] with
        bases := [⟨"Top", .Public⟩] }
    else if T = "Right" then
      some { Test.emptyRecord "Right" 13 [TypeDirective.All.attr] with
        bases := [⟨"Top", .Public⟩] }
    else if T = "Bottom" then
      some { Test.emptyRecord "Bottom" 14 [TypeDirective.All.attr] with
        bases := [⟨"Left", .Public⟩, ⟨"Right", .Public⟩]
        methods := [Test.method "Bottom" "b" false] }
    else none
  enums _ := none

/-- The descriptor `Bottom::_meta` of the records of `diamond`. -/
def Example.Bottom_meta : Option RecordType := (compile 3 Example.diamond).member_meta "Bottom"

/-- The class template `template <typename T> struct [[refl::all]] TemplateTest` of the tests
(reduced to its member `void func1(T)`), as the record matcher sees it. -/
def Test.TemplateTest : CXXRecordDecl :=
  { Test.emptyRecord "TemplateTest" 156 [TypeDirective.All.attr] with
    methods := [{ Test.method "TemplateTest" "func1" false with parameters := [⟨"T", ""⟩] }] }

/-- The implicit instantiation `TemplateTest<int>`: its location is that of the template. -/
def Test.TemplateTest_int : CXXRecordDecl :=
  { Test.emptyRecord "TemplateTest" 156 [TypeDirective.All.attr] with
    methods := [{ Test.method "TemplateTest" "func1" false with parameters := [⟨"int", ""⟩] }] }

/-- The explicit specialization `template <> struct [[refl::none]] TemplateTest<bool>`. -/
def Test.TemplateTest_bool : CXXRecordDecl :=
  { Test.emptyRecord "TemplateTest" 196 [TypeDirective.None.attr] with
    methods := [Test.method "TemplateTest" "func2" false] }

/-- The record `struct [[refl::all]] A_Bool` with the constructors `A_Bool()`,
`A_Bool(const A_Bool&)`, `A_Bool(A_Bool&&)`, `A_Bool(int)`, `A_Bool(bool)`,
`A_Bool(int, double)` and a constructor template (which is not an element of `methods()`),
in a translation unit that also declares `struct Abool {};`. -/
def Example.A_Bool : CXXRecordDecl :=
  { Test.emptyRecord "A_Bool" 21 [TypeDirective.All.attr] with
    methods :=
      [Test.ctor "A_Bool" [] [],
       Test.ctor "A_Bool" [⟨"const A_Bool &", ""⟩] [],
       Test.ctor "A_Bool" [⟨"A_Bool &&", ""⟩] [],
       Test.ctor "A_Bool" [⟨"int", ""⟩] [],
       Test.ctor "A_Bool" [⟨"_Bool", ""⟩] [],
       Test.ctor "A_Bool" [⟨"int", ""⟩, ⟨"double", ""⟩] []] }

/-- The record `struct [[refl::all]] Mixed { [[refl::include, refl::exclude]] void foo() {}
void bar() {} };`: the method `foo` carries `Include` and, after it, `Exclude`. -/
def Example.Mixed : CXXRecordDecl :=
  { Test.emptyRecord "Mixed" 22 [TypeDirective.All.attr] with
    methods :=
      [{ Test.method "Mixed" "foo" false with
          attrs := [MemberDirective.Include.attr, MemberDirective.Exclude.attr] },
       Test.method "Mixed" "bar" false] }

/-- The test of the constructor loop on a method of a record with mode `All`: the method is
a constructor, not deleted, and the directive that `getReflSpec` reports for it is not
`Exclude`. -/
def listedConstructor (it : CXXMethodDecl) : Bool :=
  it.isConstructor && !it.isDeleted && decide (getReflSpec it.attrs ≠ .exclude)

/-! ## Lemmas on the extractor -/

theorem starts_with_append (a b p : String) (h : starts_with a p = true) :
    starts_with (a ++ b) p = true := by
  simp only [starts_with, String.data_append] at *
  rw [List.isPrefixOf_iff_prefix] at *
  exact h.trans (List.prefix_append _ _)

theorem getReflSpec_All : getReflSpec [TypeDirective.All.attr] = .all := by decide

theorem getReflSpec_None : getReflSpec [TypeDirective.None.attr] = .none := by decide

theorem getReflSpec_Include (rest : List Attr) :
    getReflSpec (MemberDirective.Include.attr :: rest) = .include := by
  have h1 : starts_with "refl::include" "refl_" = false := by decide
  have h2 : starts_with "refl::include" "refl::" = true := by decide
  have h3 : ends_with "refl::include" "all" = false := by decide
  have h4 : ends_with "refl::include" "none" = false := by decide
  have h5 : ends_with "refl::include" "include" = true := by decide
  simp [getReflSpec, MemberDirective.attr, h1, h2, h3, h4, h5]

theorem getReflSpec_Exclude (rest : List Attr) :
    getReflSpec (MemberDirective.Exclude.attr :: rest) = .exclude := by
  have h1 : starts_with "refl::exclude" "refl_" = false := by decide
  have h2 : starts_with "refl::exclude" "refl::" = true := by decide
  have h3 : ends_with "refl::exclude" "all" = false := by decide
  have h4 : ends_with "refl::exclude" "none" = false := by decide
  have h5 : ends_with "refl::exclude" "include" = false := by decide
  have h6 : ends_with "refl::exclude" "exclude" = true := by decide
  simp [getReflSpec, MemberDirective.attr, h1, h2, h3, h4, h5, h6]

theorem getReflSpec_Tag (payload : String) (rest : List Attr) :
    getReflSpec ((MemberDirective.Tag payload).attr :: rest) = .tag := by
  have h : starts_with ("refl_tag(" ++ payload ++ ")") "refl_" = true := by
    rw [String.append_assoc]
    exact starts_with_append _ _ _ (by decide)
  simp [getReflSpec, MemberDirective.attr, h]

theorem functionsLoop_append (spec : ReflSpec) (sname : String) (l₁ l₂ : List CXXMethodDecl) :
    functionsLoop spec sname (l₁ ++ l₂)
      = functionsLoop spec sname l₁ ++ functionsLoop spec sname l₂ := by
  induction l₁ with
  | nil => rfl
  | cons it rest ih =>
    simp only [List.cons_append, functionsLoop]
    split_ifs <;> simp [ih]

theorem fieldsLoop_append (spec : ReflSpec) (sname : String) (l₁ l₂ : List FieldDecl) :
    fieldsLoop spec sname (l₁ ++ l₂) = fieldsLoop spec sname l₁ ++ fieldsLoop spec sname l₂ := by
  induction l₁ with
  | nil => rfl
  | cons it rest ih =>
    simp only [List.cons_append, fieldsLoop]
    split_ifs <;> simp [ih]

theorem staticsLoop_append (spec : ReflSpec) (sname : String) (l₁ l₂ : List VarDecl) :
    staticsLoop spec sname (l₁ ++ l₂)
      = staticsLoop spec sname l₁ ++ staticsLoop spec sname l₂ := by
  induction l₁ with
  | nil => rfl
  | cons it rest ih =>
    simp only [List.cons_append, staticsLoop]
    split_ifs <;> simp [ih]

theorem constructorsLoop_append (spec : ReflSpec) (sname : String)
    (l₁ l₂ : List CXXMethodDecl) :
    constructorsLoop spec sname (l₁ ++ l₂)
      = constructorsLoop spec sname l₁ ++ constructorsLoop spec sname l₂ := by
  induction l₁ with
  | nil => rfl
  | cons it rest ih =>
    simp only [List.cons_append, constructorsLoop]
    split_ifs <;> simp [ih]

theorem getReflSpec_typeDirective (mode : TypeDirective) :
    getReflSpec [mode.attr] = mode.spec := by
  cases mode
  · exact getReflSpec_All
  · exact getReflSpec_None

theorem getReflSpec_memberAttrs (d : Option MemberDirective) :
    getReflSpec (memberAttrs d) = directiveSpec d := by
  match d with
  | none => rfl
  | some .Include => exact getReflSpec_Include []
  | some .Exclude => exact getReflSpec_Exclude []
  | some (.Tag payload) => exact getReflSpec_Tag payload []

theorem functionsLoop_single (mode : TypeDirective) (d : Option MemberDirective)
    (sname : String) (it : CXXMethodDecl) (hattrs : it.attrs = memberAttrs d)
    (h1 : it.isConstructor = false) (h2 : it.isDestructor = false)
    (h3 : it.isImplicit = false) (h4 : it.isDeleted = false) :
    functionsLoop mode.spec sname [it]
      = if inclusionRule mode d then [emitFunc sname it] else [] := by
  simp only [functionsLoop, h1, h2, h3, h4, hattrs, getReflSpec_memberAttrs]
  cases mode <;> match d with
    | none => simp [TypeDirective.spec, directiveSpec, inclusionRule, isIncludeOrTag]
    | some .Include => simp [TypeDirective.spec, directiveSpec, inclusionRule, isIncludeOrTag]
    | some .Exclude => simp [TypeDirective.spec, directiveSpec, inclusionRule, isIncludeOrTag]
    | some (.Tag _) => simp [TypeDirective.spec, directiveSpec, inclusionRule, isIncludeOrTag]

theorem fieldsLoop_single (mode : TypeDirective) (d : Option MemberDirective)
    (sname : String) (it : FieldDecl) (hattrs : it.attrs = memberAttrs d) :
    fieldsLoop mode.spec sname [it]
      = if inclusionRule mode d then [emitVar sname it] else [] := by
  simp only [fieldsLoop, hattrs, getReflSpec_memberAttrs]
  cases mode <;> match d with
    | none => simp [TypeDirective.spec, directiveSpec, inclusionRule, isIncludeOrTag]
    | some .Include => simp [TypeDirective.spec, directiveSpec, inclusionRule, isIncludeOrTag]
    | some .Exclude => simp [TypeDirective.spec, directiveSpec, inclusionRule, isIncludeOrTag]
    | some (.Tag _) => simp [TypeDirective.spec, directiveSpec, inclusionRule, isIncludeOrTag]

theorem constructorsLoop_single (mode : TypeDirective) (d : Option MemberDirective)
    (sname : String) (it : CXXMethodDecl) (hattrs : it.attrs = memberAttrs d)
    (h1 : it.isConstructor = true) (h4 : it.isDeleted = false) :
    constructorsLoop mode.spec sname [it]
      = if inclusionRule mode d then [emitConstr sname it] else [] := by
  simp only [constructorsLoop, h1, h4, hattrs, getReflSpec_memberAttrs]
  cases mode <;> match d with
    | none => simp [TypeDirective.spec, directiveSpec, inclusionRule, isIncludeOrTag]
    | some .Include => simp [TypeDirective.spec, directiveSpec, inclusionRule, isIncludeOrTag]
    | some .Exclude => simp [TypeDirective.spec, directiveSpec, inclusionRule, isIncludeOrTag]
    | some (.Tag _) => simp [TypeDirective.spec, directiveSpec, inclusionRule, isIncludeOrTag]

/-! ## Claims -/

/-- C1: for a record that carries one type directive (`All` or `None`) and a member `it`
that carries at most one directive `d`, the descriptor's method list, (instance) field list
and constructor list each consist of what the members before `it` contribute, then the entry
of `it` exactly when `d` is not `Exclude` and (the mode is `All` or `d` is `Include` or `Tag`),
then what the members after `it` contribute.  A method is a candidate when it is not a
constructor, a destructor, implicit or deleted; a constructor when it is not deleted. -/
theorem C1_inclusion_rule (mode : TypeDirective) (d : Option MemberDirective)
    (recordDecl : CXXRecordDecl) (hmode : recordDecl.attrs = [mode.attr]) :
    (∀ pre it post, recordDecl.methods = pre ++ it :: post → it.attrs = memberAttrs d →
      it.isConstructor = false → it.isDestructor = false → it.isImplicit = false →
      it.isDeleted = false →
      (extractRecord recordDecl).functions
        = functionsLoop mode.spec recordDecl.name pre
          ++ (if inclusionRule mode d then [emitFunc recordDecl.name it] else [])
          ++ functionsLoop mode.spec recordDecl.name post) ∧
    (∀ pre it post, recordDecl.fields = pre ++ it :: post → it.attrs = memberAttrs d →
      (extractRecord recordDecl).variables_
        = fieldsLoop mode.spec recordDecl.name pre
          ++ (if inclusionRule mode d then [emitVar recordDecl.name it] else [])
          ++ fieldsLoop mode.spec recordDecl.name post
          ++ staticsLoop mode.spec recordDecl.name recordDecl.staticFields) ∧
    (∀ pre it post, recordDecl.methods = pre ++ it :: post → it.attrs = memberAttrs d →
      it.isConstructor = true → it.isDeleted = false →
      (extractRecord recordDecl).constructors
        = constructorsLoop mode.spec recordDecl.name pre
          ++ (if inclusionRule mode d then [emitConstr recordDecl.name it] else [])
          ++ constructorsLoop mode.spec recordDecl.name post) := by
  have hspec : getReflSpec recordDecl.attrs = mode.spec := by
    rw [hmode]; exact getReflSpec_typeDirective mode
  refine ⟨?_, ?_, ?_⟩
  · intro pre it post hm hattrs h1 h2 h3 h4
    have hs := functionsLoop_single mode d recordDecl.name it hattrs h1 h2 h3 h4
    simp only [extractRecord, hspec, hm]
    rw [functionsLoop_append, ← List.singleton_append, functionsLoop_append, hs,
      List.append_assoc]
  · intro pre it post hf hattrs
    have hs := fieldsLoop_single mode d recordDecl.name it hattrs
    simp only [extractRecord, hspec, hf]
    rw [fieldsLoop_append, ← List.singleton_append, fieldsLoop_append, hs]
    simp only [List.append_assoc]
  · intro pre it post hm hattrs h1 h4
    have hs := constructorsLoop_single mode d recordDecl.name it hattrs h1 h4
    simp only [extractRecord, hspec, hm]
    rw [constructorsLoop_append, ← List.singleton_append, constructorsLoop_append, hs,
      List.append_assoc]

/-- C1 at the record `None` of the tests (mode `None`) and its member `a`, which carries
`Include`: the variable list is `a`, `b`. -/
theorem C1_inclusion_rule_witness :
    Test.None_.attrs = [TypeDirective.None.attr] ∧
      (extractRecord Test.None_).variables_.map Var.name = ["a", "b"] :=
  ⟨rfl, by
    rw [(C1_inclusion_rule .None (some .Include) Test.None_ rfl).2.1 []
      (Test.field "None" "a" [MemberDirective.Include.attr])
      [Test.field "None" "b" [MemberDirective.Include.attr], Test.field "None" "c" []] rfl rfl]
    decide⟩

/-- C2 fails as stated: the member `a` of `IncludeExclude` carries an `Exclude` directive,
written after an `Include` directive, and is in the descriptor (the member `b`, with the
directives in the other order, is not). -/
theorem C2_counterexample :
    Example.IncludeExclude.fields.map FieldDecl.attrs
        = [[MemberDirective.Include.attr, MemberDirective.Exclude.attr],
           [MemberDirective.Exclude.attr, MemberDirective.Include.attr]] ∧
      (extractRecord Example.IncludeExclude).variables_.map Var.name = ["a"] := by
  decide

theorem functionsLoop_exclude (spec : ReflSpec) (sname : String) (it : CXXMethodDecl)
    (h : getReflSpec it.attrs = .exclude) : functionsLoop spec sname [it] = [] := by
  simp [functionsLoop, h]

theorem fieldsLoop_exclude (spec : ReflSpec) (sname : String) (it : FieldDecl)
    (h : getReflSpec it.attrs = .exclude) : fieldsLoop spec sname [it] = [] := by
  simp [fieldsLoop, h]

theorem staticsLoop_exclude (spec : ReflSpec) (sname : String) (it : VarDecl)
    (h : getReflSpec it.attrs = .exclude) : staticsLoop spec sname [it] = [] := by
  simp [staticsLoop, staticOk, h]

theorem constructorsLoop_exclude (spec : ReflSpec) (sname : String) (it : CXXMethodDecl)
    (h : getReflSpec it.attrs = .exclude) : constructorsLoop spec sname [it] = [] := by
  simp [constructorsLoop, h]

/-- C2, amended: whatever the attributes of the record are (every type mode, also no mode),
a member whose first attribute is the `Exclude` directive is absent from the descriptor, also
when `Include` or `Tag` directives (or any other attributes, `rest`) follow it: the method
list, the variable list and the constructor list are those of the record without the
member.  This holds for methods, constructors, non-static and static data members. -/
theorem C2_exclude_first (recordDecl : CXXRecordDecl) (rest : List Attr) :
    (∀ pre it post, recordDecl.methods = pre ++ it :: post →
      it.attrs = MemberDirective.Exclude.attr :: rest →
      (extractRecord recordDecl).functions
          = (extractRecord { recordDecl with methods := pre ++ post }).functions ∧
        (extractRecord recordDecl).constructors
          = (extractRecord { recordDecl with methods := pre ++ post }).constructors) ∧
    (∀ pre it post, recordDecl.fields = pre ++ it :: post →
      it.attrs = MemberDirective.Exclude.attr :: rest →
      (extractRecord recordDecl).variables_
        = (extractRecord { recordDecl with fields := pre ++ post }).variables_) ∧
    (∀ pre it post, recordDecl.staticFields = pre ++ it :: post →
      it.attrs = MemberDirective.Exclude.attr :: rest →
      (extractRecord recordDecl).variables_
        = (extractRecord { recordDecl with staticFields := pre ++ post }).variables_) := by
  refine ⟨?_, ?_, ?_⟩
  · intro pre it post hm hattrs
    have hx : getReflSpec it.attrs = .exclude := by rw [hattrs]; exact getReflSpec_Exclude rest
    simp only [extractRecord, hm]
    constructor
    · rw [functionsLoop_append, ← List.singleton_append, functionsLoop_append,
        functionsLoop_exclude _ _ it hx, functionsLoop_append, List.nil_append]
    · rw [constructorsLoop_append, ← List.singleton_append, constructorsLoop_append,
        constructorsLoop_exclude _ _ it hx, constructorsLoop_append, List.nil_append]
  · intro pre it post hf hattrs
    have hx : getReflSpec it.attrs = .exclude := by rw [hattrs]; exact getReflSpec_Exclude rest
    simp only [extractRecord, hf]
    rw [fieldsLoop_append, ← List.singleton_append, fieldsLoop_append,
      fieldsLoop_exclude _ _ it hx, fieldsLoop_append, List.nil_append]
  · intro pre it post hf hattrs
    have hx : getReflSpec it.attrs = .exclude := by rw [hattrs]; exact getReflSpec_Exclude rest
    simp only [extractRecord, hf]
    rw [staticsLoop_append, ← List.singleton_append, staticsLoop_append,
      staticsLoop_exclude _ _ it hx, staticsLoop_append, List.nil_append]

/-- C2, amended, at the member `b` of `IncludeExclude` (`Exclude` first, `Include` after it):
the variable list is the one of the record without `b`. -/
theorem C2_exclude_first_witness :
    (extractRecord Example.IncludeExclude).variables_
      = (extractRecord { Example.IncludeExclude with
          fields := [Test.field "IncludeExclude" "a"
            [MemberDirective.Include.attr, MemberDirective.Exclude.attr]] ++ [] }).variables_ :=
  (C2_exclude_first Example.IncludeExclude [MemberDirective.Include.attr]).2.1
    [Test.field "IncludeExclude" "a" [MemberDirective.Include.attr, MemberDirective.Exclude.attr]]
    (Test.field "IncludeExclude" "b" [MemberDirective.Exclude.attr, MemberDirective.Include.attr])
    [] rfl rfl

/-! ## Lemmas on the runtime -/

theorem reflected_record (P : Program) (n : TypeName) :
    reflected P [.record n] = (P.member_meta n).isSome := by
  simp only [reflected, List.all_cons, List.all_nil, Bool.and_true, meta]
  cases P.member_meta n <;> rfl

theorem for_each_some {α σ : Type} (l : List α) (f : α → σ → σ) (s : σ) :
    for_each l (fun x s => some (f x s)) s = some (l.foldl (fun s x => f x s) s) := by
  induction l generalizing s with
  | nil => rfl
  | cons x xs ih => simp only [for_each, List.foldl_cons]; exact ih _

/-- What the callback that `for_each_function<T, A>` gives to `for_each_base_class` does for
one base. -/
theorem base_step {σ : Type} (P : Program) (A : AccessSpecifier) (func : Func → σ → σ)
    (fuel : Nat) (B : Base) (s : σ) :
    (if B.access.toInt ≥ A.toInt then
        with_ P [.record B.type] (fun M s =>
          match M with
          | [.record M] => for_each_function_A P A func fuel M s
          | _ => none) s
      else some s)
    = if A.toInt ≤ B.access.toInt then
        match P.member_meta B.type with
        | some M => for_each_function_A P A func fuel M s
        | none => some s
      else some s := by
  by_cases h : A.toInt ≤ B.access.toInt
  · simp only [ge_iff_le, h, if_true, with_, reflected_record]
    cases hm : P.member_meta B.type with
    | none => simp
    | some M => simp [meta, hm]
  · simp [h]

theorem for_each_function_A_succ {σ : Type} (P : Program) (A : AccessSpecifier)
    (func : Func → σ → σ) (fuel : Nat) (T : RecordType) (s : σ) :
    for_each_function_A P A func (fuel + 1) T s
      = for_each T.base_classes (fun B s =>
          if A.toInt ≤ B.access.toInt then
            match P.member_meta B.type with
            | some M => for_each_function_A P A func fuel M s
            | none => some s
          else some s) (T.functions.foldl (fun s f => func f s) s) := by
  simp only [for_each_function_A, for_each_base_class, for_each_some, base_step]
  rfl

theorem for_each_bases_refines {σ : Type} (P : Program) (A : AccessSpecifier)
    (func : Func → σ → σ) (fuel : Nat)
    (ih : ∀ (T : RecordType) (s : σ), for_each_function_A P A func fuel T s
      = (visit_sequence P A fuel T).map fun seq => seq.foldl (fun s f => func f s) s)
    (bs : List Base) (s : σ) :
    for_each bs (fun B s =>
        if A.toInt ≤ B.access.toInt then
          match P.member_meta B.type with
          | some M => for_each_function_A P A func fuel M s
          | none => some s
        else some s) s
      = (inherited_sequence P A (visit_sequence P A fuel) bs).map
          fun seq => seq.foldl (fun s f => func f s) s := by
  induction bs generalizing s with
  | nil => rfl
  | cons B bs ihb =>
    simp only [for_each, inherited_sequence, base_sequence]
    by_cases h : A.toInt ≤ B.access.toInt
    · simp only [h, if_true]
      cases hm : P.member_meta B.type with
      | none =>
        simp only [Option.some_bind, Option.bind_eq_bind, ihb]
        cases inherited_sequence P A (visit_sequence P A fuel) bs <;> simp
      | some M =>
        simp only []
        rw [ih M s]
        cases hv : visit_sequence P A fuel M with
        | none => simp
        | some part =>
          simp only [Option.map_some', Option.some_bind, Option.bind_eq_bind, ihb]
          cases inherited_sequence P A (visit_sequence P A fuel) bs <;> simp
    · simp only [h, if_false, Option.some_bind, Option.bind_eq_bind, ihb]
      cases inherited_sequence P A (visit_sequence P A fuel) bs <;> simp

/-- The traversal threads the state through the visitor along the visit sequence. -/
theorem for_each_function_A_refines {σ : Type} (P : Program) (A : AccessSpecifier)
    (func : Func → σ → σ) (fuel : Nat) (T : RecordType) (s : σ) :
    for_each_function_A P A func fuel T s
      = (visit_sequence P A fuel T).map fun seq => seq.foldl (fun s f => func f s) s := by
  induction fuel generalizing T s with
  | zero => rfl
  | succ fuel ih =>
    rw [for_each_function_A_succ, for_each_bases_refines P A func fuel ih]
    simp only [visit_sequence]
    cases inherited_sequence P A (visit_sequence P A fuel) T.base_classes <;> simp

theorem base_sequence_mono (P : Program) (A : AccessSpecifier)
    (v w : RecordType → Option (List Func))
    (hvw : ∀ M seq, v M = some seq → w M = some seq) (B : Base) (part : List Func)
    (h : base_sequence P A v B = some part) : base_sequence P A w B = some part := by
  unfold base_sequence at h ⊢
  by_cases hA : A.toInt ≤ B.access.toInt
  · simp only [hA, if_true] at h ⊢
    cases hm : P.member_meta B.type with
    | none => simpa [hm] using h
    | some M => simp only [hm] at h ⊢; exact hvw M part h
  · simpa [hA] using h

theorem inherited_sequence_cons_some (P : Program) (A : AccessSpecifier)
    (v : RecordType → Option (List Func)) (B : Base) (bs : List Base) (seq : List Func) :
    inherited_sequence P A v (B :: bs) = some seq ↔
      ∃ part rest, base_sequence P A v B = some part ∧
        inherited_sequence P A v bs = some rest ∧ seq = part ++ rest := by
  simp only [inherited_sequence]
  cases base_sequence P A v B <;> cases inherited_sequence P A v bs <;> simp [eq_comm]

theorem inherited_sequence_mono (P : Program) (A : AccessSpecifier)
    (v w : RecordType → Option (List Func))
    (hvw : ∀ M seq, v M = some seq → w M = some seq) (bs : List Base) (seq : List Func)
    (h : inherited_sequence P A v bs = some seq) : inherited_sequence P A w bs = some seq := by
  induction bs generalizing seq with
  | nil => exact h
  | cons B bs ih =>
    rw [inherited_sequence_cons_some] at h ⊢
    obtain ⟨part, rest, hpart, hrest, hseq⟩ := h
    exact ⟨part, rest, base_sequence_mono P A v w hvw B part hpart, ih rest hrest, hseq⟩

theorem visit_sequence_succ (P : Program) (A : AccessSpecifier) (n : Nat) (T : RecordType)
    (seq : List Func) (h : visit_sequence P A n T = some seq) :
    visit_sequence P A (n + 1) T = some seq := by
  induction n generalizing T seq with
  | zero => simp [visit_sequence] at h
  | succ n ih =>
    simp only [visit_sequence, Option.map_eq_some'] at h ⊢
    obtain ⟨inh, hinh, hseq⟩ := h
    exact ⟨inh, inherited_sequence_mono P A _ _ (fun M seq hM => by
      have := ih M seq hM
      simpa [visit_sequence] using this) _ _ hinh, hseq⟩

theorem visit_sequence_le (P : Program) (A : AccessSpecifier) (n m : Nat) (hnm : n ≤ m)
    (T : RecordType) (seq : List Func) (h : visit_sequence P A n T = some seq) :
    visit_sequence P A m T = some seq := by
  induction hnm with
  | refl => exact h
  | step _ ih => exact visit_sequence_succ P A _ T seq ih

theorem inherited_sequence_isSome (P : Program) (A : AccessSpecifier)
    (v : RecordType → Option (List Func)) (bs : List Base)
    (hv : ∀ B ∈ bs, ∀ M, P.member_meta B.type = some M → ∃ seq, v M = some seq) :
    ∃ seq, inherited_sequence P A v bs = some seq := by
  induction bs with
  | nil => exact ⟨[], rfl⟩
  | cons B bs ih =>
    obtain ⟨rest, hrest⟩ := ih fun B' hB' => hv B' (List.mem_cons_of_mem _ hB')
    have hpart : ∃ part, base_sequence P A v B = some part := by
      unfold base_sequence
      by_cases hA : A.toInt ≤ B.access.toInt
      · cases hm : P.member_meta B.type with
        | none => exact ⟨[], by simp [hA]⟩
        | some M =>
          obtain ⟨part, hpart⟩ := hv B (List.mem_cons_self _ _) M hm
          exact ⟨part, by simp [hA, hpart]⟩
      · exact ⟨[], by simp [hA]⟩
    obtain ⟨part, hpart⟩ := hpart
    exact ⟨part ++ rest, (inherited_sequence_cons_some P A v B bs _).2
      ⟨part, rest, hpart, hrest, rfl⟩⟩

theorem visit_sequence_isSome (P : Program) (A : AccessSpecifier) (n : Nat) (T : RecordType)
    (h : heightBelow P n T = true) : ∃ seq, visit_sequence P A n T = some seq := by
  induction n generalizing T with
  | zero => simp [heightBelow] at h
  | succ n ih =>
    simp only [heightBelow, List.all_eq_true] at h
    obtain ⟨inh, hinh⟩ := inherited_sequence_isSome P A (visit_sequence P A n) T.base_classes
      fun B hB M hM => ih M (by simpa [hM] using h B hB)
    exact ⟨T.functions ++ inh, by simp [visit_sequence, hinh]⟩

/-- An acyclic base relation bounds the height: when `rank` strictly decreases along every
base relation to a reflected type, the base graph below `T` has height at most `rank T`. -/
theorem heightBelow_of_rank (P : Program) (rank : RecordType → Nat)
    (hrank : ∀ T B M, B ∈ T.base_classes → P.member_meta B.type = some M → rank M < rank T)
    (n : Nat) (T : RecordType) (h : rank T < n) : heightBelow P n T = true := by
  induction n generalizing T with
  | zero => omega
  | succ n ih =>
    simp only [heightBelow, List.all_eq_true]
    intro B hB
    cases hm : P.member_meta B.type with
    | none => rfl
    | some M =>
      have := hrank T B M hB hm
      exact ih M (by omega)

/-- C3: when the base graph below the descriptor `T` has height less than `fuel`,
`for_each_function<T, A>` returns, and it calls the visitor along one sequence `seq`, whatever
the visitor and the start state are.  That sequence is `visit_sequence`: the methods of `T` in
method list order, then for each base in declaration order with access at least `A` the
sequence of that base under the same `A` when it is reflected and nothing when it is not, and
nothing for a base with access below `A`; it does not depend on the bound `fuel`. -/
theorem C3_for_each_function_sequence (P : Program) (A : AccessSpecifier) (fuel : Nat)
    (T : RecordType) (h : heightBelow P fuel T = true) :
    ∃ seq, visit_sequence P A fuel T = some seq ∧
      (∀ n, heightBelow P n T = true → visit_sequence P A n T = some seq) ∧
      ∀ (σ : Type) (func : Func → σ → σ) (s : σ),
        for_each_function_A P A func fuel T s = some (seq.foldl (fun s f => func f s) s) := by
  obtain ⟨seq, hseq⟩ := visit_sequence_isSome P A fuel T h
  refine ⟨seq, hseq, ?_, ?_⟩
  · intro n hn
    obtain ⟨seq', hseq'⟩ := visit_sequence_isSome P A n T hn
    have h1 := visit_sequence_le P A fuel (max fuel n) (le_max_left _ _) T seq hseq
    have h2 := visit_sequence_le P A n (max fuel n) (le_max_right _ _) T seq' hseq'
    rw [h1] at h2
    rw [hseq', ← Option.some.inj h2]
  · intro σ func s
    rw [for_each_function_A_refines, hseq]
    rfl

/-- C3 at `Derived` of the tests with the bound `Public`: the visitor that records the
qualified names sees the three methods of `Derived`, then the three of `PublicBase`. -/
theorem C3_for_each_function_sequence_witness :
    heightBelow Test.program 2 (extractRecord Test.Derived) = true ∧
      for_each_function_A Test.program .Public (fun f log => log ++ [f.qualified_name]) 2
          (extractRecord Test.Derived) []
        = some ["Derived::bar", "Derived::foo", "Derived::baz", "PublicBase::foo",
            "PublicBase::baz", "PublicBase::notOverriden"] := by
  refine ⟨by decide, ?_⟩
  obtain ⟨seq, hseq, -, hrun⟩ :=
    C3_for_each_function_sequence Test.program .Public 2 (extractRecord Test.Derived)
      (by decide)
  rw [hrun]
  have hv : visit_sequence Test.program .Public 2 (extractRecord Test.Derived)
      = some ((extractRecord Test.Derived).functions ++ (extractRecord Test.PublicBase).functions) := by
    decide
  rw [hv] at hseq
  rw [← Option.some.inj hseq]
  decide

/-- C4: for a descriptor `T` whose bases are three reflected types without bases of their
own, inherited `Private`, `Protected` and `Public` in this order, `for_each_function` with
the bound `Public` visits the methods of `T` and then those of the public base and nothing
else, and with the bound `Private` it visits the methods of `T` and then those of the three
bases; for every sufficient recursion bound, every visitor and every start state.  In the
test `Derived` has 6 visits with the bound `Public` and 7 with the bound `Private`. -/
theorem C4_three_bases (P : Program) (T M₁ M₂ M₃ : RecordType) (b₁ b₂ b₃ : TypeName)
    (hb : T.base_classes = [⟨b₁, .Private⟩, ⟨b₂, .Protected⟩, ⟨b₃, .Public⟩])
    (h₁ : P.member_meta b₁ = some M₁) (h₂ : P.member_meta b₂ = some M₂)
    (h₃ : P.member_meta b₃ = some M₃)
    (e₁ : M₁.base_classes = []) (e₂ : M₂.base_classes = []) (e₃ : M₃.base_classes = [])
    (fuel : Nat) (hfuel : 2 ≤ fuel) :
    (∀ (σ : Type) (func : Func → σ → σ) (s : σ),
      for_each_function_A P .Public func fuel T s
          = some ((T.functions ++ M₃.functions).foldl (fun s f => func f s) s) ∧
        for_each_function_A P .Private func fuel T s
          = some ((T.functions ++ M₁.functions ++ M₂.functions ++ M₃.functions).foldl
              (fun s f => func f s) s)) ∧
      for_each_function_A Test.program .Public (fun _ n => n + 1) 2
          (extractRecord Test.Derived) 0 = some 6 ∧
      for_each_function_A Test.program .Private (fun _ n => n + 1) 2
          (extractRecord Test.Derived) 0 = some 7 := by
  refine ⟨?_, by decide, by decide⟩
  obtain ⟨n, rfl⟩ : ∃ n, fuel = n + 2 := ⟨fuel - 2, by omega⟩
  intro σ func s
  constructor
  · rw [for_each_function_A_refines]
    simp [visit_sequence, inherited_sequence, base_sequence, hb, h₁, h₂, h₃, e₁, e₂, e₃,
      AccessSpecifier.toInt]
  · rw [for_each_function_A_refines]
    simp [visit_sequence, inherited_sequence, base_sequence, hb, h₁, h₂, h₃, e₁, e₂, e₃,
      AccessSpecifier.toInt]

/-- C4 at the record `ThreeBases` over the base classes of the tests: with the bound `Public`
the visitor sees `own` and the three methods of `PublicBase`; with the bound `Private` it
sees `own`, `bar` of `PrivateBase` and the three methods of `PublicBase`. -/
theorem C4_three_bases_witness :
    for_each_function_A Example.program .Public (fun f log => log ++ [f.qualified_name]) 2
          (extractRecord Example.ThreeBases) []
        = some ["ThreeBases::own", "PublicBase::foo", "PublicBase::baz",
            "PublicBase::notOverriden"] ∧
      for_each_function_A Example.program .Private (fun f log => log ++ [f.qualified_name]) 2
          (extractRecord Example.ThreeBases) []
        = some ["ThreeBases::own", "PrivateBase::bar", "PublicBase::foo", "PublicBase::baz",
            "PublicBase::notOverriden"] := by
  have h := (C4_three_bases Example.program (extractRecord Example.ThreeBases)
    (extractRecord Test.PrivateBase) (extractRecord Test.ProtectedBase)
    (extractRecord Test.PublicBase) "PrivateBase" "ProtectedBase" "PublicBase"
    (by decide) (by decide) (by decide) (by decide) (by decide) (by decide) (by decide)
    2 (le_refl 2)).1 (List String) (fun f log => log ++ [f.qualified_name]) []
  rw [h.1, h.2]
  decide

theorem reflected_enumeration (P : Program) (n : TypeName) :
    reflected P [.enumeration n] = (P.meta_specialization n).isSome := by
  simp only [reflected, List.all_cons, List.all_nil, Bool.and_true, meta]
  cases P.meta_specialization n <;> rfl

theorem reflected_other (P : Program) (n : TypeName) : reflected P [.other n] = false := rfl

/-- C5: `with<T>(c)` for one type `T`.  When `T` is reflected (a class type whose `_meta`
is the descriptor `M`, or an enum type with the printed specialization `M`), the effect of
`with<T>(c)` is the effect of the one call of `c` with that descriptor.  When `T` is not
reflected, `c` is not called: the state is returned as it is, and nothing is raised, in
whatever monad the callback runs.  A callback that counts its calls and records its argument
ends with one call with `meta<T>` in the first case and with no call in the second. -/
theorem C5_with (P : Program) (m : Type → Type) [Monad m] (σ : Type)
    (c : List Meta → σ → m σ) (s : σ) :
    (∀ n M, P.member_meta n = some M → with_ P [.record n] c s = c [.record M] s) ∧
    (∀ n M, P.meta_specialization n = some M →
      with_ P [.enumeration n] c s = c [.enumeration M] s) ∧
    (∀ T, reflected P [T] = true → with_ P [T] c s = c [meta P T] s) ∧
    (∀ T, reflected P [T] = false → with_ P [T] c s = pure s) ∧
    (∀ n, P.member_meta n = none → with_ P [.record n] c s = pure s) ∧
    (∀ n, P.meta_specialization n = none → with_ P [.enumeration n] c s = pure s) ∧
    (∀ T, with_ P [T]
        (fun Ms (st : Nat × List (List Meta)) =>
          (Except.ok (st.1 + 1, st.2 ++ [Ms]) : Except Failure (Nat × List (List Meta))))
        (0, [])
      = .ok (if reflected P [T] then (1, [[meta P T]]) else (0, []))) := by
  refine ⟨?_, ?_, ?_, ?_, ?_, ?_, ?_⟩
  · intro n M h
    simp [with_, reflected_record, h, meta]
  · intro n M h
    simp [with_, reflected_enumeration, h, meta]
  · intro T h
    simp [with_, h]
  · intro T h
    simp [with_, h]
  · intro n h
    simp [with_, reflected_record, h]
  · intro n h
    simp [with_, reflected_enumeration, h]
  · intro T
    by_cases h : reflected P [T] = true
    · simp [with_, h]
    · simp only [with_, h]
      rfl

/-- C5 at the tests: for `NotReflected` the flag `enter` stays `false`, for the enum
`ScopedEnum` the flag `called` becomes `true`, and for `Derived` the callback gets the
descriptor of `Derived`. -/
theorem C5_with_witness :
    Test.program.member_meta "NotReflected" = none ∧
      with_ Test.program [.record "NotReflected"] (fun _ _ => Except.ok true) false
        = (Except.ok false : Except Failure Bool) ∧
      reflected Test.program [.enumeration "ScopedEnum"] = true ∧
      with_ Test.program [.enumeration "ScopedEnum"] (fun _ _ => Except.ok true) false
        = (Except.ok true : Except Failure Bool) ∧
      Test.program.member_meta "Derived" = some (extractRecord Test.Derived) ∧
      with_ Test.program [.record "Derived"] (fun Ms _ => Except.ok Ms) []
        = (Except.ok [.record (extractRecord Test.Derived)] : Except Failure (List Meta)) := by
  have h := C5_with Test.program (Except Failure) Bool (fun _ _ => Except.ok true) false
  have h' := C5_with Test.program (Except Failure) (List Meta) (fun Ms _ => Except.ok Ms) []
  refine ⟨by decide, ?_, by decide, ?_, by decide, ?_⟩
  · rw [h.2.2.2.2.1 "NotReflected" (by decide)]; rfl
  · rw [h.2.2.1 (.enumeration "ScopedEnum") (by decide)]
  · rw [h'.1 "Derived" (extractRecord Test.Derived) (by decide)]

/-- C6, evaluated at `struct Undirected : PublicBase {};`: the record carries no directive and
the plugin adds no alias to it, and yet `Undirected::_meta` names the alias of its public base
`PublicBase`, so that `reflected<Undirected>` holds, `meta<Undirected>` is the descriptor of
`PublicBase`, and `with<Undirected>` calls its callback.  (`NotReflected`, without a directive
and without bases, is not reflected.) -/
theorem C6_undirected_derived_is_reflected :
    Example.Undirected.attrs = [] ∧
      matchesReflected Example.Undirected.attrs = false ∧
      injected_meta Example.Undirected = none ∧
      reflected Example.program [.record "Undirected"] = true ∧
      meta Example.program (.record "Undirected") = .record (extractRecord Test.PublicBase) ∧
      with_ Example.program [.record "Undirected"] (fun _ _ => some true) false = some true ∧
      reflected Example.program [.record "NotReflected"] = false := by
  decide

/-! ## Lemmas on the enum operations -/

theorem withMeta_reflected {α : Type} (P : Program) (T : TypeName) (M : EnumMeta)
    (k : EnumMeta → Except Failure α) (h : P.meta_specialization T = some M) :
    e.withMeta P T k = k M := by
  simp [e.withMeta, reflected_enumeration, h, meta]

theorem distinct_labels_iff (l : List Int) : distinct_labels l = true ↔ l.Nodup := by
  induction l with
  | nil => simp [distinct_labels]
  | cons x xs ih => simp [distinct_labels, ih]

theorem labels_casesLoop (l : List EnumConstantDecl) :
    (casesLoop l).map Prod.fst = l.map EnumConstantDecl.value := by
  induction l with
  | nil => rfl
  | cons c rest ih => simp only [casesLoop, List.map_cons, ih]

theorem switchCase_casesLoop (l : List EnumConstantDecl)
    (hvalues : (l.map EnumConstantDecl.value).Nodup) (v : Int) :
    switchCase (casesLoop l) v = .ok (selectCase (casesLoop l) v) := by
  have h : distinct_labels ((casesLoop l).map Prod.fst) = true := by
    rw [labels_casesLoop]; exact (distinct_labels_iff _).2 hvalues
  simp only [switchCase, h, if_true]

theorem to_string_of_some (enumDecl : EnumDecl)
    (hvalues : (enumDecl.enumerators.map EnumConstantDecl.value).Nodup) (v : Int) (n : String)
    (h : selectCase (casesLoop enumDecl.enumerators) v = some n) :
    (extractEnum enumDecl).to_string v = .ok n := by
  simp only [EnumMeta.to_string, extractEnum, switchCase_casesLoop _ hvalues, h]

theorem to_string_safe_of_some (enumDecl : EnumDecl)
    (hvalues : (enumDecl.enumerators.map EnumConstantDecl.value).Nodup) (v : Int) (n : String)
    (h : selectCase (casesLoop enumDecl.enumerators) v = some n) :
    (extractEnum enumDecl).to_string_safe v = .ok n := by
  simp only [EnumMeta.to_string_safe, extractEnum, switchCase_casesLoop _ hvalues, h]

theorem selectCase_casesLoop_mem (l : List EnumConstantDecl)
    (hvalues : (l.map EnumConstantDecl.value).Nodup) (c : EnumConstantDecl) (hc : c ∈ l) :
    selectCase (casesLoop l) c.value = some c.name := by
  induction l with
  | nil => simp at hc
  | cons c' rest ih =>
    simp only [List.map_cons, List.nodup_cons, List.mem_map, not_exists, not_and] at hvalues
    simp only [casesLoop, selectCase]
    rcases List.mem_cons.1 hc with rfl | hrest
    · simp
    · have hne : c'.value ≠ c.value := fun heq => hvalues.1 c hrest heq.symm
      simp only [hne, if_false]
      exact ih hvalues.2 hrest

theorem fromLoop_enumeratorsLoop_none (l : List EnumConstantDecl) (n : String) :
    EnumMeta.fromLoop (enumeratorsLoop l) n = none ↔ ∀ c ∈ l, c.name ≠ n := by
  induction l with
  | nil => simp [enumeratorsLoop, EnumMeta.fromLoop]
  | cons c rest ih =>
    simp only [enumeratorsLoop, EnumMeta.fromLoop, List.mem_cons, forall_eq_or_imp]
    by_cases hn : c.name = n
    · simp [hn]
    · simp [hn, ih]

theorem fromLoop_enumeratorsLoop_some (l : List EnumConstantDecl) (n : String) (v : Int)
    (h : EnumMeta.fromLoop (enumeratorsLoop l) n = some v) :
    ∃ c ∈ l, c.name = n ∧ c.value = v := by
  induction l with
  | nil => simp [enumeratorsLoop, EnumMeta.fromLoop] at h
  | cons c rest ih =>
    simp only [enumeratorsLoop, EnumMeta.fromLoop] at h
    by_cases hn : c.name = n
    · simp only [hn, if_true, Option.some.injEq] at h
      exact ⟨c, List.mem_cons_self _ _, hn, h⟩
    · simp only [hn, if_false] at h
      obtain ⟨c', hc', h'⟩ := ih h
      exact ⟨c', List.mem_cons_of_mem _ hc', h'⟩

theorem fromLoop_enumeratorsLoop_mem (l : List EnumConstantDecl)
    (hnames : (l.map EnumConstantDecl.name).Nodup) (c : EnumConstantDecl) (hc : c ∈ l) :
    EnumMeta.fromLoop (enumeratorsLoop l) c.name = some c.value := by
  induction l with
  | nil => simp at hc
  | cons c' rest ih =>
    simp only [List.map_cons, List.nodup_cons, List.mem_map, not_exists, not_and] at hnames
    simp only [enumeratorsLoop, EnumMeta.fromLoop]
    rcases List.mem_cons.1 hc with rfl | hrest
    · simp
    · have hne : c'.name ≠ c.name := fun heq => hnames.1 c hrest heq.symm
      simp only [hne, if_false]
      exact ih hnames.2 hrest

theorem validLoop_enumeratorsLoop (l : List EnumConstantDecl) (v : Int) :
    EnumMeta.validLoop (enumeratorsLoop l) v = true ↔ ∃ c ∈ l, c.value = v := by
  induction l with
  | nil => simp [enumeratorsLoop, EnumMeta.validLoop]
  | cons c rest ih =>
    simp only [enumeratorsLoop, EnumMeta.validLoop, List.mem_cons, exists_eq_or_imp]
    by_cases hv : c.value = v
    · simp [hv]
    · simp [hv, ih]

/-- C9: for a reflected enum and every value `v`, `valid(v)` returns a truth value, which is
`true` exactly when some declared enumerator has the value `v`. -/
theorem C9_valid (P : Program) (E : TypeName) (enumDecl : EnumDecl)
    (hE : P.meta_specialization E = some (extractEnum enumDecl)) (v : Int) :
    ∃ b, e.valid P E v = .ok b ∧ (b = true ↔ ∃ c ∈ enumDecl.enumerators, c.value = v) := by
  simp only [e.valid, withMeta_reflected P E _ _ hE, EnumMeta.valid, extractEnum]
  exact ⟨_, rfl, validLoop_enumeratorsLoop _ _⟩

/-- C9 at `ScopedEnum` of the tests: `valid` holds for `eVal1 = 3` and not for `-1`. -/
theorem C9_valid_witness :
    (∃ b, e.valid Test.program "ScopedEnum" 3 = .ok b ∧
        (b = true ↔ ∃ c ∈ Test.ScopedEnum.enumerators, c.value = 3)) ∧
      e.valid Test.program "ScopedEnum" 3 = .ok true ∧
      e.valid Test.program "ScopedEnum" (-1) = .ok false :=
  ⟨C9_valid Test.program "ScopedEnum" Test.ScopedEnum (by decide) 3, rfl, rfl⟩

/-- C10: for a reflected enum and every string `n`, `from_string(n)` returns an optional
value `r` (it never fails); `r` is absent exactly when no declared enumerator is named `n`;
a present `r` is the value of an enumerator named `n`; and, enumerator names being pairwise
distinct, `r` is the value of the enumerator named `n` when there is one. -/
theorem C10_from_string (P : Program) (E : TypeName) (enumDecl : EnumDecl)
    (hE : P.meta_specialization E = some (extractEnum enumDecl)) (n : String) :
    ∃ r, e.from_string P E n = .ok r ∧
      (r = none ↔ ∀ c ∈ enumDecl.enumerators, c.name ≠ n) ∧
      (∀ v, r = some v → ∃ c ∈ enumDecl.enumerators, c.name = n ∧ c.value = v) ∧
      ((enumDecl.enumerators.map EnumConstantDecl.name).Nodup →
        ∀ c ∈ enumDecl.enumerators, c.name = n → r = some c.value) := by
  simp only [e.from_string, withMeta_reflected P E _ _ hE, EnumMeta.from_string, extractEnum]
  refine ⟨_, rfl, fromLoop_enumeratorsLoop_none _ _, ?_, ?_⟩
  · intro v hv
    exact fromLoop_enumeratorsLoop_some _ _ _ hv
  · intro hnames c hc hn
    rw [← hn]
    exact fromLoop_enumeratorsLoop_mem _ hnames c hc

/-- C10 at `ScopedEnum` of the tests: `eVal3` gives the value `13`, and `eVal4` is absent. -/
theorem C10_from_string_witness :
    (∃ r, e.from_string Test.program "ScopedEnum" "eVal3" = .ok r ∧ r = some 13) ∧
      e.from_string Test.program "ScopedEnum" "eVal4" = .ok none := by
  obtain ⟨r, hr, -, -, hval⟩ :=
    C10_from_string Test.program "ScopedEnum" Test.ScopedEnum (by decide) "eVal3"
  exact ⟨⟨r, hr, hval (by decide) ⟨"eVal3", 13⟩ (by decide) rfl⟩, rfl⟩

theorem enumeratorsFor_enumeratorsLoop {σ : Type} (l : List EnumConstantDecl)
    (func : Int → String → σ → σ) (s : σ) :
    e.enumeratorsFor (enumeratorsLoop l) func s = l.foldl (fun s c => func c.value c.name s) s := by
  induction l generalizing s with
  | nil => rfl
  | cons c rest ih => simp only [enumeratorsLoop, e.enumeratorsFor, List.foldl_cons]; exact ih _

theorem countLoop_eq (l : List EnumConstantDecl) (count : Nat) :
    countLoop count l = count + l.length := by
  induction l generalizing count with
  | nil => rfl
  | cons c rest ih => simp only [countLoop, ih, List.length_cons]; omega

theorem enumeratorsLoop_eq_map (l : List EnumConstantDecl) :
    enumeratorsLoop l = l.map fun c => { name := c.name, value := c.value } := by
  induction l with
  | nil => rfl
  | cons c rest ih => simp only [enumeratorsLoop, ih, List.map_cons]

theorem withMeta_not_reflected {α : Type} (P : Program) (T : TypeName)
    (k : EnumMeta → Except Failure α) (h : P.meta_specialization T = none) :
    e.withMeta P T k = .error e.not_available := by
  simp [e.withMeta, reflected_enumeration, h]

/-- C12: for an enum type that is not reflected (there is no specialization `refl::meta<E>`),
each of `refl::e::from_string`, `to_string`, `to_string_safe`, `valid` and `for_each` throws
the `std::runtime_error` with the message `reflection is not available for this enum`, and
`for_each` leaves the state of the visitor as it was: the visitor is not called. -/
theorem C12_not_reflected_enum (P : Program) (E : TypeName)
    (hE : P.meta_specialization E = none) :
    (∀ name, e.from_string P E name
      = .error (.runtime_error "reflection is not available for this enum")) ∧
    (∀ value, e.to_string P E value
      = .error (.runtime_error "reflection is not available for this enum")) ∧
    (∀ value, e.to_string_safe P E value
      = .error (.runtime_error "reflection is not available for this enum")) ∧
    (∀ value, e.valid P E value
      = .error (.runtime_error "reflection is not available for this enum")) ∧
    (∀ (σ : Type) (func : Int → String → σ → σ) (s : σ), e.for_each P E func s
      = (s, .error (.runtime_error "reflection is not available for this enum"))) ∧
    (∀ s : Nat, (e.for_each P E (fun _ _ calls => calls + 1) s).1 = s) := by
  have hfor : ∀ (σ : Type) (func : Int → String → σ → σ) (s : σ), e.for_each P E func s
      = (s, .error (.runtime_error "reflection is not available for this enum")) := by
    intro σ func s
    simp [e.for_each, reflected_enumeration, hE, e.not_available]
  refine ⟨?_, ?_, ?_, ?_, hfor, ?_⟩
  · intro name; exact withMeta_not_reflected P E _ hE
  · intro value; exact withMeta_not_reflected P E _ hE
  · intro value; exact withMeta_not_reflected P E _ hE
  · intro value; exact withMeta_not_reflected P E _ hE
  · intro s; rw [hfor]

/-- C12 at the enum `NotReflected` of the tests: `for_each` throws and its visitor has counted
no call. -/
theorem C12_not_reflected_enum_witness :
    Test.program.meta_specialization "NotReflected" = none ∧
      e.for_each Test.program "NotReflected" (fun _ _ calls => calls + 1) 0
        = (0, .error (.runtime_error "reflection is not available for this enum")) :=
  ⟨by decide,
    (C12_not_reflected_enum Test.program "NotReflected" (by decide)).2.2.2.2.1 Nat
      (fun _ _ calls => calls + 1) 0⟩

/-- C13: for a reflected enum, `refl::e::for_each` returns normally after having called the
visitor once for every declared enumerator, in declaration order, with the value and the name
of that enumerator; the array `enumerators` of the descriptor has as many entries as the enum
declares (its declared size and its initializers), and they are the declared enumerators in
declaration order. -/
theorem C13_for_each_enumerators (P : Program) (E : TypeName) (enumDecl : EnumDecl)
    (hE : P.meta_specialization E = some (extractEnum enumDecl)) :
    (∀ (σ : Type) (func : Int → String → σ → σ) (s : σ), e.for_each P E func s
      = (enumDecl.enumerators.foldl (fun s c => func c.value c.name s) s, .ok ())) ∧
    (e.for_each P E (fun value name log => log ++ [(value, name)]) []).1
      = enumDecl.enumerators.map (fun c => (c.value, c.name)) ∧
    (extractEnum enumDecl).enumerators.length = enumDecl.enumerators.length ∧
    (extractEnum enumDecl).enumerators_size = enumDecl.enumerators.length ∧
    (extractEnum enumDecl).enumerators.map (fun it => (it.value, it.name))
      = enumDecl.enumerators.map (fun c => (c.value, c.name)) := by
  have hfor : ∀ (σ : Type) (func : Int → String → σ → σ) (s : σ), e.for_each P E func s
      = (enumDecl.enumerators.foldl (fun s c => func c.value c.name s) s, .ok ()) := by
    intro σ func s
    simp [e.for_each, reflected_enumeration, hE, meta, extractEnum,
      enumeratorsFor_enumeratorsLoop]
  refine ⟨hfor, ?_, ?_, ?_, ?_⟩
  · rw [hfor]
    simp only
    generalize enumDecl.enumerators = l
    suffices h : ∀ (acc : List (Int × String)),
        List.foldl (fun s (c : EnumConstantDecl) => s ++ [(c.value, c.name)]) acc l
          = acc ++ l.map (fun c => (c.value, c.name)) by simpa using h []
    induction l with
    | nil => intro acc; simp
    | cons c rest ih => intro acc; simp [ih]
  · simp [extractEnum, enumeratorsLoop_eq_map]
  · simp [extractEnum, countLoop_eq]
  · simp [extractEnum, enumeratorsLoop_eq_map]

/-- C13 at `ScopedEnum` of the tests: three calls, with `eVal1 = 3`, `eVal2 = 5` and
`eVal3 = 13` in this order. -/
theorem C13_for_each_enumerators_witness :
    e.for_each Test.program "ScopedEnum" (fun value name log => log ++ [(value, name)]) []
      = ([(3, "eVal1"), (5, "eVal2"), (13, "eVal3")], .ok ()) :=
  (C13_for_each_enumerators Test.program "ScopedEnum" Test.ScopedEnum (by decide)).1
    (List (Int × String)) (fun value name log => log ++ [(value, name)]) []

/-! ## Lemmas on the constructor predicates and the tags -/

theorem length_eq_one_getElem? (P : List TypeName) (t : TypeName) :
    (P.length = 1 ∧ P[0]? = some t) ↔ P = [t] := by
  match P with
  | [] => simp
  | [a] => simp
  | a :: b :: rest => simp

/-- C14: for every constructor descriptor `C` with type `T` and parameter type list `P`:
`is_default()` is `true` exactly when `P` is empty; `is_copy()` is `true` exactly when `P` has
one element and it is `const T&`; `is_move_copy()` is `true` exactly when `P` has one element
and it is `T&&`.  The three results are the same for two descriptors with the same `T` and
`P`, whatever their tags (and names) are.  (`is_copy()` always has a value; `is_move_copy()`
has a value, `true` or `false`, exactly when `P` is not empty.) -/
theorem C14_constructor_predicates (C : Constr) :
    (C.is_default = true ↔ C.parameters.types = []) ∧
    (C.is_copy = some true ↔ C.parameters.types = [constLvalueRef C.type]) ∧
    (C.is_move_copy = some true ↔ C.parameters.types = [rvalueRef C.type]) ∧
    (∀ C' : Constr, C'.type = C.type → C'.parameters.types = C.parameters.types →
      C'.is_default = C.is_default ∧ C'.is_copy = C.is_copy ∧
        C'.is_move_copy = C.is_move_copy) ∧
    (∃ b, C.is_copy = some b) ∧
    (C.is_move_copy = none ↔ C.parameters.types = []) := by
  obtain ⟨name, T, ⟨types, names⟩, tags⟩ := C
  refine ⟨?_, ?_, ?_, ?_, ?_, ?_⟩
  · simp [Constr.is_default, tuple_size]
  · match types with
    | [] => simp [Constr.is_copy, tuple_size]
    | [t] =>
      simp only [Constr.is_copy, tuple_size, tuple_element, is_same, List.length_singleton,
        if_true, List.getElem?_cons_zero, Option.some.injEq, decide_eq_true_eq,
        List.cons.injEq, and_true]
      exact eq_comm
    | t :: u :: rest => simp [Constr.is_copy, tuple_size]
  · match types with
    | [] => simp [Constr.is_move_copy, tuple_element]
    | [t] =>
      simp only [Constr.is_move_copy, tuple_size, tuple_element, is_same,
        List.length_singleton, List.getElem?_cons_zero, Option.some.injEq, beq_self_eq_true,
        Bool.true_and, decide_eq_true_eq, List.cons.injEq, and_true]
      exact eq_comm
    | t :: u :: rest => simp [Constr.is_move_copy, tuple_size, tuple_element]
  · intro C' hT hP
    simp only at hT hP
    simp [Constr.is_default, Constr.is_copy, Constr.is_move_copy, hT, hP]
  · match types with
    | [] => exact ⟨false, by simp [Constr.is_copy, tuple_size]⟩
    | [t] => exact ⟨is_same (constLvalueRef T) t, by simp [Constr.is_copy, tuple_size, tuple_element]⟩
    | t :: u :: rest => exact ⟨false, by simp [Constr.is_copy, tuple_size]⟩
  · match types with
    | [] => simp [Constr.is_move_copy, tuple_element]
    | t :: rest => simp [Constr.is_move_copy, tuple_element]

/-- C14 at the move constructor and at a tagged copy of it: the tags change none of the three
results. -/
theorem C14_constructor_predicates_witness :
    ({ name := "Constructors(Constructors &&)", type := "Constructors",
       parameters := ⟨["Constructors &&"], [""]⟩, tags := ["Tag\x7b7\x7d"] } : Constr).is_move_copy
      = ({ name := "Constructors(Constructors &&)", type := "Constructors",
           parameters := ⟨["Constructors &&"], [""]⟩, tags := [] } : Constr).is_move_copy :=
  ((C14_constructor_predicates
      { name := "Constructors(Constructors &&)", type := "Constructors",
        parameters := ⟨["Constructors &&"], [""]⟩, tags := [] }).2.2.2.1
    { name := "Constructors(Constructors &&)", type := "Constructors",
      parameters := ⟨["Constructors &&"], [""]⟩, tags := ["Tag\x7b7\x7d"] } rfl rfl).2.2

theorem foldl_or {α : Type} (p : α → Bool) (l : List α) (b : Bool) :
    l.foldl (fun acc d => acc || p d) b = (b || l.any p) := by
  induction l generalizing b with
  | nil => simp
  | cons x xs ih => simp [ih, Bool.or_assoc]

theorem is_same_iff (A B : TypeName) : is_same A B = true ↔ B = A := by
  simp only [is_same, decide_eq_true_eq]
  exact eq_comm

theorem with_tag_eq_foldl {α σ : Type} (tags : List (TagValue α)) (TAG : TypeName)
    (func : α → σ → σ) (s : σ) :
    with_tag tags TAG func s
      = ((tags.filter fun d => is_same TAG d.type).map TagValue.value).foldl
          (fun s v => func v s) s := by
  induction tags generalizing s with
  | nil => rfl
  | cons d rest ih =>
    simp only [with_tag, ih, List.filter_cons]
    by_cases h : is_same TAG d.type = true
    · simp [h]
    · simp [h]

/-- C16 fails as stated: on a tag list with two values of the type `Tag` the function of
`with_tag` is called twice, with the value `3` and then with the value `5`, not once. -/
theorem C16_counterexample :
    with_tag Example.twoTags "Tag" (fun _ calls => calls + 1) 0 = 2 ∧
      with_tag Example.twoTags "Tag" (fun v log => log ++ [v]) [] = [3, 5] := by
  decide

/-- C16, amended: `with_tag<T>(member, fn)` calls `fn` once for every tag of the type `T` in
the tag list, in list order.  So when the list holds a tag of the type `T`, the first call is
with the first such tag, and the further tags of the type `T` are handled in the same way
after it; and when the list holds exactly one tag of the type `T`, `fn` is called exactly
once, with that tag. -/
theorem C16_with_tag_every_match {α σ : Type} (tags : List (TagValue α)) (TAG : TypeName)
    (func : α → σ → σ) (s : σ) :
    with_tag tags TAG func s
        = ((tags.filter fun d => is_same TAG d.type).map TagValue.value).foldl
            (fun s v => func v s) s ∧
    (∀ pre d post, tags = pre ++ d :: post → (∀ x ∈ pre, x.type ≠ TAG) → d.type = TAG →
      with_tag tags TAG func s = with_tag post TAG func (func d.value s)) ∧
    (∀ d, (tags.filter fun d => is_same TAG d.type) = [d] →
      with_tag tags TAG func s = func d.value s) := by
  refine ⟨with_tag_eq_foldl tags TAG func s, ?_, ?_⟩
  · intro pre d post htags hpre hd
    rw [with_tag_eq_foldl, with_tag_eq_foldl, htags, List.filter_append]
    have h1 : pre.filter (fun d => is_same TAG d.type) = [] := by
      rw [List.filter_eq_nil_iff]
      intro x hx
      rw [is_same_iff]
      exact hpre x hx
    have h2 : is_same TAG d.type = true := (is_same_iff _ _).2 hd
    simp [h1, List.filter_cons, h2]
  · intro d hd
    rw [with_tag_eq_foldl, hd]
    rfl

/-- C16, amended, at the tag list `{Tag{3}, Tag{5}}`: the first call is with `3`, and the tag
`5` after it is handled next. -/
theorem C16_with_tag_every_match_witness :
    with_tag Example.twoTags "Tag" (fun v log => log ++ [v]) []
      = with_tag [⟨"Tag", 5⟩] "Tag" (fun v log => log ++ [v]) [3] :=
  (C16_with_tag_every_match Example.twoTags "Tag" (fun v log => log ++ [v]) []).2.1
    [] ⟨"Tag", 3⟩ [⟨"Tag", 5⟩] rfl (by simp) rfl

/-- C17: `has_tag<T>(member)` is `true` exactly when the tag list of the member holds a value
of the type `T`.  When it is `false`, `with_tag<T>(member, fn)` returns the state as it is:
`fn` is not called and nothing is raised.  The values that `fn` receives are the values of
the tags of the type `T`, unchanged.  In the test, the extractor prints the tag `Tag{3}` for
the field `a` of `Tags` and no tag for `b`; `has_tag` holds for the tag list of `a`,
`with_tag` delivers the payload `3`, and on the tag list of `b` it is a no-op. -/
theorem C17_has_tag {α : Type} (tags : List (TagValue α)) (TAG : TypeName) :
    (has_tag tags TAG = true ↔ ∃ d ∈ tags, d.type = TAG) ∧
    (has_tag tags TAG = false →
      ∀ (σ : Type) (func : α → σ → σ) (s : σ), with_tag tags TAG func s = s) ∧
    with_tag tags TAG (fun v log => log ++ [v]) []
      = (tags.filter fun d => d.type = TAG).map TagValue.value ∧
    (extractRecord Test.Tags).variables_.map (fun V => (V.name, V.tags))
      = [("a", ["Tag\x7b3\x7d"]), ("b", [])] ∧
    has_tag Test.Tags_a_tags "Tag" = true ∧
    with_tag Test.Tags_a_tags "Tag" (fun t _ => t) 0 = 3 ∧
    has_tag Test.Tags_b_tags "Tag" = false ∧
    with_tag Test.Tags_b_tags "Tag" (fun t _ => t) 0 = 0 := by
  have hiff : has_tag tags TAG = true ↔ ∃ d ∈ tags, d.type = TAG := by
    simp only [has_tag, detail.has_tag, foldl_or, Bool.false_or, List.any_eq_true, is_same_iff]
  have hfilter : (tags.filter fun d => is_same TAG d.type)
      = tags.filter fun d => decide (d.type = TAG) := by
    congr 1
    funext d
    rw [Bool.eq_iff_iff, is_same_iff, decide_eq_true_eq]
  refine ⟨hiff, ?_, ?_, by decide, by decide, by decide, by decide, by decide⟩
  · intro hfalse σ func s
    have hnone : (tags.filter fun d => is_same TAG d.type) = [] := by
      rw [List.filter_eq_nil_iff]
      intro d hd hsame
      have : has_tag tags TAG = true := hiff.2 ⟨d, hd, (is_same_iff _ _).1 hsame⟩
      rw [hfalse] at this
      cases this
    rw [with_tag_eq_foldl, hnone]
    rfl
  · rw [with_tag_eq_foldl, hfilter]
    generalize (tags.filter fun d => decide (d.type = TAG)).map TagValue.value = l
    suffices h : ∀ acc : List α, List.foldl (fun s v => s ++ [v]) acc l = acc ++ l by
      simpa using h []
    induction l with
    | nil => intro acc; simp
    | cons v rest ih => intro acc; simp [ih]

/-- C17 at a tag list without a value of the type `Tag`: `has_tag` is `false` and `with_tag`
does not call its function. -/
theorem C17_has_tag_witness :
    has_tag [(⟨"skip_ser", 0⟩ : TagValue Int)] "Tag" = false ∧
      with_tag [(⟨"skip_ser", 0⟩ : TagValue Int)] "Tag" (fun _ calls => calls + 1) 0 = 0 :=
  ⟨by decide,
    (C17_has_tag [(⟨"skip_ser", 0⟩ : TagValue Int)] "Tag").2.1 (by decide) Nat
      (fun _ calls => calls + 1) 0⟩

/-! ## Lemmas on the synthesized names -/

theorem paramsLoop_true (acc : String) (plist : PList) (ps : List ParmVarDecl) :
    paramsLoop true acc plist ps
      = (String.intercalate.go acc "," (ps.map fun p => replace_Bool "bool" p.type),
          { types := plist.types ++ ps.map fun p => replace_Bool "bool" p.type,
            names := plist.names ++ ps.map fun p => p.name }) := by
  induction ps generalizing acc plist with
  | nil => simp [paramsLoop, String.intercalate.go]
  | cons p rest ih =>
    simp only [paramsLoop, if_true, ih, List.map_cons, String.intercalate.go, List.append_assoc,
      List.singleton_append]

theorem paramsLoop_false (ps : List ParmVarDecl) :
    paramsLoop false "" { types := [], names := [] } ps
      = (String.intercalate "," (ps.map fun p => replace_Bool "bool" p.type),
          { types := ps.map fun p => replace_Bool "bool" p.type,
            names := ps.map fun p => p.name }) := by
  cases ps with
  | nil => rfl
  | cons p rest =>
    simp [paramsLoop, paramsLoop_true, String.intercalate]

theorem full_name_eq (sname : String) (it : CXXMethodDecl) :
    (emitFunc sname it).full_name
      = it.name ++ "(" ++ String.intercalate "," (it.parameters.map fun p => replace_Bool "bool" p.type)
          ++ ")" ++ rqual it.methodQualifiers it.refQualifier := by
  simp [emitFunc, paramsLoop_false]

theorem parameters_eq (sname : String) (it : CXXMethodDecl) :
    (emitFunc sname it).parameters
      = { types := it.parameters.map fun p => replace_Bool "bool" p.type,
          names := it.parameters.map fun p => p.name } := by
  simp [emitFunc, paramsLoop_false]

/-- C18, evaluated at `struct [[refl::all]] BoolNames { void load(A_Bool); void load(Abool); };`:
the two overloads differ in their parameter type, and both get the full name `load(Abool)`
(and the same pointer expression), because the replacement of `_Bool` by `bool` is applied
inside the type name `A_Bool`.  The nine overloads of `load` in the test have nine distinct
full names. -/
theorem C18_full_names_collide :
    Example.BoolNames.methods.map (fun it => (it.name, it.parameters.map ParmVarDecl.type))
        = [("load", ["A_Bool"]), ("load", ["Abool"])] ∧
      (extractRecord Example.BoolNames).functions.map Func.full_name
        = ["load(Abool)", "load(Abool)"] ∧
      (extractRecord Example.BoolNames).functions.map Func.ptr
        = ["static_cast<void(BoolNames::*)(Abool)>(&BoolNames::load)",
           "static_cast<void(BoolNames::*)(Abool)>(&BoolNames::load)"] ∧
      ((extractRecord Test.Overloads).functions.map Func.full_name).length = 9 ∧
      ((extractRecord Test.Overloads).functions.map Func.full_name).Nodup := by
  decide

/-- C19 fails as stated: the full name of `int load(int a, int b) const&` is
`load(int,int)const &`, with a blank between the qualifier `const` and `&`. -/
theorem C19_counterexample :
    (emitFunc "Overloads" Test.loadConstRef).full_name = "load(int,int)const &" ∧
      (emitFunc "Overloads" Test.loadConstRef).full_name ≠ "load(int,int)const&" := by
  decide

/-- C19, amended: for a method named `load` with the parameter types `(int, int)`, declared
`const` with an lvalue reference qualifier, the full name is exactly `load(int,int)const &`:
the name, the parenthesized comma-joined parameter types, the const/volatile qualifier, then a
blank and the reference qualifier, and no other white space. -/
theorem C19_full_name_const_lvalue (sname : String) (it : CXXMethodDecl)
    (hname : it.name = "load") (hparams : it.parameters.map ParmVarDecl.type = ["int", "int"])
    (hqual : it.methodQualifiers = "const") (href : it.refQualifier = .RQ_LValue) :
    (emitFunc sname it).full_name = "load(int,int)const &" ∧
      (emitFunc sname it).full_name
        = it.name ++ "(" ++ String.intercalate "," (it.parameters.map ParmVarDecl.type) ++ ")"
            ++ it.methodQualifiers ++ " " ++ "&" := by
  have htypes : (it.parameters.map fun p => replace_Bool "bool" p.type) = ["int", "int"] := by
    have : (it.parameters.map fun p => replace_Bool "bool" p.type)
        = (it.parameters.map ParmVarDecl.type).map (replace_Bool "bool") := by
      simp [List.map_map, Function.comp]
    rw [this, hparams]
    decide
  rw [full_name_eq, htypes, hparams, hname, hqual, href]
  constructor <;> decide

/-- C19, amended, at the overload `int load(int a, int b) const&` of the test. -/
theorem C19_full_name_const_lvalue_witness :
    (emitFunc "Overloads" Test.loadConstRef).full_name = "load(int,int)const &" :=
  (C19_full_name_const_lvalue "Overloads" Test.loadConstRef rfl rfl rfl rfl).1

/-- C20: for every included method without a reference qualifier, the full name is the method
name, then `(`, the parameter type names of the descriptor joined by `,` in declaration
order, then `)` and the const/volatile qualifier text of the method, and nothing else.  The
parameter type names of the descriptor are those of the declaration, where clang's spelling
`_Bool` of the type `bool` is written `bool`; they are the names of the declaration as they
are when none of them contains `_Bool`.  So `int getMember() const` has the full name
`getMember()const` and `operator=(const Operators&)` has `operator=(const Operators &)`. -/
theorem C20_full_name_without_ref_qualifier (sname : String) (it : CXXMethodDecl)
    (href : it.refQualifier = .RQ_None) :
    (emitFunc sname it).full_name
        = it.name ++ "(" ++ String.intercalate "," (emitFunc sname it).parameters.types ++ ")"
            ++ it.methodQualifiers ∧
    (emitFunc sname it).parameters.types
        = it.parameters.map (fun p => replace_Bool "bool" p.type) ∧
    ((∀ p ∈ it.parameters, contains p.type "_Bool" = false) →
      (emitFunc sname it).full_name
        = it.name ++ "(" ++ String.intercalate "," (it.parameters.map ParmVarDecl.type) ++ ")"
            ++ it.methodQualifiers) ∧
    (extractRecord Test.Members).functions.map Func.full_name = ["getMember()const"] ∧
    ((extractRecord Test.Operators).functions.map Func.full_name).head?
      = some "operator=(const Operators &)" := by
  refine ⟨?_, ?_, ?_, by decide, by decide⟩
  · rw [full_name_eq, parameters_eq, href]
    rfl
  · rw [parameters_eq]
  · intro hno
    have hmap : (it.parameters.map fun p => replace_Bool "bool" p.type)
        = it.parameters.map ParmVarDecl.type := by
      apply List.map_congr_left
      intro p hp
      have := hno p hp
      cases hf : findChars "_Bool".data p.type.data with
      | none => simp only [replace_Bool, hf]
      | some found => simp [contains, hf] at this
    rw [full_name_eq, hmap, href]
    rfl

/-- C20 at `int getMember() const` of the record `Members` of the tests. -/
theorem C20_full_name_without_ref_qualifier_witness :
    (emitFunc "Members"
        { Test.method "Members" "getMember" false with
          returnType := "int", methodQualifiers := "const" }).full_name
      = "getMember" ++ "(" ++ String.intercalate "," [] ++ ")" ++ "const" :=
  ((C20_full_name_without_ref_qualifier "Members"
      { Test.method "Members" "getMember" false with
        returnType := "int", methodQualifiers := "const" } rfl).2.2.1
    (by simp [Test.method])).trans rfl

theorem constr_name_eq (sname : String) (it : CXXMethodDecl) :
    (emitConstr sname it).name
      = sname ++ "(" ++ String.intercalate "," (it.parameters.map fun p => replace_Bool "bool" p.type)
          ++ ")" := by
  simp [emitConstr, paramsLoop_false]

theorem constr_parameters_eq (sname : String) (it : CXXMethodDecl) :
    (emitConstr sname it).parameters
      = { types := it.parameters.map fun p => replace_Bool "bool" p.type,
          names := it.parameters.map fun p => p.name } := by
  simp [emitConstr, paramsLoop_false]

theorem replace_Bool_of_not_contains (rep t : String) (h : contains t "_Bool" = false) :
    replace_Bool rep t = t := by
  cases hf : findChars "_Bool".data t.data with
  | none => simp only [replace_Bool, hf]
  | some found => simp [contains, hf] at h

theorem mem_constructorsLoop (spec : ReflSpec) (sname : String) (l : List CXXMethodDecl)
    (C : Constr) (h : C ∈ constructorsLoop spec sname l) :
    ∃ it ∈ l, it.isConstructor = true ∧ it.isDeleted = false ∧ C = emitConstr sname it := by
  induction l with
  | nil => simp [constructorsLoop] at h
  | cons it rest ih =>
    simp only [constructorsLoop] at h
    split_ifs at h with h1 h2 h3
    · obtain ⟨it', hit', h'⟩ := ih h
      exact ⟨it', List.mem_cons_of_mem _ hit', h'⟩
    · obtain ⟨it', hit', h'⟩ := ih h
      exact ⟨it', List.mem_cons_of_mem _ hit', h'⟩
    · obtain ⟨it', hit', h'⟩ := ih h
      exact ⟨it', List.mem_cons_of_mem _ hit', h'⟩
    · rcases List.mem_cons.1 h with rfl | h
      · refine ⟨it, List.mem_cons_self _ _, ?_, ?_, rfl⟩
        · cases hc : it.isConstructor <;> simp [hc] at h1 ⊢
        · cases hd : it.isDeleted <;> simp [hd] at h1 ⊢
      · obtain ⟨it', hit', h'⟩ := ih h
        exact ⟨it', List.mem_cons_of_mem _ hit', h'⟩

theorem mem_functionsLoop (spec : ReflSpec) (sname : String) (l : List CXXMethodDecl)
    (F : Func) (h : F ∈ functionsLoop spec sname l) :
    ∃ it ∈ l, it.isConstructor = false ∧ it.isDestructor = false ∧ it.isImplicit = false ∧
      it.isDeleted = false ∧ F = emitFunc sname it := by
  induction l with
  | nil => simp [functionsLoop] at h
  | cons it rest ih =>
    simp only [functionsLoop] at h
    split_ifs at h with h1 h2 h3
    · obtain ⟨it', hit', h'⟩ := ih h
      exact ⟨it', List.mem_cons_of_mem _ hit', h'⟩
    · obtain ⟨it', hit', h'⟩ := ih h
      exact ⟨it', List.mem_cons_of_mem _ hit', h'⟩
    · obtain ⟨it', hit', h'⟩ := ih h
      exact ⟨it', List.mem_cons_of_mem _ hit', h'⟩
    · rcases List.mem_cons.1 h with rfl | h
      · simp only [Bool.or_eq_true, not_or, Bool.not_eq_true] at h1
        exact ⟨it, List.mem_cons_self _ _, h1.1.1.1, h1.1.1.2, h1.1.2, h1.2, rfl⟩
      · obtain ⟨it', hit', h'⟩ := ih h
        exact ⟨it', List.mem_cons_of_mem _ hit', h'⟩

/-- C21: every entry of the constructor list of a descriptor is named by the simple name of
the type, then `(`, the parameter type names of the entry joined by `,` in declaration order,
then `)`.  The parameter type names of the entry are those of the declaration, where clang's
spelling `_Bool` of the type `bool` is written `bool`; they are the names of the declaration as
they are when none of them contains `_Bool`.  The default, copy and move constructors of
`Constructors` are named `Constructors()`, `Constructors(const Constructors &)` and
`Constructors(Constructors &&)`. -/
theorem C21_constructor_name (recordDecl : CXXRecordDecl) :
    (∀ C ∈ (extractRecord recordDecl).constructors,
      C.name = recordDecl.name ++ "(" ++ String.intercalate "," C.parameters.types ++ ")") ∧
    (∀ it : CXXMethodDecl,
      (emitConstr recordDecl.name it).parameters.types
        = it.parameters.map (fun p => replace_Bool "bool" p.type)) ∧
    (∀ it : CXXMethodDecl, (∀ p ∈ it.parameters, contains p.type "_Bool" = false) →
      (emitConstr recordDecl.name it).name
        = recordDecl.name ++ "(" ++ String.intercalate "," (it.parameters.map ParmVarDecl.type)
            ++ ")") ∧
    ((extractRecord Test.Constructors).constructors.map Constr.name).take 3
      = ["Constructors()", "Constructors(const Constructors &)",
         "Constructors(Constructors &&)"] := by
  refine ⟨?_, ?_, ?_, by decide⟩
  · intro C hC
    obtain ⟨it, -, -, -, rfl⟩ := mem_constructorsLoop _ _ _ C hC
    rw [constr_name_eq, constr_parameters_eq]
  · intro it
    rw [constr_parameters_eq]
  · intro it hno
    have hmap : (it.parameters.map fun p => replace_Bool "bool" p.type)
        = it.parameters.map ParmVarDecl.type := by
      apply List.map_congr_left
      intro p hp
      exact replace_Bool_of_not_contains _ _ (hno p hp)
    rw [constr_name_eq, hmap]

/-- C21 at the copy constructor of the record `Constructors` of the tests. -/
theorem C21_constructor_name_witness :
    (emitConstr "Constructors"
        (Test.ctor "Constructors" [⟨"const Constructors &", ""⟩] [])).name
      = "Constructors" ++ "(" ++ String.intercalate "," ["const Constructors &"] ++ ")" :=
  (C21_constructor_name Test.Constructors).2.2.1
    (Test.ctor "Constructors" [⟨"const Constructors &", ""⟩] []) (by decide)

/-- C22, evaluated at `struct [[refl::all]] ImplicitCtor { int x; };` with an object of the
type defined: the elements of `methods()` are the implicit default, copy and move constructors
and the implicit destructor, and the three constructors are entries of the constructor list.
(None of the four is in the method list: the method loop tests `isImplicit()`, the
constructor loop does not.) -/
theorem C22_implicit_constructor_listed :
    Example.ImplicitCtor.methods.map
          (fun it => (it.isConstructor, it.isDestructor, it.isImplicit, it.isDeleted))
        = [(true, false, true, false), (true, false, true, false), (true, false, true, false),
           (false, true, true, false)] ∧
      (extractRecord Example.ImplicitCtor).constructors.map Constr.name
        = ["ImplicitCtor()", "ImplicitCtor(const ImplicitCtor &)",
           "ImplicitCtor(ImplicitCtor &&)"] ∧
      (extractRecord Example.ImplicitCtor).functions = [] := by
  decide

/-- C23 fails as stated: the record `Callback` is matched through an `annotate` attribute
that is no directive, so the mode that the extractor computes for it is `unknown`; its
non-static field `a` and its static field `b` carry the same (no) directive, and `a` is in
the variable list while `b` is not. -/
theorem C23_counterexample :
    matchesReflected Example.Callback.attrs = true ∧
      getReflSpec Example.Callback.attrs = .unknown ∧
      Example.Callback.fields.map FieldDecl.attrs = [[]] ∧
      Example.Callback.staticFields.map VarDecl.attrs = [[]] ∧
      (extractRecord Example.Callback).variables_.map Var.name = ["a"] := by
  decide

/-- C23, amended: for a type with the mode `All` or `None` and every list of attributes, a
static field with these attributes is included exactly when an instance field with the same
attributes is included: for these two modes the flag `ok` of the static callback is the test of
the field loop. -/
theorem C23_static_same_as_instance (mode : TypeDirective) (sname : String) (f : FieldDecl)
    (v : VarDecl) (h : v.attrs = f.attrs) :
    ((staticsLoop mode.spec sname [v] = [emitStaticVar sname v] ∧
        fieldsLoop mode.spec sname [f] = [emitVar sname f]) ∨
      (staticsLoop mode.spec sname [v] = [] ∧ fieldsLoop mode.spec sname [f] = [])) ∧
    ∀ mspec : ReflSpec, staticOk mode.spec mspec
      = (decide (mspec ≠ .exclude) &&
          !(decide (mode.spec = .none) && decide (mspec ≠ .include) && decide (mspec ≠ .tag))) := by
  constructor
  · simp only [staticsLoop, fieldsLoop, h, staticOk]
    cases mode <;> cases getReflSpec f.attrs <;> simp [TypeDirective.spec]
  · intro mspec
    cases mode <;> cases mspec <;> decide

/-- C23, amended, at the record `Statics` of the tests (mode `All`): the static field `test`
without a directive is included, as an instance field without a directive is. -/
theorem C23_static_same_as_instance_witness :
    (extractRecord Test.Statics).variables_.map Var.name = ["test"] ∧
      fieldsLoop .all "Statics" [Test.field "Statics" "test" []]
        = [emitVar "Statics" (Test.field "Statics" "test" [])] := by
  have h := (C23_static_same_as_instance .All "Statics" (Test.field "Statics" "test" [])
    { name := "test", qualifiedName := "Statics::test", access := .Public, attrs := [] } rfl).1
  rcases h with h | h
  · exact ⟨by decide, h.2⟩
  · exact absurd h.1 (by decide)

/-! ## Lemmas on the member lists -/

theorem getReflSpec_noDirective (attrs : List Attr) (h : carriesNoDirective attrs = true) :
    getReflSpec attrs = .unknown := by
  induction attrs with
  | nil => rfl
  | cons a rest ih =>
    simp only [carriesNoDirective, List.all_cons, Bool.and_eq_true] at h
    have hrest : getReflSpec rest = .unknown := ih (by simpa [carriesNoDirective] using h.2)
    by_cases hs : a.spelling = "annotate"
    · have h1 := h.1
      simp only [hs, decide_True, Bool.not_true, Bool.false_or, Bool.and_eq_true,
        Bool.not_eq_true'] at h1
      simp [getReflSpec, hs, h1.1, h1.2, hrest]
    · simp [getReflSpec, hs, hrest]

theorem getReflSpec_None_cons (rest : List Attr) :
    getReflSpec (TypeDirective.None.attr :: rest) = .none := by
  have h1 : starts_with "refl::none" "refl_" = false := by decide
  have h2 : starts_with "refl::none" "refl::" = true := by decide
  have h3 : ends_with "refl::none" "all" = false := by decide
  have h4 : ends_with "refl::none" "none" = true := by decide
  simp [getReflSpec, TypeDirective.attr, h1, h2, h3, h4]

theorem getReflSpec_All_cons (rest : List Attr) :
    getReflSpec (TypeDirective.All.attr :: rest) = .all := by
  have h1 : starts_with "refl::all" "refl_" = false := by decide
  have h2 : starts_with "refl::all" "refl::" = true := by decide
  have h3 : ends_with "refl::all" "all" = true := by decide
  simp [getReflSpec, TypeDirective.attr, h1, h2, h3]

theorem matchesReflected_cons (mode : TypeDirective) (rest : List Attr) :
    matchesReflected (mode.attr :: rest) = true := by
  have h1 : contains " [[clang::annotate(\"refl_none\")]]" "none" = true := by decide
  have h2 : contains " [[clang::annotate(\"refl_all\")]]" "all" = true := by decide
  cases mode <;> simp [matchesReflected, hasReflectAttr, TypeDirective.attr, h1, h2]

theorem functionsLoop_none_unknown (sname : String) (l : List CXXMethodDecl)
    (h : ∀ it ∈ l, getReflSpec it.attrs = .unknown) : functionsLoop .none sname l = [] := by
  induction l with
  | nil => rfl
  | cons it rest ih =>
    have hr := ih fun x hx => h x (List.mem_cons_of_mem _ hx)
    simp [functionsLoop, h it (List.mem_cons_self _ _), hr]

theorem fieldsLoop_none_unknown (sname : String) (l : List FieldDecl)
    (h : ∀ it ∈ l, getReflSpec it.attrs = .unknown) : fieldsLoop .none sname l = [] := by
  induction l with
  | nil => rfl
  | cons it rest ih =>
    have hr := ih fun x hx => h x (List.mem_cons_of_mem _ hx)
    simp [fieldsLoop, h it (List.mem_cons_self _ _), hr]

theorem staticsLoop_none_unknown (sname : String) (l : List VarDecl)
    (h : ∀ it ∈ l, getReflSpec it.attrs = .unknown) : staticsLoop .none sname l = [] := by
  induction l with
  | nil => rfl
  | cons it rest ih =>
    have hr := ih fun x hx => h x (List.mem_cons_of_mem _ hx)
    simp [staticsLoop, staticOk, h it (List.mem_cons_self _ _), hr]

theorem constructorsLoop_none_unknown (sname : String) (l : List CXXMethodDecl)
    (h : ∀ it ∈ l, getReflSpec it.attrs = .unknown) : constructorsLoop .none sname l = [] := by
  induction l with
  | nil => rfl
  | cons it rest ih =>
    have hr := ih fun x hx => h x (List.mem_cons_of_mem _ hx)
    simp [constructorsLoop, h it (List.mem_cons_self _ _), hr]

theorem functionsLoop_all (sname : String) (l : List CXXMethodDecl) :
    functionsLoop .all sname l = (l.filter listedMethod).map (emitFunc sname) := by
  induction l with
  | nil => rfl
  | cons it rest ih =>
    rcases h1 : it.isConstructor with _ | _ <;> rcases h2 : it.isDestructor with _ | _ <;>
      rcases h3 : it.isImplicit with _ | _ <;> rcases h4 : it.isDeleted with _ | _ <;>
      by_cases hx : getReflSpec it.attrs = .exclude <;>
      simp [functionsLoop, List.filter_cons, listedMethod, h1, h2, h3, h4, hx, ih]

theorem extractBases_eq_map (l : List CXXBaseSpecifier) :
    extractBases l = l.map fun it => { type := it.type, access := it.access } := by
  induction l with
  | nil => rfl
  | cons it rest ih => simp [extractBases, ih]

/-- C24: for a record whose first directive is `[[refl::none]]` and none of whose methods
(constructors among them), non-static fields and static fields carries a directive, the
descriptor has no variable (static or not), no function and no constructor, whatever the
record declares; the record still gets its alias `_meta`, and the descriptor keeps the name
and the qualified name of the record. -/
theorem C24_mode_none_no_directives (recordDecl : CXXRecordDecl) (rest : List Attr)
    (hmode : recordDecl.attrs = TypeDirective.None.attr :: rest)
    (hmethods : ∀ it ∈ recordDecl.methods, carriesNoDirective it.attrs = true)
    (hfields : ∀ it ∈ recordDecl.fields, carriesNoDirective it.attrs = true)
    (hstatics : ∀ it ∈ recordDecl.staticFields, carriesNoDirective it.attrs = true) :
    (extractRecord recordDecl).variables_ = [] ∧
      (extractRecord recordDecl).functions = [] ∧
      (extractRecord recordDecl).constructors = [] ∧
      injected_meta recordDecl = some (extractRecord recordDecl) ∧
      (extractRecord recordDecl).name = recordDecl.name ∧
      (extractRecord recordDecl).qualified_name = recordDecl.qualifiedName := by
  have hspec : getReflSpec recordDecl.attrs = .none := by rw [hmode, getReflSpec_None_cons]
  have hmatch : matchesReflected recordDecl.attrs = true := by
    rw [hmode]; exact matchesReflected_cons .None rest
  refine ⟨?_, ?_, ?_, ?_, rfl, rfl⟩
  · simp only [extractRecord, hspec]
    rw [fieldsLoop_none_unknown _ _ fun it hit => getReflSpec_noDirective _ (hfields it hit),
      staticsLoop_none_unknown _ _ fun it hit => getReflSpec_noDirective _ (hstatics it hit)]
    rfl
  · simp only [extractRecord, hspec]
    exact functionsLoop_none_unknown _ _ fun it hit => getReflSpec_noDirective _ (hmethods it hit)
  · simp only [extractRecord, hspec]
    exact constructorsLoop_none_unknown _ _ fun it hit =>
      getReflSpec_noDirective _ (hmethods it hit)
  · simp [injected_meta, hmatch]

/-- C24 at the record `n1::TestingBasics` of the tests, which declares the field `val`. -/
theorem C24_mode_none_no_directives_witness :
    Test.TestingBasics.fields.map FieldDecl.name = ["val"] ∧
      (extractRecord Test.TestingBasics).variables_ = [] ∧
      (extractRecord Test.TestingBasics).functions = [] ∧
      (extractRecord Test.TestingBasics).constructors = [] ∧
      injected_meta Test.TestingBasics = some (extractRecord Test.TestingBasics) ∧
      (extractRecord Test.TestingBasics).name = "TestingBasics" ∧
      (extractRecord Test.TestingBasics).qualified_name = "n1::TestingBasics" :=
  ⟨by decide, C24_mode_none_no_directives Test.TestingBasics [] rfl (by decide) (by decide)
    (by decide)⟩

/-- C25 fails as stated: in `struct [[refl::all]] Mixed { [[refl::include, refl::exclude]]
void foo() {} void bar() {} };` the method `foo` carries `Exclude`, and it is an entry of the
function list. -/
theorem C25_counterexample :
    getReflSpec Example.Mixed.attrs = .all ∧
      Example.Mixed.methods.map
          (fun it => (it.name, decide (MemberDirective.Exclude.attr ∈ it.attrs)))
        = [("foo", true), ("bar", false)] ∧
      (extractRecord Example.Mixed).functions.map Func.name = ["foo", "bar"] := by
  decide

/-- C25, amended: for a record whose first directive is `[[refl::all]]`, the function list of
the descriptor is the list of the methods of the record that are user-declared, not deleted,
neither constructor nor destructor and whose first directive is not `Exclude` (the directive
that `getReflSpec` reports), in declaration order, one entry for each of them; an operator or
a conversion operator is a method like any other, and the eight operators of `Operators` give
eight entries; every entry of the function list comes from a method that is no constructor,
and every entry of the constructor list from a constructor. -/
theorem C25_method_list_mode_all (recordDecl : CXXRecordDecl) (rest : List Attr)
    (hmode : recordDecl.attrs = TypeDirective.All.attr :: rest) :
    (extractRecord recordDecl).functions
        = (recordDecl.methods.filter listedMethod).map (emitFunc recordDecl.name) ∧
      (∀ (d : MemberDirective) (others : List Attr),
        getReflSpec (d.attr :: others) ≠ .exclude ↔ d ≠ .Exclude) ∧
      getReflSpec [] ≠ .exclude ∧
      (∀ F ∈ (extractRecord recordDecl).functions, ∃ it ∈ recordDecl.methods,
        it.isConstructor = false ∧ it.isDestructor = false ∧ F = emitFunc recordDecl.name it) ∧
      (∀ C ∈ (extractRecord recordDecl).constructors, ∃ it ∈ recordDecl.methods,
        it.isConstructor = true ∧ C = emitConstr recordDecl.name it) ∧
      (extractRecord Test.Operators).functions.map Func.name
        = ["operator=", "operator-=", "operator+", "operator++", "operator bool",
           "operator const char *", "operator*", "operator<=>"] ∧
      (extractRecord Test.Operators).constructors = [] := by
  have hspec : getReflSpec recordDecl.attrs = .all := by rw [hmode, getReflSpec_All_cons]
  refine ⟨?_, ?_, by decide, ?_, ?_, by decide, by decide⟩
  · simp only [extractRecord, hspec]
    exact functionsLoop_all _ _
  · intro d others
    cases d with
    | Include => rw [getReflSpec_Include]; simp
    | Exclude => rw [getReflSpec_Exclude]; simp
    | Tag payload => rw [getReflSpec_Tag]; simp
  · intro F hF
    obtain ⟨it, hit, h1, h2, -, -, rfl⟩ := mem_functionsLoop _ _ _ F hF
    exact ⟨it, hit, h1, h2, rfl⟩
  · intro C hC
    obtain ⟨it, hit, h1, -, rfl⟩ := mem_constructorsLoop _ _ _ C hC
    exact ⟨it, hit, h1, rfl⟩

/-- C25, amended, at the record `Operators` of the tests: its eight operators are the eight
entries of the function list. -/
theorem C25_method_list_mode_all_witness :
    (extractRecord Test.Operators).functions
        = Test.Operators.methods.map (emitFunc "Operators") ∧
      (extractRecord Test.Operators).functions.length = 8 := by
  have h := (C25_method_list_mode_all Test.Operators [] rfl).1
  exact ⟨by rw [h]; decide, by rw [h]; decide⟩

/-- C26: the base list of the descriptor of a record has one entry for every direct base of
the record, in declaration order, with the type of the base and the access under which it is
inherited; the list is computed from the base specifiers alone: the attributes of the record
(its mode) play no part in it, and the declaration of a base type (reflected or not) is not
looked at.  The list of `Derived` names its four bases with their access. -/
theorem C26_base_list (recordDecl : CXXRecordDecl) :
    (extractRecord recordDecl).base_classes
        = recordDecl.bases.map (fun it => { type := it.type, access := it.access }) ∧
      (extractRecord recordDecl).base_classes.length = recordDecl.bases.length ∧
      (∀ i : Nat, (extractRecord recordDecl).base_classes[i]?
        = (recordDecl.bases[i]?).map (fun it => { type := it.type, access := it.access })) ∧
      (∀ attrs : List Attr,
        (extractRecord { recordDecl with attrs := attrs }).base_classes
          = (extractRecord recordDecl).base_classes) ∧
      (extractRecord Test.Derived).base_classes
        = [⟨"PrivateBase", .Private⟩, ⟨"ProtectedBase", .Protected⟩, ⟨"PublicBase", .Public⟩,
           ⟨"PublicVirtualBase", .Public⟩] := by
  have h : (extractRecord recordDecl).base_classes
      = recordDecl.bases.map (fun it => { type := it.type, access := it.access }) :=
    extractBases_eq_map _
  refine ⟨h, by rw [h, List.length_map], ?_, fun _ => rfl, by decide⟩
  intro i
  rw [h, List.getElem?_map]

/-! ## Lemmas on the total traversal -/

theorem for_each_function_wf_eq {σ : Type} (G : AcyclicProgram) (A : AccessSpecifier)
    (func : Func → σ → σ) (T : RecordType) (s : σ) :
    for_each_function_wf G A func T s
      = T.base_classes.foldl (fun s B =>
          if A.toInt ≤ B.access.toInt then
            match G.member_meta B.type with
            | some M => for_each_function_wf G A func M s
            | none => s
          else s) (T.functions.foldl (fun s f => func f s) s) := by
  rw [for_each_function_wf]
  generalize T.functions.foldl (fun s f => func f s) s = s0
  conv_rhs => rw [← List.attach_map_subtype_val T.base_classes, List.foldl_map]
  congr 1
  funext s B
  split
  · split <;> split <;> simp_all [Option.attach]
    rename_i h _
    subst h
    rfl
  · rfl

theorem for_each_bases_wf {σ : Type} (G : AcyclicProgram) (A : AccessSpecifier)
    (func : Func → σ → σ) (fuel : Nat) (T : RecordType)
    (ih : ∀ (M : RecordType) (s : σ), G.rank M < fuel →
      for_each_function_A G.toProgram A func fuel M s = some (for_each_function_wf G A func M s))
    (hT : G.rank T < fuel + 1) (bs : List Base) (hbs : ∀ B ∈ bs, B ∈ T.base_classes) (s : σ) :
    for_each bs (fun B s =>
        if A.toInt ≤ B.access.toInt then
          match G.member_meta B.type with
          | some M => for_each_function_A G.toProgram A func fuel M s
          | none => some s
        else some s) s
      = some (bs.foldl (fun s B =>
          if A.toInt ≤ B.access.toInt then
            match G.member_meta B.type with
            | some M => for_each_function_wf G A func M s
            | none => s
          else s) s) := by
  induction bs generalizing s with
  | nil => rfl
  | cons B bs ihb =>
    have hrest := ihb fun B hB => hbs B (List.mem_cons_of_mem _ hB)
    simp only [for_each, List.foldl_cons]
    by_cases hA : A.toInt ≤ B.access.toInt
    · simp only [hA, if_true]
      cases hm : G.member_meta B.type with
      | none => simp only [Option.some_bind, Option.bind_eq_bind]; exact hrest s
      | some M =>
        have hlt : G.rank M < fuel := by
          have := G.decreasing T B M (hbs B (List.mem_cons_self _ _)) hm
          omega
        simp only []
        rw [ih M s hlt]
        simp only [Option.some_bind, Option.bind_eq_bind]
        exact hrest _
    · simp only [hA, if_false, Option.some_bind, Option.bind_eq_bind]
      exact hrest s

/-- Over an acyclic program the traversal with a bound above the rank of `T` returns, and it
returns the state that the total traversal computes. -/
theorem for_each_function_A_of_rank {σ : Type} (G : AcyclicProgram) (A : AccessSpecifier)
    (func : Func → σ → σ) (fuel : Nat) (T : RecordType) (s : σ) (h : G.rank T < fuel) :
    for_each_function_A G.toProgram A func fuel T s
      = some (for_each_function_wf G A func T s) := by
  induction fuel generalizing T s with
  | zero => omega
  | succ fuel ih =>
    rw [for_each_function_A_succ, for_each_function_wf_eq]
    exact for_each_bases_wf G A func fuel T (fun M s hM => ih M s hM) h T.base_classes
      (fun _ hB => hB) _

theorem for_each_variable_A_ill_formed {σ : Type} (P : Program) (A : AccessSpecifier)
    (func : Var → σ → σ) (fuel : Nat) (T : RecordType) (s : σ) :
    for_each_variable_A P A func fuel T s
      = .ill_formed "no type named 'variable' in 'refl::RecordType'" := by
  have h : T.varTuple "variable" = none := by
    have hne : ¬ ("variable" = "variables") := by decide
    simp [RecordType.varTuple, hne]
  cases fuel <;> simp only [for_each_variable_A, h]

theorem fieldsLoop_instance (spec : ReflSpec) (sname : String) (l : List FieldDecl) :
    ∀ v ∈ fieldsLoop spec sname l, v.is_instance = true := by
  induction l with
  | nil => simp [fieldsLoop]
  | cons it rest ih =>
    intro v hv
    simp only [fieldsLoop] at hv
    split_ifs at hv
    · exact ih v hv
    · exact ih v hv
    · rcases List.mem_cons.1 hv with rfl | hv
      · rfl
      · exact ih v hv

theorem staticsLoop_instance (spec : ReflSpec) (sname : String) (l : List VarDecl) :
    ∀ v ∈ staticsLoop spec sname l, v.is_instance = false := by
  induction l with
  | nil => simp [staticsLoop]
  | cons it rest ih =>
    intro v hv
    simp only [staticsLoop] at hv
    split_ifs at hv
    · rcases List.mem_cons.1 hv with rfl | hv
      · rfl
      · exact ih v hv
    · exact ih v hv

theorem fieldsLoop_cons (spec : ReflSpec) (sname : String) (f : FieldDecl)
    (rest : List FieldDecl) :
    fieldsLoop spec sname (f :: rest) = fieldsLoop spec sname [f] ++ fieldsLoop spec sname rest :=
  fieldsLoop_append spec sname [f] rest

theorem staticsLoop_cons (spec : ReflSpec) (sname : String) (v : VarDecl)
    (rest : List VarDecl) :
    staticsLoop spec sname (v :: rest)
      = staticsLoop spec sname [v] ++ staticsLoop spec sname rest :=
  staticsLoop_append spec sname [v] rest

theorem declaredVariables_instance (spec : ReflSpec) (sname : String)
    (members : List DataMember) :
    (declaredVariables spec sname members).filter (fun v => v.is_instance)
      = fieldsLoop spec sname (fieldsOf members) := by
  induction members with
  | nil => rfl
  | cons m rest ih =>
    cases m with
    | field f =>
      simp only [declaredVariables, fieldsOf, List.filter_append, ih]
      rw [fieldsLoop_cons spec sname f (fieldsOf rest)]
      congr 1
      exact List.filter_eq_self.2 fun v hv => fieldsLoop_instance spec sname [f] v hv
    | staticField w =>
      simp only [declaredVariables, fieldsOf, List.filter_append, ih]
      have : (staticsLoop spec sname [w]).filter (fun v => v.is_instance) = [] :=
        List.filter_eq_nil_iff.2 fun v hv => by
          simp [staticsLoop_instance spec sname [w] v hv]
      rw [this, List.nil_append]

theorem declaredVariables_static (spec : ReflSpec) (sname : String)
    (members : List DataMember) :
    (declaredVariables spec sname members).filter (fun v => !v.is_instance)
      = staticsLoop spec sname (staticFieldsOf members) := by
  induction members with
  | nil => rfl
  | cons m rest ih =>
    cases m with
    | field f =>
      simp only [declaredVariables, staticFieldsOf, List.filter_append, ih]
      have : (fieldsLoop spec sname [f]).filter (fun v => !v.is_instance) = [] :=
        List.filter_eq_nil_iff.2 fun v hv => by
          simp [fieldsLoop_instance spec sname [f] v hv]
      rw [this, List.nil_append]
    | staticField w =>
      simp only [declaredVariables, staticFieldsOf, List.filter_append, ih]
      rw [staticsLoop_cons spec sname w (staticFieldsOf rest)]
      congr 1
      exact List.filter_eq_self.2 fun v hv => by
        simp [staticsLoop_instance spec sname [w] v hv]

theorem declaredVariables_fields_first (spec : ReflSpec) (sname : String)
    (fs : List FieldDecl) (vs : List VarDecl) :
    declaredVariables spec sname (fs.map .field ++ vs.map .staticField)
      = fieldsLoop spec sname fs ++ staticsLoop spec sname vs := by
  induction fs with
  | nil =>
    simp only [List.map_nil, List.nil_append]
    induction vs with
    | nil => rfl
    | cons v vs ihv =>
      simp only [List.map_cons, declaredVariables, ihv]
      simpa [fieldsLoop] using (staticsLoop_cons spec sname v vs).symm
  | cons f fs ih =>
    rw [List.map_cons, List.cons_append, fieldsLoop_cons spec sname f fs, List.append_assoc,
      ← ih]
    rfl

/-- C27, evaluated: `for_each_variable<T, A>` cannot be instantiated for any descriptor `T`,
bound `A` and visitor, because its first statement names the member type `T::variable` and
`refl::RecordType` declares `variables`; so it visits nothing, while the traversal without a
bound, which names `T::variables`, visits the variables of `T` in the order of the list.  For
the descriptor of `None` of the tests the latter visits `a` and `b`. -/
theorem C27_bounded_variable_traversal_ill_formed (P : Program) (A : AccessSpecifier)
    (fuel : Nat) (T : RecordType) (σ : Type) (func : Var → σ → σ) (s : σ) :
    for_each_variable_A P A func fuel T s
        = .ill_formed "no type named 'variable' in 'refl::RecordType'" ∧
      T.varTuple "variables" = some T.variables_ ∧
      for_each_variable T (fun v s => some (func v s)) s
        = some (T.variables_.foldl (fun s v => func v s) s) ∧
      for_each_variable_A Test.program .Public (fun v log => log ++ [v.name]) 2
          (extractRecord Test.None_) []
        = .ill_formed "no type named 'variable' in 'refl::RecordType'" ∧
      for_each_variable (extractRecord Test.None_) (fun v log => some (log ++ [v.name])) []
        = some ["a", "b"] :=
  ⟨for_each_variable_A_ill_formed P A func fuel T s, rfl, for_each_some _ _ _,
    for_each_variable_A_ill_formed _ _ _ _ _ _, by decide⟩

/-- C28 fails as stated: in `struct [[refl::all]] StaticFirst { static int s; int a; };` the
static field `s` is declared before the field `a`, and `for_each_variable` visits `a` before
`s`. -/
theorem C28_counterexample :
    Example.StaticFirst.fields = fieldsOf Example.StaticFirst_members ∧
      Example.StaticFirst.staticFields = staticFieldsOf Example.StaticFirst_members ∧
      (declaredVariables .all "StaticFirst" Example.StaticFirst_members).map Var.name
        = ["s", "a"] ∧
      for_each_variable (extractRecord Example.StaticFirst)
          (fun v log => some (log ++ [v.name])) []
        = some ["a", "s"] := by
  decide

/-- C28, amended: `for_each_variable` without a bound visits the included non-static fields of
the record in declaration order and after them the included static fields in declaration
order.  Among the included data members in declaration order, the non-static ones are the
first part of what is visited and the static ones the second part; when every non-static
field is declared before every static field, what is visited is the included data members in
declaration order. -/
theorem C28_variables_order (recordDecl : CXXRecordDecl) (σ : Type) (func : Var → σ → σ)
    (s : σ) (members : List DataMember) (fs : List FieldDecl) (vs : List VarDecl) :
    for_each_variable (extractRecord recordDecl) (fun v s => some (func v s)) s
        = some ((fieldsLoop (getReflSpec recordDecl.attrs) recordDecl.name recordDecl.fields
            ++ staticsLoop (getReflSpec recordDecl.attrs) recordDecl.name
              recordDecl.staticFields).foldl (fun s v => func v s) s) ∧
      fieldsLoop (getReflSpec recordDecl.attrs) recordDecl.name (fieldsOf members)
        = (declaredVariables (getReflSpec recordDecl.attrs) recordDecl.name members).filter
            (fun v => v.is_instance) ∧
      staticsLoop (getReflSpec recordDecl.attrs) recordDecl.name (staticFieldsOf members)
        = (declaredVariables (getReflSpec recordDecl.attrs) recordDecl.name members).filter
            (fun v => !v.is_instance) ∧
      declaredVariables (getReflSpec recordDecl.attrs) recordDecl.name
          (fs.map .field ++ vs.map .staticField)
        = fieldsLoop (getReflSpec recordDecl.attrs) recordDecl.name fs
          ++ staticsLoop (getReflSpec recordDecl.attrs) recordDecl.name vs :=
  ⟨for_each_some _ _ _, (declaredVariables_instance _ _ _).symm,
    (declaredVariables_static _ _ _).symm, declaredVariables_fields_first _ _ _ _⟩

/-- C29, evaluated at `struct [[refl::none]] IncludedCtor { [[refl::include]] IncludedCtor()
{} [[refl::include]] void foo() {} [[refl::include]] int a; };`: none of the three members
carries a `Tag` directive; the tag lists of the function `foo` and of the variable `a` are
empty, and the tag list of the constructor has one element, the text `refl::include` of its
`Include` directive.  The loop over the attributes of a method or of a field skips an
`Include` directive, the loop over the attributes of a constructor does not.  For `Tags` of
the tests, whose members carry no directive but `Tag` and `Include`, the tag lists are the
payloads. -/
theorem C29_include_is_a_constructor_tag :
    (extractRecord Example.IncludedCtor).constructors.map (fun C => (C.name, C.tags))
        = [("IncludedCtor()", ["refl::include"])] ∧
      (extractRecord Example.IncludedCtor).functions.map (fun F => (F.name, F.tags))
        = [("foo", [])] ∧
      (extractRecord Example.IncludedCtor).variables_.map (fun V => (V.name, V.tags))
        = [("a", [])] ∧
      (∀ attrs : List Attr,
        tagsLoop (MemberDirective.Include.attr :: attrs) = tagsLoop attrs ∧
        constrTagsLoop (MemberDirective.Include.attr :: attrs)
          = "refl::include" :: constrTagsLoop attrs) ∧
      (extractRecord Test.Tags).variables_.map (fun V => (V.name, V.tags))
        = [("a", ["Tag\x7b3\x7d"]), ("b", [])] ∧
      (extractRecord Test.Tags).functions.map (fun F => (F.name, F.tags))
        = [("foo", ["Tag\x7b5\x7d"])] ∧
      (extractRecord Test.Tags).constructors.map (fun C => (C.name, C.tags))
        = [("Tags()", ["Tag\x7b7\x7d", "refl::cxstring\x7b\"seven\"\x7d"])] := by
  refine ⟨by decide, by decide, by decide, ?_, by decide, by decide, by decide⟩
  intro attrs
  have h1 : starts_with "refl::include" "refl_tag" = false := by decide
  have h2 : tagPayload "refl::include" = "refl::include" := by decide
  constructor
  · simp [tagsLoop, MemberDirective.attr, h1]
  · simp [constrTagsLoop, MemberDirective.attr, h2]

/-- C30, evaluated: over every acyclic program, for every descriptor `T` and bound `A`,
`for_each_function<T, A>` returns for every recursion bound above the rank of `T`, and what it
returns is the value of the total traversal defined by well-founded recursion on the base
relation; `for_each_variable<T, A>` returns for no recursion bound, because it cannot be
instantiated.  For `Derived` in the program of the tests with the bound `Private` the first
visits seven functions and the second nothing. -/
theorem C30_traversals (G : AcyclicProgram) (A : AccessSpecifier) (T : RecordType) (k : Nat)
    (σ : Type) :
    (∀ (func : Func → σ → σ) (s : σ),
      for_each_function_A G.toProgram A func (G.rank T + 1 + k) T s
        = some (for_each_function_wf G A func T s)) ∧
    (∀ (func : Var → σ → σ) (fuel : Nat) (s s' : σ),
      for_each_variable_A G.toProgram A func fuel T s ≠ .done s') ∧
    for_each_function_wf Test.acyclic .Private (fun f log => log ++ [f.qualified_name])
        (extractRecord Test.Derived) []
      = ["Derived::bar", "Derived::foo", "Derived::baz", "PrivateBase::bar", "PublicBase::foo",
         "PublicBase::baz", "PublicBase::notOverriden"] ∧
    for_each_variable_A Test.acyclic.toProgram .Private (fun v log => log ++ [v.name]) 3
        (extractRecord Test.Derived) []
      = .ill_formed "no type named 'variable' in 'refl::RecordType'" := by
  refine ⟨?_, ?_, ?_, for_each_variable_A_ill_formed _ _ _ _ _ _⟩
  · intro func s
    exact for_each_function_A_of_rank G A func _ T s (by omega)
  · intro func fuel s s' h
    rw [for_each_variable_A_ill_formed] at h
    cases h
  · have h := for_each_function_A_of_rank Test.acyclic .Private
      (fun f log => log ++ [f.qualified_name]) 3 (extractRecord Test.Derived) []
      (by decide)
    have hrun : for_each_function_A Test.acyclic.toProgram .Private
        (fun f log => log ++ [f.qualified_name]) 3 (extractRecord Test.Derived) []
        = some ["Derived::bar", "Derived::foo", "Derived::baz", "PrivateBase::bar",
            "PublicBase::foo", "PublicBase::baz", "PublicBase::notOverriden"] := by
      decide
    rw [hrun] at h
    exact (Option.some.inj h).symm

/-! ## Lemmas on the attribute handlers -/

theorem classHandler_eq ( Annotation : String) (S : HandlerState) (Attr : ParsedAttr) :
    ReflectClassAttrInfo.handleDeclAttribute Annotation S Attr
      = if Attr.getNumArgs = 0 then
          (.AttributeApplied,
            { S with attrs := S.attrs ++ [AnnotateAttr.Create Annotation Attr.args Attr.range] })
        else
          (.AttributeNotApplied,
            { S with diags := S.diags
                ++ ["'refl::none/all' attributes do not accept arguments"] }) := by
  unfold ReflectClassAttrInfo.handleDeclAttribute
  by_cases h : Attr.getNumArgs = 0
  · have hargs : Attr.args = [] := List.length_eq_zero.1 h
    simp [h, hargs]
  · have hpos : Attr.getNumArgs > 0 := Nat.pos_of_ne_zero h
    simp [h, hpos]

theorem memberHandler_eq ( Annotation : String) (NArg : Nat) (S : HandlerState)
    (Attr : ParsedAttr) :
    ReflectMemberAttrInfo.handleDeclAttribute Annotation NArg S Attr
      = if Attr.getNumArgs = NArg then
          (.AttributeApplied,
            { S with attrs := S.attrs ++ [AnnotateAttr.Create Annotation Attr.args Attr.range] })
        else
          (.AttributeNotApplied,
            { S with diags := S.diags ++
                ["'refl::include/exclude/tag' attribute does not accept that many arguments"] }) := by
  unfold ReflectMemberAttrInfo.handleDeclAttribute
  by_cases h : Attr.getNumArgs = NArg
  · by_cases h0 : Attr.getNumArgs > 0
    · have hN : NArg ≠ 0 := by omega
      simp [h, hN]
    · have hargs : Attr.args = [] := List.length_eq_zero.1 (by
        simp only [ParsedAttr.getNumArgs] at h0; omega)
      simp [h, hargs]
  · simp [h]

theorem handleDeclAttribute_eq (kind : DirectiveKind) (S : HandlerState) (Attr : ParsedAttr) :
    kind.registration.handleDeclAttribute S Attr
      = if Attr.getNumArgs = kind.requiredArgs then
          (.AttributeApplied,
            { S with attrs := S.attrs
                ++ [AnnotateAttr.Create kind.annotation Attr.args Attr.range] })
        else (.AttributeNotApplied, { S with diags := S.diags ++ [kind.error] }) := by
  cases kind
  · exact classHandler_eq _ S Attr
  · exact classHandler_eq _ S Attr
  · exact memberHandler_eq _ _ S Attr
  · exact memberHandler_eq _ _ S Attr
  · exact memberHandler_eq _ _ S Attr

theorem Create_Tag (payload : String) :
    AnnotateAttr.Create "refl_tag" [payload] ("refl_tag(" ++ payload ++ ")")
      = (MemberDirective.Tag payload).attr := by
  simp only [AnnotateAttr.Create, MemberDirective.attr, List.map_cons, List.map_nil,
    String.join, List.foldl_cons, List.foldl_nil]
  congr 1

/-- C31: for each of the five kinds of directive, the handler registered for it applies the
attribute exactly when the number of arguments is the one the kind requires (one for a tag,
none for `Include`, `Exclude`, `All` and `None`); then it reports nothing and attaches one
annotation to the declaration, which is the attribute the extractor reads; otherwise it
reports one error and leaves the attributes of the declaration as they are, so that the
extractor finds no directive that the declaration did not carry before. -/
theorem C31_directive_argument_count (kind : DirectiveKind) (S : HandlerState)
    (Attr : ParsedAttr) :
    (kind.registration.handleDeclAttribute S Attr
      = if Attr.getNumArgs = kind.requiredArgs then
          (.AttributeApplied,
            { S with attrs := S.attrs
                ++ [AnnotateAttr.Create kind.annotation Attr.args Attr.range] })
        else (.AttributeNotApplied, { S with diags := S.diags ++ [kind.error] })) ∧
    ((kind.registration.handleDeclAttribute S Attr).1 = .AttributeApplied
      ↔ Attr.getNumArgs = kind.requiredArgs) ∧
    ((kind.registration.handleDeclAttribute S Attr).2.attrs.length = S.attrs.length + 1
      ↔ Attr.getNumArgs = kind.requiredArgs) ∧
    ((kind.registration.handleDeclAttribute S Attr).2.diags = S.diags
      ↔ Attr.getNumArgs = kind.requiredArgs) ∧
    ((kind.registration.handleDeclAttribute S Attr).2.attrs = S.attrs
      ↔ Attr.getNumArgs ≠ kind.requiredArgs) ∧
    (Z3.handleDeclAttribute ⟨[], []⟩ ⟨[], "refl::all"⟩).2.attrs = [TypeDirective.All.attr] ∧
    (Z1.handleDeclAttribute ⟨[], []⟩ ⟨[], "refl::none"⟩).2.attrs = [TypeDirective.None.attr] ∧
    (Z4.handleDeclAttribute ⟨[], []⟩ ⟨[], "refl::include"⟩).2.attrs
      = [MemberDirective.Include.attr] ∧
    (Z5.handleDeclAttribute ⟨[], []⟩ ⟨[], "refl::exclude"⟩).2.attrs
      = [MemberDirective.Exclude.attr] ∧
    (∀ payload : String,
      (Z6.handleDeclAttribute ⟨[], []⟩ ⟨[payload], "refl_tag(" ++ payload ++ ")"⟩).2.attrs
        = [(MemberDirective.Tag payload).attr]) ∧
    Z6.handleDeclAttribute ⟨[], []⟩ ⟨[], "refl_tag"⟩
      = (.AttributeNotApplied,
          ⟨["'refl::include/exclude/tag' attribute does not accept that many arguments"], []⟩) ∧
    getReflSpec (Z6.handleDeclAttribute ⟨[], []⟩ ⟨[], "refl_tag"⟩).2.attrs = .unknown := by
  have h := handleDeclAttribute_eq kind S Attr
  refine ⟨h, ?_, ?_, ?_, ?_, by decide, by decide, by decide, by decide, ?_, by decide,
    by decide⟩
  · rw [h]; split <;> simp [*]
  · rw [h]; split <;> simp [*]
  · rw [h]; split <;> simp [*]
  · rw [h]; split <;> simp [*]
  · intro payload
    have h6 := handleDeclAttribute_eq .Tag ⟨[], []⟩ ⟨[payload], "refl_tag(" ++ payload ++ ")"⟩
    simp only [DirectiveKind.registration] at h6
    rw [h6]
    simp [ParsedAttr.getNumArgs, DirectiveKind.requiredArgs, DirectiveKind.annotation,
      Create_Tag]

/-- C32: the name of the descriptor of a record or of an enum is the simple name of the
declaration and its qualified name is the qualified name of the declaration; when the two
names of the declaration are equal, as for a declaration at the top level, so are those of
the descriptor.  The test values: `TestingBasics` and `n1::TestingBasics`, `NamspaceEnum` and
`n1::n2::NamspaceEnum`. -/
theorem C32_names (recordDecl : CXXRecordDecl) (enumDecl : EnumDecl) :
    (extractRecord recordDecl).name = recordDecl.name ∧
      (extractRecord recordDecl).qualified_name = recordDecl.qualifiedName ∧
      (extractEnum enumDecl).name = enumDecl.name ∧
      (extractEnum enumDecl).qualified_name = enumDecl.qualifiedName ∧
      ((extractRecord recordDecl).qualified_name = (extractRecord recordDecl).name
        ↔ recordDecl.qualifiedName = recordDecl.name) ∧
      ((extractEnum enumDecl).qualified_name = (extractEnum enumDecl).name
        ↔ enumDecl.qualifiedName = enumDecl.name) ∧
      ((extractRecord Test.TestingBasics).name, (extractRecord Test.TestingBasics).qualified_name)
        = ("TestingBasics", "n1::TestingBasics") ∧
      ((extractEnum Test.NamspaceEnum).name, (extractEnum Test.NamspaceEnum).qualified_name)
        = ("NamspaceEnum", "n1::n2::NamspaceEnum") ∧
      injected_specialization Test.NamspaceEnum = some (extractEnum Test.NamspaceEnum) ∧
      ((extractRecord Test.Derived).name, (extractRecord Test.Derived).qualified_name)
        = ("Derived", "Derived") ∧
      ((extractEnum Test.ScopedEnum).name, (extractEnum Test.ScopedEnum).qualified_name)
        = ("ScopedEnum", "ScopedEnum") :=
  ⟨rfl, rfl, rfl, rfl, Iff.rfl, Iff.rfl, by decide, by decide, by decide, by decide, by decide⟩

theorem mem_fieldsLoop (spec : ReflSpec) (sname : String) (l : List FieldDecl) (V : Var)
    (h : V ∈ fieldsLoop spec sname l) : ∃ it ∈ l, V = emitVar sname it := by
  induction l with
  | nil => simp [fieldsLoop] at h
  | cons it rest ih =>
    simp only [fieldsLoop] at h
    split_ifs at h
    · obtain ⟨it', hit', h'⟩ := ih h
      exact ⟨it', List.mem_cons_of_mem _ hit', h'⟩
    · obtain ⟨it', hit', h'⟩ := ih h
      exact ⟨it', List.mem_cons_of_mem _ hit', h'⟩
    · rcases List.mem_cons.1 h with rfl | h
      · exact ⟨it, List.mem_cons_self _ _, rfl⟩
      · obtain ⟨it', hit', h'⟩ := ih h
        exact ⟨it', List.mem_cons_of_mem _ hit', h'⟩

theorem mem_staticsLoop (spec : ReflSpec) (sname : String) (l : List VarDecl) (V : Var)
    (h : V ∈ staticsLoop spec sname l) : ∃ it ∈ l, V = emitStaticVar sname it := by
  induction l with
  | nil => simp [staticsLoop] at h
  | cons it rest ih =>
    simp only [staticsLoop] at h
    split_ifs at h
    · rcases List.mem_cons.1 h with rfl | h
      · exact ⟨it, List.mem_cons_self _ _, rfl⟩
      · obtain ⟨it', hit', h'⟩ := ih h
        exact ⟨it', List.mem_cons_of_mem _ hit', h'⟩
    · obtain ⟨it', hit', h'⟩ := ih h
      exact ⟨it', List.mem_cons_of_mem _ hit', h'⟩

/-- C33: every entry `V` of the variable list of a descriptor comes either from a non-static
field of the record, and then `is_mutable` is the `mutable` flag of that field, or from a
static field, and then `is_mutable` is false; the flag of the entry of a field does not change
with the access or with the attributes (tags) of the field. -/
theorem C33_is_mutable (recordDecl : CXXRecordDecl) (V : Var)
    (hV : V ∈ (extractRecord recordDecl).variables_) :
    ((∃ it ∈ recordDecl.fields, V = emitVar recordDecl.name it ∧ V.is_instance = true ∧
          V.is_mutable = it.isMutable) ∨
      (∃ it ∈ recordDecl.staticFields, V = emitStaticVar recordDecl.name it ∧
          V.is_instance = false ∧ V.is_mutable = false)) ∧
    (∀ (it : FieldDecl) (access : AccessSpecifier) (attrs : List Attr),
      (emitVar recordDecl.name { it with access := access, attrs := attrs }).is_mutable
        = it.isMutable) ∧
    (∀ (it : VarDecl) (access : AccessSpecifier) (attrs : List Attr),
      (emitStaticVar recordDecl.name { it with access := access, attrs := attrs }).is_mutable
        = false) := by
  refine ⟨?_, fun _ _ _ => rfl, fun _ _ _ => rfl⟩
  simp only [extractRecord, List.mem_append] at hV
  rcases hV with hV | hV
  · obtain ⟨it, hit, rfl⟩ := mem_fieldsLoop _ _ _ V hV
    exact Or.inl ⟨it, hit, rfl, rfl, rfl⟩
  · obtain ⟨it, hit, rfl⟩ := mem_staticsLoop _ _ _ V hV
    exact Or.inr ⟨it, hit, rfl, rfl, rfl⟩

/-- C33 at the records `Members` and `Statics` of the tests: `privateMember` and
`publicMember` are not mutable, `mutableMember` is, and the static `test` is not. -/
theorem C33_is_mutable_witness :
    (extractRecord Test.Members).variables_.map (fun V => (V.name, V.is_mutable))
        = [("privateMember", false), ("publicMember", false), ("mutableMember", true)] ∧
      (extractRecord Test.Statics).variables_.map (fun V => (V.name, V.is_mutable))
        = [("test", false)] ∧
      ((∃ it ∈ Test.Members.fields,
          emitVar "Members" { Test.field "Members" "mutableMember" [] with isMutable := true }
            = emitVar Test.Members.name it ∧
          (emitVar "Members"
            { Test.field "Members" "mutableMember" [] with isMutable := true }).is_instance
            = true ∧
          (emitVar "Members"
            { Test.field "Members" "mutableMember" [] with isMutable := true }).is_mutable
            = it.isMutable) ∨
        (∃ it ∈ Test.Members.staticFields,
          emitVar "Members" { Test.field "Members" "mutableMember" [] with isMutable := true }
            = emitStaticVar Test.Members.name it ∧
          (emitVar "Members"
            { Test.field "Members" "mutableMember" [] with isMutable := true }).is_instance
            = false ∧
          (emitVar "Members"
            { Test.field "Members" "mutableMember" [] with isMutable := true }).is_mutable
            = false)) :=
  ⟨by decide, by decide,
    (C33_is_mutable Test.Members
      (emitVar "Members" { Test.field "Members" "mutableMember" [] with isMutable := true })
      (by decide)).1⟩

/-! ## Lemmas on the parameters -/

theorem handler_append {σ : Type} (f : TypeName → Nat → String → σ → σ)
    (ts : List TypeName) (ns : List String) (hlen : ts.length = ns.length)
    (pre : List TypeName) (pre' : List String) (hpre : pre.length = pre'.length) (s : σ) :
    for_each_parameter.handler (pre ++ ts) (pre' ++ ns) f ts.length pre.length s
      = some ((List.enumFrom pre.length (ts.zip ns)).foldl
          (fun s x => f x.2.1 x.1 x.2.2 s) s) := by
  induction ts generalizing ns pre pre' s with
  | nil => rfl
  | cons t ts ih =>
    cases ns with
    | nil => simp at hlen
    | cons n ns =>
      have h1 : tuple_element pre.length (pre ++ t :: ts) = some t := by
        rw [tuple_element, List.getElem?_append_right (le_refl _), Nat.sub_self]
        simp
      have h2 : (pre' ++ n :: ns)[pre.length]? = some n := by
        rw [hpre, List.getElem?_append_right (le_refl _), Nat.sub_self]
        simp
      simp only [List.length_cons, for_each_parameter.handler, h1, h2, List.zip_cons_cons,
        List.enumFrom_cons, List.foldl_cons]
      have hl : ts.length = ns.length := by simpa using hlen
      have := ih ns hl (pre ++ [t]) (pre' ++ [n]) (by simp [hpre]) (f t pre.length n s)
      simpa [List.append_assoc] using this

theorem for_each_parameter_eq {σ : Type} (parameters : PList)
    (hlen : parameters.types.length = parameters.names.length)
    (func : TypeName → Nat → String → σ → σ) (s : σ) :
    for_each_parameter parameters func s
      = some ((parameters.types.zip parameters.names).enum.foldl
          (fun s x => func x.2.1 x.1 x.2.2 s) s) := by
  have := handler_append func parameters.types parameters.names hlen [] [] rfl s
  simpa [for_each_parameter, tuple_size, List.enum] using this

/-- C34: for the parameters of every entry of the function list and of every entry of the
constructor list of a descriptor, the parameter names are the names of the parameters of the
declaration in declaration order, as many as the parameter types, and `for_each_parameter`
returns after it has called the visitor once for each parameter, in order, with the type, the
index and the name of the parameter: no index is outside the array of the names. -/
theorem C34_parameter_names (recordDecl : CXXRecordDecl) (parameters : PList)
    (h : (∃ F ∈ (extractRecord recordDecl).functions, F.parameters = parameters) ∨
      (∃ C ∈ (extractRecord recordDecl).constructors, C.parameters = parameters)) :
    (∃ it ∈ recordDecl.methods,
        parameters.names = it.parameters.map ParmVarDecl.name ∧
        parameters.types = it.parameters.map (fun p => replace_Bool "bool" p.type)) ∧
      parameters.names.length = parameters.types.length ∧
      (∀ (σ : Type) (func : TypeName → Nat → String → σ → σ) (s : σ),
        for_each_parameter parameters func s
          = some ((parameters.types.zip parameters.names).enum.foldl
              (fun s x => func x.2.1 x.1 x.2.2 s) s)) := by
  have key : ∃ it ∈ recordDecl.methods,
      parameters = { types := it.parameters.map fun p => replace_Bool "bool" p.type,
                     names := it.parameters.map fun p => p.name } := by
    rcases h with ⟨F, hF, rfl⟩ | ⟨C, hC, rfl⟩
    · obtain ⟨it, hit, -, -, -, -, rfl⟩ := mem_functionsLoop _ _ _ F hF
      exact ⟨it, hit, parameters_eq _ _⟩
    · obtain ⟨it, hit, -, -, rfl⟩ := mem_constructorsLoop _ _ _ C hC
      exact ⟨it, hit, constr_parameters_eq _ _⟩
  obtain ⟨it, hit, rfl⟩ := key
  have hlen : (it.parameters.map fun p => p.name).length
      = (it.parameters.map fun p => replace_Bool "bool" p.type).length := by simp
  exact ⟨⟨it, hit, rfl, rfl⟩, hlen, fun σ func s => for_each_parameter_eq _ hlen.symm func s⟩

/-- C34 at `ParamName` of the tests: `foo(int bar, bool baz)` and `ParamName(double foo)`. -/
theorem C34_parameter_names_witness :
    for_each_parameter (emitFunc "ParamName" { Test.method "ParamName" "foo" false with
          parameters := [⟨"int", "bar"⟩, ⟨"_Bool", "baz"⟩] }).parameters
        (fun T I name log => log ++ [(T, I, name)]) []
      = some [("int", 0, "bar"), ("bool", 1, "baz")] ∧
    for_each_parameter (emitConstr "ParamName"
          (Test.ctor "ParamName" [⟨"double", "foo"⟩] [])).parameters
        (fun T I name log => log ++ [(T, I, name)]) []
      = some [("double", 0, "foo")] := by
  obtain ⟨-, -, hF⟩ := C34_parameter_names Test.ParamName
    (emitFunc "ParamName" { Test.method "ParamName" "foo" false with
      parameters := [⟨"int", "bar"⟩, ⟨"_Bool", "baz"⟩] }).parameters
    (Or.inl ⟨_, by decide, rfl⟩)
  obtain ⟨-, -, hC⟩ := C34_parameter_names Test.ParamName
    (emitConstr "ParamName" (Test.ctor "ParamName" [⟨"double", "foo"⟩] [])).parameters
    (Or.inr ⟨_, by decide, rfl⟩)
  rw [hF, hC]
  exact ⟨by decide, by decide⟩

/-! ## Lemmas on the payload of a tag -/

theorem tagPayload_refl_tag (X : String) (hX : X.length + 10 < 2 ^ 64) :
    tagPayload ("refl_tag(" ++ X ++ ")") = X := by
  have hdata : ("refl_tag(" ++ X ++ ")").data
      = 'r' :: 'e' :: 'f' :: 'l' :: '_' :: 't' :: 'a' :: 'g' :: '(' :: (X.data ++ [')']) := by
    simp [String.data_append]
  have hrev : ("refl_tag(" ++ X ++ ")").data.reverse
      = ')' :: (X.data.reverse ++ ['(', 'g', 'a', 't', '_', 'l', 'f', 'e', 'r']) := by
    rw [hdata]; simp
  have hsize : ("refl_tag(" ++ X ++ ")").data.length = X.data.length + 10 := by
    rw [hdata]; simp
  have hfirst : find_first_of ("refl_tag(" ++ X ++ ")") '(' = 8 := by
    simp [find_first_of, hdata, List.indexOf?, List.findIdx?_cons]
  have hlast : find_last_of ("refl_tag(" ++ X ++ ")") ')' = X.data.length + 9 := by
    unfold find_last_of
    rw [hrev, hsize]
    simp [List.indexOf?, List.findIdx?_cons]
  have hlen : X.length = X.data.length := rfl
  rw [hlen] at hX
  have h1 : (8 + 1) % 2 ^ 64 = 9 := by norm_num
  have h2 : (X.data.length + 9 + 2 ^ 64 - 8 + 2 ^ 64 - 1) % 2 ^ 64 = X.data.length := by
    have : X.data.length + 9 + 2 ^ 64 - 8 + 2 ^ 64 - 1 = X.data.length + 2 * 2 ^ 64 := by omega
    rw [this, Nat.add_mul_mod_self_right]
    exact Nat.mod_eq_of_lt (by omega)
  apply String.ext
  unfold tagPayload
  rw [hfirst, hlast]
  simp only [h1, h2, substr, hdata]
  have hdrop : List.drop 9
      ('r' :: 'e' :: 'f' :: 'l' :: '_' :: 't' :: 'a' :: 'g' :: '(' :: (X.data ++ [')']))
      = X.data ++ [')'] := rfl
  rw [hdrop, List.take_left]

/-- C35: for a tag directive with the source text `refl_tag(X)` (of a length that a
`std::string_view` can have), the text that the extractor takes as the tag is `X`, whatever
`X` is, parentheses inside `X` included: the tag list of a function, of a variable (static or
not) and of a constructor that carries the directive starts with `X`. -/
theorem C35_tag_payload (X : String) (hX : X.length + 10 < 2 ^ 64) (rest : List Attr)
    (sname : String) (method : CXXMethodDecl) (field : FieldDecl) (var : VarDecl) :
    tagPayload ("refl_tag(" ++ X ++ ")") = X ∧
      tagsLoop ((MemberDirective.Tag X).attr :: rest) = X :: tagsLoop rest ∧
      constrTagsLoop ((MemberDirective.Tag X).attr :: rest) = X :: constrTagsLoop rest ∧
      (emitFunc sname { method with attrs := (MemberDirective.Tag X).attr :: rest }).tags
        = X :: tagsLoop rest ∧
      (emitVar sname { field with attrs := (MemberDirective.Tag X).attr :: rest }).tags
        = X :: tagsLoop rest ∧
      (emitStaticVar sname { var with attrs := (MemberDirective.Tag X).attr :: rest }).tags
        = X :: tagsLoop rest ∧
      (emitConstr sname { method with attrs := (MemberDirective.Tag X).attr :: rest }).tags
        = X :: constrTagsLoop rest := by
  have hp := tagPayload_refl_tag X hX
  have hs : starts_with ("refl_tag(" ++ X ++ ")") "refl_tag" = true := by
    rw [String.append_assoc]
    exact starts_with_append _ _ _ (by decide)
  have ht : tagsLoop ((MemberDirective.Tag X).attr :: rest) = X :: tagsLoop rest := by
    simp [tagsLoop, MemberDirective.attr, hs, hp]
  have hc : constrTagsLoop ((MemberDirective.Tag X).attr :: rest)
      = X :: constrTagsLoop rest := by
    simp [constrTagsLoop, MemberDirective.attr, hp]
  refine ⟨hp, ht, hc, ?_, ht, ht, ?_⟩
  · simp only [emitFunc]
    exact ht
  · simp only [emitConstr]
    exact hc

/-- C35 at the payload `make(1, (2))`, which contains parentheses. -/
theorem C35_tag_payload_witness :
    tagPayload "refl_tag(make(1, (2)))" = "make(1, (2))" ∧
      (emitFunc "Tags" { Test.method "Tags" "foo" false with
          attrs := [(MemberDirective.Tag "make(1, (2))").attr] }).tags = ["make(1, (2))"] := by
  obtain ⟨h1, -, -, h2, -⟩ := C35_tag_payload "make(1, (2))" (by decide) [] "Tags"
    (Test.method "Tags" "foo" false) (Test.field "Tags" "a" [])
    { name := "s", qualifiedName := "Tags::s", access := .Public, attrs := [] }
  exact ⟨h1, h2⟩

/-! ## Lemmas on the record matches of one pass -/

theorem run_of_mem (self : ReflRecordMatchCallback) (recordDecl : CXXRecordDecl)
    (h : recordDecl.location ∈ self.unique) : self.run recordDecl = self := by
  simp [ReflRecordMatchCallback.run, h]

theorem run_of_not_mem (self : ReflRecordMatchCallback) (recordDecl : CXXRecordDecl)
    (h : recordDecl.location ∉ self.unique) :
    self.run recordDecl
      = { unique := recordDecl.location :: self.unique
          inserted := self.inserted ++ [(recordDecl.location, extractRecord recordDecl)]
          FileID := some recordDecl.location } := by
  simp [ReflRecordMatchCallback.run, h]

theorem matchAST_append (self : ReflRecordMatchCallback) (results : List CXXRecordDecl)
    (recordDecl : CXXRecordDecl) :
    self.matchAST (results ++ [recordDecl]) = (self.matchAST results).run recordDecl := by
  simp [ReflRecordMatchCallback.matchAST, List.foldl_append]

theorem matchAST_invariant (results : List CXXRecordDecl) :
    (∀ loc, loc ∈ (ReflRecordMatchCallback.init.matchAST results).unique
      ↔ ∃ d ∈ results, d.location = loc) ∧
    (∀ loc M, (loc, M) ∈ (ReflRecordMatchCallback.init.matchAST results).inserted
      ↔ ∃ d, results.find? (fun x => decide (x.location = loc)) = some d
          ∧ M = extractRecord d) ∧
    ((ReflRecordMatchCallback.init.matchAST results).inserted.map Prod.fst).Nodup := by
  induction results using List.reverseRecOn with
  | nil =>
    simp [ReflRecordMatchCallback.matchAST, ReflRecordMatchCallback.init]
  | append_singleton l d ih =>
    obtain ⟨I1, I2, I3⟩ := ih
    rw [matchAST_append]
    have hfind : ∀ loc, l.find? (fun x => decide (x.location = loc)) = none
        ↔ loc ∉ (ReflRecordMatchCallback.init.matchAST l).unique := by
      intro loc
      rw [I1 loc, List.find?_eq_none]
      simp
    have hfst : ∀ loc, loc ∈ (ReflRecordMatchCallback.init.matchAST l).inserted.map Prod.fst
        → loc ∈ (ReflRecordMatchCallback.init.matchAST l).unique := by
      intro loc hloc
      obtain ⟨⟨loc', M⟩, hmem, rfl⟩ := List.mem_map.1 hloc
      obtain ⟨d', hd', -⟩ := (I2 loc' M).1 hmem
      by_contra hnot
      rw [(hfind loc').2 hnot] at hd'
      cases hd'
    by_cases hd : d.location ∈ (ReflRecordMatchCallback.init.matchAST l).unique
    · rw [run_of_mem _ _ hd]
      refine ⟨?_, ?_, I3⟩
      · intro loc
        rw [I1 loc]
        constructor
        · rintro ⟨x, hx, rfl⟩
          exact ⟨x, List.mem_append_left _ hx, rfl⟩
        · rintro ⟨x, hx, rfl⟩
          rcases List.mem_append.1 hx with hx | hx
          · exact ⟨x, hx, rfl⟩
          · rw [List.mem_singleton.1 hx]
            exact (I1 _).1 hd
      · intro loc M
        rw [I2 loc M, List.find?_append]
        cases hl : l.find? (fun x => decide (x.location = loc)) with
        | some x => simp
        | none =>
          have hne : d.location ≠ loc := by
            rintro rfl
            exact (hfind _).1 hl hd
          simp [List.find?, hne]
    · rw [run_of_not_mem _ _ hd]
      refine ⟨?_, ?_, ?_⟩
      · intro loc
        show loc ∈ d.location :: (ReflRecordMatchCallback.init.matchAST l).unique ↔ _
        rw [List.mem_cons, I1 loc]
        constructor
        · rintro (rfl | ⟨x, hx, rfl⟩)
          · exact ⟨d, List.mem_append_right _ (List.mem_singleton.2 rfl), rfl⟩
          · exact ⟨x, List.mem_append_left _ hx, rfl⟩
        · rintro ⟨x, hx, rfl⟩
          rcases List.mem_append.1 hx with hx | hx
          · exact Or.inr ⟨x, hx, rfl⟩
          · rw [List.mem_singleton.1 hx]
            exact Or.inl rfl
      · intro loc M
        simp only [List.mem_append, List.mem_singleton, Prod.mk.injEq, I2 loc M,
          List.find?_append]
        cases hl : l.find? (fun x => decide (x.location = loc)) with
        | some x =>
          have hx : loc ∈ (ReflRecordMatchCallback.init.matchAST l).unique := by
            by_contra hnot
            rw [(hfind loc).2 hnot] at hl
            cases hl
          have hne : loc ≠ d.location := by
            rintro rfl
            exact hd hx
          simp [hne]
        | none =>
          by_cases hloc : d.location = loc
          · subst hloc
            simp [List.find?]
          · have hloc' : ¬ loc = d.location := fun h => hloc h.symm
            simp [List.find?, hloc, hloc']
      · rw [List.map_append, List.map_singleton]
        exact List.Nodup.append I3 (List.nodup_singleton _) (by
          intro loc h1 h2
          rw [List.mem_singleton.1 h2] at h1
          exact hd (hfst _ h1))

/-- C36: over every sequence of record matches that one pass hands to the callback, the texts
inserted have pairwise different locations (at most one for a location); the text inserted
for a location is the descriptor of the first match at that location, and the locations
recorded in `unique` are those of the matches so far; a further match at a recorded location
leaves the whole state as it is, and a further match at a new location inserts its descriptor
and records its location.  For the template `TemplateTest` of the tests, its instantiation
`TemplateTest<int>` (same location) and its specialization `TemplateTest<bool>`, two texts are
inserted. -/
theorem C36_once_per_location (results : List CXXRecordDecl) (recordDecl : CXXRecordDecl) :
    ((ReflRecordMatchCallback.init.matchAST results).inserted.map Prod.fst).Nodup ∧
    (∀ loc : Nat,
      ((ReflRecordMatchCallback.init.matchAST results).inserted.map Prod.fst).count loc ≤ 1) ∧
    (∀ (loc : Nat) (M : RecordType),
      (loc, M) ∈ (ReflRecordMatchCallback.init.matchAST results).inserted
        ↔ ∃ d, results.find? (fun x => decide (x.location = loc)) = some d
            ∧ M = extractRecord d) ∧
    (∀ loc : Nat, loc ∈ (ReflRecordMatchCallback.init.matchAST results).unique
      ↔ ∃ d ∈ results, d.location = loc) ∧
    (ReflRecordMatchCallback.init.matchAST (results ++ [recordDecl])
      = if recordDecl.location ∈ (ReflRecordMatchCallback.init.matchAST results).unique then
          ReflRecordMatchCallback.init.matchAST results
        else
          { unique := recordDecl.location
              :: (ReflRecordMatchCallback.init.matchAST results).unique
            inserted := (ReflRecordMatchCallback.init.matchAST results).inserted
              ++ [(recordDecl.location, extractRecord recordDecl)]
            FileID := some recordDecl.location }) ∧
    (ReflRecordMatchCallback.init.matchAST
        [Test.TemplateTest, Test.TemplateTest_int, Test.TemplateTest_bool]).inserted
      = [(156, extractRecord Test.TemplateTest), (196, extractRecord Test.TemplateTest_bool)] ∧
    ReflRecordMatchCallback.init.matchAST [Test.TemplateTest, Test.TemplateTest_int]
      = ReflRecordMatchCallback.init.matchAST [Test.TemplateTest] := by
  obtain ⟨I1, I2, I3⟩ := matchAST_invariant results
  refine ⟨I3, fun loc => List.nodup_iff_count_le_one.1 I3 loc, I2, I1, ?_, by decide,
    by decide⟩
  rw [matchAST_append]
  by_cases h : recordDecl.location ∈ (ReflRecordMatchCallback.init.matchAST results).unique
  · rw [run_of_mem _ _ h, if_pos h]
  · rw [run_of_not_mem _ _ h, if_neg h]

/-! ## Lemmas on the visit sequences of two bounds -/

theorem base_sequence_sublist (P : Program) (A A' : AccessSpecifier)
    (hA : A.toInt ≤ A'.toInt) (v v' : RecordType → Option (List Func))
    (hv : ∀ M seq seq', v M = some seq → v' M = some seq' → seq'.Sublist seq)
    (B : Base) (part part' : List Func) (h : base_sequence P A v B = some part)
    (h' : base_sequence P A' v' B = some part') : part'.Sublist part := by
  unfold base_sequence at h h'
  by_cases hB' : A'.toInt ≤ B.access.toInt
  · have hB : A.toInt ≤ B.access.toInt := le_trans hA hB'
    simp only [hB, hB', if_true] at h h'
    cases hm : P.member_meta B.type with
    | none =>
      simp only [hm, Option.some.injEq] at h h'
      rw [← h, ← h']
    | some M =>
      simp only [hm] at h h'
      exact hv M part part' h h'
  · simp only [hB', if_false, Option.some.injEq] at h'
    rw [← h']
    exact List.nil_sublist _

theorem inherited_sequence_sublist (P : Program) (A A' : AccessSpecifier)
    (hA : A.toInt ≤ A'.toInt) (v v' : RecordType → Option (List Func))
    (hv : ∀ M seq seq', v M = some seq → v' M = some seq' → seq'.Sublist seq)
    (bs : List Base) (seq seq' : List Func) (h : inherited_sequence P A v bs = some seq)
    (h' : inherited_sequence P A' v' bs = some seq') : seq'.Sublist seq := by
  induction bs generalizing seq seq' with
  | nil =>
    simp only [inherited_sequence, Option.some.injEq] at h h'
    rw [← h, ← h']
  | cons B bs ih =>
    rw [inherited_sequence_cons_some] at h h'
    obtain ⟨part, rest, hpart, hrest, rfl⟩ := h
    obtain ⟨part', rest', hpart', hrest', rfl⟩ := h'
    exact List.Sublist.append (base_sequence_sublist P A A' hA v v' hv B part part' hpart hpart')
      (ih rest rest' hrest hrest')

theorem visit_sequence_sublist (P : Program) (A A' : AccessSpecifier)
    (hA : A.toInt ≤ A'.toInt) (n : Nat) (T : RecordType) (seq seq' : List Func)
    (h : visit_sequence P A n T = some seq) (h' : visit_sequence P A' n T = some seq') :
    seq'.Sublist seq := by
  induction n generalizing T seq seq' with
  | zero => simp [visit_sequence] at h
  | succ n ih =>
    simp only [visit_sequence, Option.map_eq_some'] at h h'
    obtain ⟨inh, hinh, rfl⟩ := h
    obtain ⟨inh', hinh', rfl⟩ := h'
    exact List.Sublist.append (List.Sublist.refl _)
      (inherited_sequence_sublist P A A' hA _ _ (fun M s s' hs hs' => ih M s s' hs hs')
        T.base_classes inh inh' hinh hinh')

theorem visit_sequence_prefix (P : Program) (A : AccessSpecifier) (n : Nat) (T : RecordType)
    (seq : List Func) (h : visit_sequence P A n T = some seq) : T.functions <+: seq := by
  cases n with
  | zero => simp [visit_sequence] at h
  | succ n =>
    simp only [visit_sequence, Option.map_eq_some'] at h
    obtain ⟨inh, -, rfl⟩ := h
    exact List.prefix_append _ _

theorem foldl_log {α β : Type} (g : α → β) (l : List α) (init : List β) :
    l.foldl (fun log x => log ++ [g x]) init = init ++ l.map g := by
  induction l generalizing init with
  | nil => simp
  | cons x xs ih => simp [ih]

/-- C37: for a descriptor `T` with a base graph of height below the recursion bound and two
access bounds `A ≤ A'`, `for_each_function<T, A>` and `for_each_function<T, A'>` return, each
after it has called the visitor along one sequence; the sequence of `A'` is a subsequence of
the sequence of `A`, and the functions of `T`, which `for_each_function<T>` without a bound
visits, are a prefix of both.  Nothing is dropped as a duplicate: for `Bottom`, whose bases
`Left` and `Right` both have the base `Top`, the function `Top::t` is visited twice. -/
theorem C37_bounds_and_subsequences (P : Program) (A A' : AccessSpecifier)
    (hA : A.toInt ≤ A'.toInt) (fuel : Nat) (T : RecordType)
    (hT : heightBelow P fuel T = true) :
    ∃ seq seq' : List Func,
      (∀ (σ : Type) (func : Func → σ → σ) (s : σ),
        for_each_function_A P A func fuel T s = some (seq.foldl (fun s f => func f s) s) ∧
        for_each_function_A P A' func fuel T s = some (seq'.foldl (fun s f => func f s) s) ∧
        for_each_function T (fun f s => some (func f s)) s
          = some (T.functions.foldl (fun s f => func f s) s)) ∧
      seq'.Sublist seq ∧ T.functions <+: seq ∧ T.functions <+: seq' ∧
      Example.Bottom_meta.map (fun M =>
          for_each_function_A (compile 3 Example.diamond) .Public
            (fun f log => log ++ [f.qualified_name]) 3 M [])
        = some (some ["Bottom::b", "Top::t", "Top::t"]) := by
  obtain ⟨seq, hseq⟩ := visit_sequence_isSome P A fuel T hT
  obtain ⟨seq', hseq'⟩ := visit_sequence_isSome P A' fuel T hT
  refine ⟨seq, seq', ?_, visit_sequence_sublist P A A' hA fuel T seq seq' hseq hseq',
    visit_sequence_prefix P A fuel T seq hseq, visit_sequence_prefix P A' fuel T seq' hseq',
    by decide⟩
  intro σ func s
  refine ⟨?_, ?_, for_each_some _ _ _⟩
  · rw [for_each_function_A_refines, hseq]; rfl
  · rw [for_each_function_A_refines, hseq']; rfl

/-- C37 at `Derived` of the tests with the bounds `Private` and `Public`: the six functions
visited under `Public` are a subsequence of the seven visited under `Private`, and both start
with the three functions of `Derived`. -/
theorem C37_bounds_and_subsequences_witness :
    ∃ seq seq' : List Func,
      for_each_function_A Test.program .Private (fun f log => log ++ [f.qualified_name]) 2
          (extractRecord Test.Derived) []
        = some (seq.map Func.qualified_name) ∧
      for_each_function_A Test.program .Public (fun f log => log ++ [f.qualified_name]) 2
          (extractRecord Test.Derived) []
        = some (seq'.map Func.qualified_name) ∧
      seq'.Sublist seq ∧ (extractRecord Test.Derived).functions <+: seq ∧
      (extractRecord Test.Derived).functions <+: seq' := by
  obtain ⟨seq, seq', hrun, hsub, hpre, hpre', -⟩ :=
    C37_bounds_and_subsequences Test.program .Private .Public (by decide) 2
      (extractRecord Test.Derived) (by decide)
  refine ⟨seq, seq', ?_, ?_, hsub, hpre, hpre'⟩
  · rw [(hrun _ (fun f log => log ++ [f.qualified_name]) []).1, foldl_log, List.nil_append]
  · rw [(hrun _ (fun f log => log ++ [f.qualified_name]) []).2.1, foldl_log, List.nil_append]

/-! ## Lemmas on the round trip of the names -/

/-- C38: for a reflected enum (the specialization `refl::meta<E>` is the one printed for the
declaration `enumDecl`) whose enumerator values are pairwise distinct and every declared
enumerator `c`, `from_string(c.name)` returns a present value `v`, `to_string(v)` returns the
name of `c`, and so does `to_string_safe(v)`. -/
theorem C38_name_round_trip (P : Program) (E : TypeName) (enumDecl : EnumDecl)
    (hE : P.meta_specialization E = some (extractEnum enumDecl))
    (hvalues : (enumDecl.enumerators.map EnumConstantDecl.value).Nodup)
    (c : EnumConstantDecl) (hc : c ∈ enumDecl.enumerators) :
    ∃ v, e.from_string P E c.name = .ok (some v) ∧ e.to_string P E v = .ok c.name ∧
      e.to_string_safe P E v = .ok c.name := by
  simp only [e.to_string, e.to_string_safe, e.from_string, withMeta_reflected P E _ _ hE,
    EnumMeta.from_string]
  cases hf : EnumMeta.fromLoop (extractEnum enumDecl).enumerators c.name with
  | none => exact absurd rfl ((fromLoop_enumeratorsLoop_none _ _).1 hf c hc)
  | some v =>
    obtain ⟨c', hc', hn, hv⟩ := fromLoop_enumeratorsLoop_some _ _ _ hf
    have hs := selectCase_casesLoop_mem _ hvalues c' hc'
    rw [hv, hn] at hs
    exact ⟨v, rfl, to_string_of_some enumDecl hvalues v _ hs,
      to_string_safe_of_some enumDecl hvalues v _ hs⟩

/-- C38 at `ScopedEnum` of the tests and its enumerator `eVal2 = 5`. -/
theorem C38_name_round_trip_witness :
    ∃ v, e.from_string Test.program "ScopedEnum" "eVal2" = .ok (some v) ∧
      e.to_string Test.program "ScopedEnum" v = .ok "eVal2" ∧
      e.to_string_safe Test.program "ScopedEnum" v = .ok "eVal2" :=
  C38_name_round_trip Test.program "ScopedEnum" Test.ScopedEnum (by decide) (by decide)
    ⟨"eVal2", 5⟩ (by decide)

theorem constructorsLoop_all (sname : String) (l : List CXXMethodDecl) :
    constructorsLoop .all sname l = (l.filter listedConstructor).map (emitConstr sname) := by
  induction l with
  | nil => rfl
  | cons it rest ih =>
    rcases h1 : it.isConstructor with _ | _ <;> rcases h2 : it.isDeleted with _ | _ <;>
      by_cases hx : getReflSpec it.attrs = .exclude <;>
      simp [constructorsLoop, List.filter_cons, listedConstructor, h1, h2, hx, ih]

theorem constLvalueRef_ne_rvalueRef (T : TypeName) : constLvalueRef T ≠ rvalueRef T := by
  intro h
  have := congrArg String.length h
  simp only [constLvalueRef, rvalueRef, String.length_append] at this
  have h1 : "const ".length = 6 := by decide
  have h2 : " &".length = 2 := by decide
  have h3 : " &&".length = 3 := by decide
  omega

theorem constLvalueRef_ne_int (T : TypeName) : constLvalueRef T ≠ "int" := by
  intro h
  have := congrArg String.data h
  simp [constLvalueRef, String.data_append] at this

theorem constLvalueRef_ne_bool (T : TypeName) : constLvalueRef T ≠ "bool" := by
  intro h
  have := congrArg String.data h
  simp [constLvalueRef, String.data_append] at this

theorem rvalueRef_ne_int (T : TypeName) : rvalueRef T ≠ "int" := by
  intro h
  have := congrArg (fun s : String => s.data.reverse) h
  simp [rvalueRef, String.data_append] at this

theorem rvalueRef_ne_bool (T : TypeName) : rvalueRef T ≠ "bool" := by
  intro h
  have := congrArg (fun s : String => s.data.reverse) h
  simp [rvalueRef, String.data_append] at this

theorem emitConstr_types (sname : String) (it : CXXMethodDecl) (ts : List TypeName)
    (h : it.parameters.map ParmVarDecl.type = ts) :
    (emitConstr sname it).type = sname ∧
      (emitConstr sname it).parameters.types = ts.map (replace_Bool "bool") := by
  constructor
  · simp [emitConstr]
  · rw [constr_parameters_eq, ← h, List.map_map]
    rfl

/-- For every record with mode `All` whose constructors in `methods()` are, in this order,
`T()`, `T(const T&)`, `T(T&&)`, `T(int)`, `T(bool)` and `T(int, double)`, none of them deleted
or excluded, and for which the replacement of `_Bool` does not touch the spellings `const T &`
and `T &&`: the constructor list has these six entries, and the three predicates give default
for the first, copy for the second, move for the third and nothing for the others. -/
theorem constructors_classified (recordDecl : CXXRecordDecl) (rest : List Attr)
    (hmode : recordDecl.attrs = TypeDirective.All.attr :: rest)
    (c0 c1 c2 c3 c4 c5 : CXXMethodDecl)
    (hctors : recordDecl.methods.filter (fun it => it.isConstructor) = [c0, c1, c2, c3, c4, c5])
    (hlisted : ∀ it ∈ [c0, c1, c2, c3, c4, c5],
      it.isDeleted = false ∧ getReflSpec it.attrs ≠ .exclude)
    (h0 : c0.parameters.map ParmVarDecl.type = [])
    (h1 : c1.parameters.map ParmVarDecl.type = [constLvalueRef recordDecl.name])
    (h2 : c2.parameters.map ParmVarDecl.type = [rvalueRef recordDecl.name])
    (h3 : c3.parameters.map ParmVarDecl.type = ["int"])
    (h4 : c4.parameters.map ParmVarDecl.type = ["_Bool"])
    (h5 : c5.parameters.map ParmVarDecl.type = ["int", "double"])
    (hcopy : contains (constLvalueRef recordDecl.name) "_Bool" = false)
    (hmove : contains (rvalueRef recordDecl.name) "_Bool" = false) :
    (extractRecord recordDecl).constructors
        = [c0, c1, c2, c3, c4, c5].map (emitConstr recordDecl.name) ∧
      (extractRecord recordDecl).constructors.length = 6 ∧
      (extractRecord recordDecl).constructors.map
          (fun C => (C.is_default, C.is_copy, C.is_move_copy))
        = [(true, some false, none), (false, some true, some false),
           (false, some false, some true), (false, some false, some false),
           (false, some false, some false), (false, some false, some false)] := by
  have hspec : getReflSpec recordDecl.attrs = .all := by rw [hmode, getReflSpec_All_cons]
  have hfilter : recordDecl.methods.filter listedConstructor = [c0, c1, c2, c3, c4, c5] := by
    have hsplit : recordDecl.methods.filter listedConstructor
        = (recordDecl.methods.filter (fun it => it.isConstructor)).filter
            (fun it => !it.isDeleted && decide (getReflSpec it.attrs ≠ .exclude)) := by
      rw [List.filter_filter]
      congr 1
      funext it
      simp only [listedConstructor]
      cases it.isConstructor <;> cases it.isDeleted <;> simp
    rw [hsplit, hctors]
    apply List.filter_eq_self.2
    intro it hit
    obtain ⟨hd, hx⟩ := hlisted it hit
    simp [hd, hx]
  have hlist : (extractRecord recordDecl).constructors
      = [c0, c1, c2, c3, c4, c5].map (emitConstr recordDecl.name) := by
    simp only [extractRecord, hspec]
    rw [constructorsLoop_all, hfilter]
  have r1 : replace_Bool "bool" (constLvalueRef recordDecl.name)
      = constLvalueRef recordDecl.name := replace_Bool_of_not_contains _ _ hcopy
  have r2 : replace_Bool "bool" (rvalueRef recordDecl.name) = rvalueRef recordDecl.name :=
    replace_Bool_of_not_contains _ _ hmove
  have r3 : replace_Bool "bool" "int" = "int" := by decide
  have r4 : replace_Bool "bool" "_Bool" = "bool" := by decide
  have r5 : replace_Bool "bool" "double" = "double" := by decide
  obtain ⟨t0, p0⟩ := emitConstr_types recordDecl.name c0 _ h0
  obtain ⟨t1, p1⟩ := emitConstr_types recordDecl.name c1 _ h1
  obtain ⟨t2, p2⟩ := emitConstr_types recordDecl.name c2 _ h2
  obtain ⟨t3, p3⟩ := emitConstr_types recordDecl.name c3 _ h3
  obtain ⟨t4, p4⟩ := emitConstr_types recordDecl.name c4 _ h4
  obtain ⟨t5, p5⟩ := emitConstr_types recordDecl.name c5 _ h5
  simp only [List.map_cons, List.map_nil, r1, r2, r3, r4, r5] at p0 p1 p2 p3 p4 p5
  have n1 := constLvalueRef_ne_rvalueRef recordDecl.name
  have n2 := constLvalueRef_ne_int recordDecl.name
  have n3 := constLvalueRef_ne_bool recordDecl.name
  have n4 := rvalueRef_ne_int recordDecl.name
  have n5 := rvalueRef_ne_bool recordDecl.name
  refine ⟨hlist, by rw [hlist]; rfl, ?_⟩
  rw [hlist]
  simp [Constr.is_default, Constr.is_copy, Constr.is_move_copy, tuple_size, tuple_element,
    is_same, t0, t1, t2, t3, t4, t5, p0, p1, p2, p3, p4, p5, n1, n1.symm, n2, n3, n4, n5,
    n2.symm, n3.symm, n4.symm, n5.symm]

/-- C15, evaluated at `struct [[refl::all]] A_Bool` with the constructors `A_Bool()`,
`A_Bool(const A_Bool&)`, `A_Bool(A_Bool&&)`, `A_Bool(int)`, `A_Bool(bool)`,
`A_Bool(int, double)` and a constructor template: the constructor list has six entries, one
has `is_default()` true, and none has `is_copy()` or `is_move_copy()` true, because the
replacement of `_Bool` by `bool` turns the parameter types `const A_Bool &` and `A_Bool &&`
into `const Abool &` and `Abool &&`.  For the record `Constructors` of the tests the counts
are six, one, one and one, no entry has two of the predicates true, and the chain of the test
classifies the entries as default, copy, move and three others. -/
theorem C15_constructors_of_A_Bool :
    (extractRecord Example.A_Bool).constructors.map Constr.name
      = ["A_Bool()", "A_Bool(const Abool &)", "A_Bool(Abool &&)", "A_Bool(int)",
         "A_Bool(bool)", "A_Bool(int,double)"] ∧
    ((extractRecord Example.A_Bool).constructors.filter fun C => C.is_default).length = 1 ∧
    ((extractRecord Example.A_Bool).constructors.filter
      fun C => C.is_copy == some true).length = 0 ∧
    ((extractRecord Example.A_Bool).constructors.filter
      fun C => C.is_move_copy == some true).length = 0 ∧
    (extractRecord Example.A_Bool).constructors.map Test.classify
      = [some .Default, some .Other, some .Other, some .Other, some .Other, some .Other] ∧
    (extractRecord Test.Constructors).constructors.length = 6 ∧
    ((extractRecord Test.Constructors).constructors.filter
      fun C => C.is_default).length = 1 ∧
    ((extractRecord Test.Constructors).constructors.filter
      fun C => C.is_copy == some true).length = 1 ∧
    ((extractRecord Test.Constructors).constructors.filter
      fun C => C.is_move_copy == some true).length = 1 ∧
    (∀ C ∈ (extractRecord Test.Constructors).constructors,
      ¬(C.is_default = true ∧ C.is_copy = some true) ∧
      ¬(C.is_default = true ∧ C.is_move_copy = some true) ∧
      ¬(C.is_copy = some true ∧ C.is_move_copy = some true)) ∧
    (extractRecord Test.Constructors).constructors.map (fun C => (C.name, Test.classify C))
      = [("Constructors()", some .Default),
         ("Constructors(const Constructors &)", some .Copy),
         ("Constructors(Constructors &&)", some .Move),
         ("Constructors(int)", some .Other),
         ("Constructors(bool)", some .Other),
         ("Constructors(int,double)", some .Other)] := by
  decide

end Refl
